import Mathlib

/-! # ReShade runtime core (CemuVR)

The effect/technique registry, preset cycling and uniform marshalling.

A shallow embedding of `source/runtime.cpp` / `source/runtime.hpp`.

Conventions of the embedding:

* The members of `reshade::runtime` that the modelled functions read or write are the
  fields of the structure `runtime`; a member function becomes a function taking the
  state and returning the new state.
* A `technique &` argument always refers to an element of `_techniques`; it is modelled by
  its position in `_techniques`.
* Undefined behaviour of the C++ code (an index outside a `std::vector`, a failing
  `assert`, a copy running over the end of a buffer) is the result `none`.
* `size_t` counters and indices are natural numbers: they count elements of in-memory
  containers and are incremented by one per call, so they stay far below `2^64`.
* Bytes are natural numbers below 256, memory is a list of bytes, little endian (the
  program only targets x86/x64 Windows).
-/

namespace reshade

/-! ## Data model -/

/-- Modelled from the spec: `moving_average` is declared in `moving_average.hpp`, which is
not part of the sources at hand.  The spec only says that the running averages of the
CPU/GPU durations are "cleared on disable"; the model keeps the recorded samples and
`clear` drops all of them. -/
structure moving_average where
  samples : List Nat
  deriving DecidableEq, Repr

/-- The effect of `moving_average::clear()`. -/
def moving_average.clear (_a : moving_average) : moving_average := ⟨[]⟩

/-- Modelled from the spec: `struct technique` is declared in `runtime_objects.hpp`, which is
not part of the sources at hand.  The fields are the members used by `runtime.cpp`
(`name`, `effect_index`, `enabled`, `timeout`, `timeleft`, `impl`, `toggle_key_data`,
the two duration averages and the integer annotations read by `annotation_as_int`).
`impl` is the backend handle, `none` standing for `nullptr`. -/
structure technique where
  name : String
  effect_index : Nat
  enabled : Bool
  timeout : Int
  timeleft : Int
  impl : Option Nat
  toggle_key_data : List Nat
  int_annotations : List (String × Int)
  average_cpu_duration : moving_average
  average_gpu_duration : moving_average
  deriving DecidableEq, Repr

/-- Modelled from the spec: `struct effect_data` is declared in `runtime_objects.hpp`, which
is not part of the sources at hand.  `rendering` is the "rendering reference count (number of
currently-enabled techniques belonging to it)" which "must never go negative"; it is an
integer, `rendering++` adds one and `rendering--` subtracts one. -/
structure effect_data where
  source_file : String
  compile_sucess : Bool
  rendering : Int
  deriving DecidableEq, Repr

/-- The enumeration `reshadefx::type::datatype`, restricted to the base types that
`runtime.cpp` distinguishes. -/
inductive datatype where
  | t_bool
  | t_int
  | t_uint
  | t_float
  deriving DecidableEq, Repr

/-- Modelled from the spec: `reshadefx::type` is declared in the effect compiler, which is
not part of the sources at hand: a base type with a component count of `rows * cols`. -/
structure type where
  base : datatype
  rows : Nat
  cols : Nat
  deriving DecidableEq, Repr

/-- Modelled from the spec: `type::is_floating_point()`, true for the float base type. -/
def type.is_floating_point (t : type) : Bool :=
  match t.base with
  | datatype.t_float => true
  | _ => false

/-- Modelled from the spec: `type::is_signed()`, true for the base types int and float. -/
def type.is_signed (t : type) : Bool :=
  match t.base with
  | datatype.t_int => true
  | datatype.t_float => true
  | _ => false

/-- Modelled from the spec: `type::components()`, the number of scalar components. -/
def type.components (t : type) : Nat := t.rows * t.cols

/-- Modelled from the spec: `struct uniform` is declared in `runtime_objects.hpp`, which is
not part of the sources at hand.  `size` and `storage_offset` are in bytes,
`initializer_value` is the 64 bytes of the `reshadefx::constant` union and `special`
is zero for `special_uniform::none`. -/
structure uniform where
  name : String
  type : type
  size : Nat
  storage_offset : Nat
  effect_index : Nat
  has_initializer_value : Bool
  initializer_value : List Nat
  special : Nat
  deriving DecidableEq, Repr

/-- The members of `reshade::runtime` (runtime.hpp) used by the modelled functions.
A `std::filesystem::path` is a string, a time point or duration a number of microseconds. -/
structure runtime where
  _renderer_id : Nat
  _uniforms : List uniform
  _techniques : List technique
  _uniform_data_storage : List Nat
  _effects_enabled : Bool
  _ignore_shortcuts : Bool
  _preset_transition_delay : Int
  _current_preset_path : String
  _preset_preprocessor_definitions : List String
  _performance_mode : Bool
  _should_save_screenshot : Bool
  _is_in_between_presets_transition : Bool
  _reload_total_effects : Nat
  _reload_compile_queue : List Nat
  _reload_remaining_effects : Nat
  _loaded_effects : List effect_data
  _last_frame_duration : Int
  _last_present_time : Int
  _last_preset_switching_time : Int
  deriving DecidableEq, Repr

/-! ## Effect/technique registry -/

/-- The member function `runtime::enable_technique` (runtime.cpp 327-346); `t` is the
position of the technique in `_techniques`. -/
def enable_technique (s : runtime) (t : Nat) : Option runtime :=
  match s._techniques[t]? with
  | none => none
  | some technique =>
    match s._loaded_effects[technique.effect_index]? with
    | none => none
    | some effect =>
      if !effect.compile_sucess then
        some s -- Cannot enable techniques that failed to compile
      else
        let status_changed := !technique.enabled
        let s1 : runtime := { s with
          _techniques := s._techniques.set t
            { technique with enabled := true, timeleft := technique.timeout } }
        -- Queue effect file for compilation if it was not fully loaded yet
        let s2 : runtime :=
          if technique.impl = none ∧ technique.effect_index ∉ s1._reload_compile_queue then
            { s1 with
              _reload_total_effects := s1._reload_total_effects + 1
              _reload_compile_queue := s1._reload_compile_queue ++ [technique.effect_index] }
          else s1
        if status_changed then -- Increase rendering reference count
          some { s2 with
            _loaded_effects := s2._loaded_effects.set technique.effect_index
              { effect with rendering := effect.rendering + 1 } }
        else
          some s2

/-- The member function `runtime::disable_technique` (runtime.cpp 347-357); `t` is the
position of the technique in `_techniques`. -/
def disable_technique (s : runtime) (t : Nat) : Option runtime :=
  match s._techniques[t]? with
  | none => none
  | some technique =>
    let status_changed := technique.enabled
    let s1 : runtime := { s with
      _techniques := s._techniques.set t
        { technique with
          enabled := false
          timeleft := 0
          average_cpu_duration := technique.average_cpu_duration.clear
          average_gpu_duration := technique.average_gpu_duration.clear } }
    if status_changed then -- Decrease rendering reference count
      match s1._loaded_effects[technique.effect_index]? with
      | none => none
      | some effect =>
        some { s1 with
          _loaded_effects := s1._loaded_effects.set technique.effect_index
            { effect with rendering := effect.rendering - 1 } }
    else
      some s1

/-- One call of the enable/disable protocol on the technique at a position. -/
inductive registry_call where
  | enable (t : Nat)
  | disable (t : Nat)
  deriving DecidableEq, Repr

/-- The position of the technique a call is applied to. -/
def registry_call.target : registry_call → Nat
  | registry_call.enable t => t
  | registry_call.disable t => t

/-- Perform one call. -/
def registry_call.apply (s : runtime) : registry_call → Option runtime
  | registry_call.enable t => enable_technique s t
  | registry_call.disable t => disable_technique s t

/-- Perform a finite sequence of enable/disable calls, first call first. -/
def run_calls (s : runtime) : List registry_call → Option runtime
  | [] => some s
  | c :: cs =>
    match c.apply s with
    | none => none
    | some s1 => run_calls s1 cs

/-- The number of enabled techniques that belong to the effect with index `e`. -/
def enabled_count (ts : List technique) (e : Nat) : Nat :=
  (ts.filter (fun T => T.enabled && decide (T.effect_index = e))).length

/-- Every effect's rendering count equals the number of currently-enabled techniques that
belong to it. -/
def rendering_consistent (s : runtime) : Prop :=
  ∀ e effect, s._loaded_effects[e]? = some effect →
    effect.rendering = (enabled_count s._techniques e : Int)

/-- Every technique's `effect_index` is a valid index of `_loaded_effects`. -/
def effect_indices_valid (s : runtime) : Prop :=
  ∀ T ∈ s._techniques, T.effect_index < s._loaded_effects.length

/-! ## Preset cycling -/

/-- The values of `std::filesystem::file_type` that `check_preset_path` distinguishes. -/
inductive file_type where
  | not_found
  | regular
  | directory
  | other
  deriving DecidableEq, Repr

/-- What the code observes of its environment through `std::filesystem`, the configuration
store `ini_file` and the C library.  A `std::filesystem::path` is a string.

* `extension`, `filename`, `stem`, `parent_path`, `append` (the operator `/`): the path
  decomposition functions;
* `absolute`, `canonical` (`none` when an error code is set), `is_directory`, `status`
  (file type and value of the error code), `equivalent`: file system queries;
* `directory_iterator`: the entries a directory iteration yields, in order (no entry when
  the iteration fails);
* `ini_has p section key`: `ini_file::load_cache(p).has(section, key)`;
* `towlower`: the lower-case mapping of wide characters;
* `g_reshade_dll_path`: the global of that name. -/
structure environment where
  extension : String → String
  filename : String → String
  stem : String → List Char
  parent_path : String → String
  append : String → String → String
  absolute : String → String
  canonical : String → Option String
  is_directory : String → Bool
  status : String → file_type × Nat
  equivalent : String → String → Bool
  directory_iterator : String → List String
  ini_has : String → String → String → Bool
  towlower : Char → Char
  g_reshade_dll_path : String

/-- The static helper `absolute_path` (runtime.cpp 30-39). -/
def absolute_path (env : environment) (path : String) : String :=
  -- First convert path to an absolute path
  let path := env.absolute (env.append (env.parent_path env.g_reshade_dll_path) path)
  -- Finally try to canonicalize the path too (this may fail though, so it is optional)
  match env.canonical path with
  | some canonical_path => canonical_path
  | none => path

/-- The static helper `check_preset_path` (runtime.cpp 41-57). -/
def check_preset_path (env : environment) (preset_path : String) : Bool :=
  -- First make sure the extension matches, before diving into the file system
  if env.extension preset_path ≠ ".ini" ∧ env.extension preset_path ≠ ".txt" then
    false
  else
    let preset_path := absolute_path env preset_path
    let type := (env.status preset_path).1
    let ec := (env.status preset_path).2
    if type = file_type.directory ∨ ec = 0x7b then -- 0x7b: ERROR_INVALID_NAME
      false
    else if type = file_type.not_found then
      true -- A non-existent path is valid for a new preset
    else
      env.ini_has preset_path "" "Techniques"

/-- Whether every element of the needle matches, under `pred`, the element at the same
position of the haystack (the inner loop of `std::search`). -/
def starts_with {α β : Type} (pred : α → β → Bool) : List α → List β → Bool
  | _, [] => true
  | [], _ :: _ => false
  | a :: as, b :: bs => pred a b && starts_with pred as bs

/-- The algorithm `std::search(first, last, s_first, s_last, pred)`: the position of the
first occurrence of the needle in the haystack, the length of the haystack (`last`) when there is none, and
the position `0` (`first`) for an empty needle. -/
def search {α β : Type} (pred : α → β → Bool) : List α → List β → Nat
  | [], _ => 0
  | a :: as, needle =>
    if starts_with pred (a :: as) needle then 0 else search pred as needle + 1

/-- The state of the enumeration loop of `switch_to_next_preset`: `current_preset_index`
(`none` stands for the sentinel `std::numeric_limits<size_t>::max()`, which is the index of
no element) and `preset_paths`. -/
structure preset_scan where
  current_preset_index : Option Nat
  preset_paths : List String
  deriving DecidableEq, Repr

/-- One iteration of the enumeration loop of `switch_to_next_preset` (runtime.cpp 610-628). -/
def scan_entry (env : environment) (current_preset_path filter_text : String)
    (st : preset_scan) (entry : String) : preset_scan :=
  -- Skip anything that is not a valid preset file
  if !check_preset_path env entry then
    st
  -- Keep track of the index of the current preset in the list of found preset files
  else if env.equivalent entry current_preset_path then
    { current_preset_index := some st.preset_paths.length
      preset_paths := st.preset_paths ++ [entry] }
  else
    let preset_name := env.stem entry
    -- Only add those files that are matching the filter text
    if filter_text.isEmpty ||
        search (fun c1 c2 => env.towlower c1 == env.towlower c2) preset_name filter_text.data
          != preset_name.length then
      { st with preset_paths := st.preset_paths ++ [entry] }
    else
      st

/-- The enumeration loop of `switch_to_next_preset` over the entries of the search
location. -/
def scan_entries (env : environment) (current_preset_path filter_text : String)
    (entries : List String) : preset_scan :=
  entries.foldl (scan_entry env current_preset_path filter_text)
    { current_preset_index := none, preset_paths := [] }

/-- The filter text and the search location of `switch_to_next_preset`
(runtime.cpp 599-605). -/
def resolve_search (env : environment) (filter_path : String) : String × String :=
  let filter_text := env.filename filter_path
  let search_path := absolute_path env filter_path
  if env.is_directory search_path then
    ("", search_path)
  else if !filter_text.isEmpty then
    (filter_text, env.parent_path search_path)
  else
    (filter_text, search_path)

/-- The candidate the selection of `switch_to_next_preset` (runtime.cpp 630-648) makes the
current preset; `none` when there is no candidate, or for an index outside the list. -/
def select_preset (st : preset_scan) (reversed : Bool) : Option String :=
  match st.preset_paths with
  | [] => none -- No valid preset files were found, so nothing more to do
  | front :: rest =>
    let back := (front :: rest).getLast (List.cons_ne_nil front rest)
    match st.current_preset_index with
    | none =>
      -- Current preset was not in the container path, so just use the first or last file
      if reversed then some back else some front
    | some it =>
      -- Current preset was found in the container path, so use the file before or after it
      if reversed then
        if it = 0 then some back else (front :: rest)[it - 1]?
      else
        if it = (front :: rest).length - 1 then some front else (front :: rest)[it + 1]?

/-- The member function `runtime::switch_to_next_preset` (runtime.cpp 595-651): the
returned flag and the new state; `none` when an iterator would leave the candidate list. -/
def switch_to_next_preset (env : environment) (s : runtime) (filter_path : String)
    (reversed : Bool) : Option (Bool × runtime) :=
  let filter_text := (resolve_search env filter_path).1
  let search_path := (resolve_search env filter_path).2
  let st := scan_entries env s._current_preset_path filter_text
    (env.directory_iterator search_path)
  match st.preset_paths with
  | [] => some (false, s)
  | _ :: _ =>
    match select_preset st reversed with
    | none => none
    | some p => some (true, { s with _current_preset_path := p })

/-- The candidate list of one call of `switch_to_next_preset`. -/
def preset_candidates (env : environment) (s : runtime) (filter_path : String) : List String :=
  (scan_entries env s._current_preset_path (resolve_search env filter_path).1
    (env.directory_iterator (resolve_search env filter_path).2)).preset_paths

/-! ## Value marshaller -/

/-- The four bytes of an unsigned 32-bit lane in memory. -/
def uint32_bytes (x : Nat) : List Nat :=
  [x % 256, x / 256 % 256, x / 65536 % 256, x / 16777216 % 256]

/-- The unsigned 32-bit lane stored in four bytes of memory. -/
def bytes_uint32 (b0 b1 b2 b3 : Nat) : Nat :=
  b0 % 256 + 256 * (b1 % 256) + 65536 * (b2 % 256) + 16777216 * (b3 % 256)

/-- The two's complement bit pattern of an `int32_t`. -/
def int32_bits (x : Int) : Nat := (x % 4294967296).toNat

/-- The `int32_t` with a given bit pattern. -/
def bits_int32 (u : Nat) : Int :=
  if u % 4294967296 < 2147483648 then (u % 4294967296 : Nat)
  else (u % 4294967296 : Nat) - 4294967296

/-- The memory of an array of 32-bit lanes (`reinterpret_cast<const uint8_t *>`). -/
def lanes_bytes : List Nat → List Nat
  | [] => []
  | x :: xs => uint32_bytes x ++ lanes_bytes xs

/-- The 32-bit lanes of a piece of memory (`reinterpret_cast<const uint32_t *>`); trailing
bytes that do not fill a lane belong to no lane. -/
def bytes_lanes : List Nat → List Nat
  | b0 :: b1 :: b2 :: b3 :: rest => bytes_uint32 b0 b1 b2 b3 :: bytes_lanes rest
  | _ => []

/-- The sign bit of a `float` (IEEE 754 binary32) given by its bit pattern. -/
def float_sign (f : Nat) : Bool := f / 2147483648 % 2 == 1

/-- The biased exponent field of a `float`. -/
def float_exponent (f : Nat) : Nat := f / 8388608 % 256

/-- The fraction field of a `float`. -/
def float_fraction (f : Nat) : Nat := f % 8388608

/-- The absolute value of a finite `float`, as a rational number. -/
def float_abs (f : Nat) : ℚ :=
  if float_exponent f = 0 then
    (float_fraction f : ℚ) / 2 ^ 149
  else if 150 ≤ float_exponent f then
    ((8388608 + float_fraction f : Nat) : ℚ) * 2 ^ (float_exponent f - 150)
  else
    ((8388608 + float_fraction f : Nat) : ℚ) / 2 ^ (150 - float_exponent f)

/-- The value of a finite `float`, as a rational number. -/
def float_value (f : Nat) : ℚ :=
  if float_sign f then - float_abs f else float_abs f

/-- A `float` is finite (neither an infinity nor a NaN) and its value lies within the
range of `int32_t` after the fractional part is dropped. -/
def float_in_int32_range (f : Nat) : Prop :=
  float_exponent f ≠ 255 ∧ -2147483649 < float_value f ∧ float_value f < 2147483648

/-- The integer part of the absolute value of a finite `float`. -/
def float_abs_trunc (f : Nat) : Nat :=
  if float_exponent f = 0 then
    0
  else if 150 ≤ float_exponent f then
    (8388608 + float_fraction f) * 2 ^ (float_exponent f - 150)
  else
    (8388608 + float_fraction f) / 2 ^ (150 - float_exponent f)

/-- The conversion `static_cast<int32_t>(f)` for a `float` given by its bit pattern: the
fractional part is discarded.  For a value that does not fit (where the C++ standard leaves
the behaviour undefined) the result is the "integer indefinite" value `0x80000000` of the x86 conversion
instructions. -/
def float_to_int32 (f : Nat) : Int :=
  if float_exponent f = 255 then
    -2147483648
  else if float_sign f then
    if float_abs_trunc f ≤ 2147483648 then - (float_abs_trunc f : Int) else -2147483648
  else
    if float_abs_trunc f < 2147483648 then (float_abs_trunc f : Int) else -2147483648

/-- The raw `runtime::get_uniform_value(variable, uint8_t *data, size)` (runtime.cpp 706-715):
the buffer `data` after the call. -/
def get_uniform_value_raw (s : runtime) (var : uniform) (data : List Nat) (size : Nat) :
    Option (List Nat) :=
  let size := min size var.size
  if var.storage_offset + size ≤ s._uniform_data_storage.length ∧ size ≤ data.length then
    some (((s._uniform_data_storage.drop var.storage_offset).take size) ++ data.drop size)
  else
    none

/-- The raw `runtime::set_uniform_value(variable, const uint8_t *data, size)`
(runtime.cpp 771-780). -/
def set_uniform_value_raw (s : runtime) (var : uniform) (data : List Nat) (size : Nat) :
    Option runtime :=
  let size := min size var.size
  if var.storage_offset + size ≤ s._uniform_data_storage.length ∧ size ≤ data.length then
    some { s with
      _uniform_data_storage :=
        s._uniform_data_storage.take var.storage_offset ++ data.take size ++
          s._uniform_data_storage.drop (var.storage_offset + size) }
  else
    none

/-- The overload `runtime::get_uniform_value(variable, int32_t *values, count)`
(runtime.cpp 728-745): the buffer `values` after the call. -/
def get_uniform_value_int32 (s : runtime) (var : uniform) (values : List Int)
    (count : Nat) : Option (List Int) :=
  if !var.type.is_floating_point && s._renderer_id != 0x9000 then
    match get_uniform_value_raw s var (lanes_bytes (values.map int32_bits)) (count * 4) with
    | none => none
    | some data => some ((bytes_lanes data).map bits_int32)
  else
    let count := min count (var.size / 4)
    match get_uniform_value_raw s var (List.replicate var.size 0) var.size with
    | none => none
    | some data =>
      if count ≤ values.length then
        some (((bytes_lanes data).take count).map float_to_int32 ++ values.drop count)
      else
        none

/-- The overload `runtime::set_uniform_value(variable, const float *values, count)`
(runtime.cpp 831-844); a `float` is given by its bit pattern. -/
def set_uniform_value_float (s : runtime) (var : uniform) (values : List Nat)
    (count : Nat) : Option runtime :=
  if var.type.is_floating_point || s._renderer_id == 0x9000 then
    set_uniform_value_raw s var (lanes_bytes values) (count * 4)
  else if count ≤ values.length then
    let data := (values.take count).map float_to_int32
    set_uniform_value_raw s var (lanes_bytes (data.map int32_bits)) (count * 4)
  else
    none

/-- What every call of the enable/disable protocol keeps: the number of techniques, the
validity of the effect indices, the consistency of the rendering counts, and the absence
of duplicates in the compile queue. -/
structure registry_kept (s s1 : runtime) : Prop where
  techniques_length : s1._techniques.length = s._techniques.length
  indices_valid : effect_indices_valid s → effect_indices_valid s1
  consistent : effect_indices_valid s → rendering_consistent s → rendering_consistent s1
  queue_nodup : s._reload_compile_queue.Nodup → s1._reload_compile_queue.Nodup

/-- A conjunction of what the enumeration loop of `switch_to_next_preset` maintains: a
recorded index is the position of a candidate equivalent to the current preset after which
no equivalent candidate follows, and without recorded index no candidate is equivalent to
the current preset. -/
def scan_consistent (env : environment) (current_preset_path : String) (st : preset_scan) :
    Prop :=
  (∀ i, st.current_preset_index = some i →
    (∃ c, st.preset_paths[i]? = some c ∧ env.equivalent c current_preset_path = true) ∧
    ∀ j c, i < j → st.preset_paths[j]? = some c →
      env.equivalent c current_preset_path = false) ∧
  (st.current_preset_index = none →
    ∀ c ∈ st.preset_paths, env.equivalent c current_preset_path = false)

/-- Truncation toward zero of a rational number, in the words of the specification: the
integer obtained by dropping the fractional part. -/
def trunc_toward_zero (q : ℚ) : Int :=
  if 0 ≤ q then ⌊q⌋ else ⌈q⌉

/-! ## Value marshaller: conversions to `float` and the remaining overloads -/

/-- The quotient `n / 2 ^ k` rounded to the nearest integer, a tie to the even one. -/
def round_shift (n k : Nat) : Nat :=
  if 2 * (n % 2 ^ k) < 2 ^ k then n / 2 ^ k
  else if 2 ^ k < 2 * (n % 2 ^ k) then n / 2 ^ k + 1
  else if n / 2 ^ k % 2 = 0 then n / 2 ^ k
  else n / 2 ^ k + 1

/-- The position of the highest set bit among the lowest `bits + 1` bits of a number. -/
def highest_bit : Nat → Nat → Nat
  | 0, _ => 0
  | bits + 1, n => if n < 2 then 0 else highest_bit bits (n / 2) + 1

/-- The bit pattern of the `float` nearest to a natural number below `2 ^ 32` (round to
nearest, ties to even: the rounding mode the program runs in).  The significand of a number
with more than 24 bits is rounded; a carry out of the significand moves into the exponent
field. -/
def nat_to_float (n : Nat) : Nat :=
  if n = 0 then 0
  else if highest_bit 32 n ≤ 23 then
    (highest_bit 32 n + 127) * 8388608 + (n * 2 ^ (23 - highest_bit 32 n) - 8388608)
  else
    (highest_bit 32 n + 127) * 8388608 + (round_shift n (highest_bit 32 n - 23) - 8388608)

/-- The conversion `static_cast<float>(x)` for an `int32_t`. -/
def int32_to_float (x : Int) : Nat :=
  if x < 0 then 2147483648 + nat_to_float (-x).toNat else nat_to_float x.toNat

/-- The conversion `static_cast<float>(u)` for a `uint32_t`. -/
def uint32_to_float (u : Nat) : Nat := nat_to_float (u % 4294967296)

/-- The overload `runtime::get_uniform_value(variable, bool *values, count)`
(runtime.cpp 716-727): the buffer `values` after the call. -/
def get_uniform_value_bool (s : runtime) (var : uniform) (values : List Bool)
    (count : Nat) : Option (List Bool) :=
  let count := min count (var.size / 4)
  match get_uniform_value_raw s var (List.replicate var.size 0) var.size with
  | none => none
  | some data =>
    if count ≤ values.length then
      some (((bytes_lanes data).take count).map (fun lane => lane != 0) ++ values.drop count)
    else
      none

/-- The overload `runtime::get_uniform_value(variable, uint32_t *values, count)`
(runtime.cpp 746-749), which reinterprets the buffer and calls the `int32_t` overload: the
buffer `values` after the call. -/
def get_uniform_value_uint32 (s : runtime) (var : uniform) (values : List Nat)
    (count : Nat) : Option (List Nat) :=
  match get_uniform_value_int32 s var (values.map bits_int32) count with
  | none => none
  | some values => some (values.map int32_bits)

/-- The overload `runtime::get_uniform_value(variable, float *values, count)`
(runtime.cpp 750-770): the buffer `values` after the call; a `float` is given by its bit
pattern. -/
def get_uniform_value_float (s : runtime) (var : uniform) (values : List Nat)
    (count : Nat) : Option (List Nat) :=
  if var.type.is_floating_point || s._renderer_id == 0x9000 then
    match get_uniform_value_raw s var (lanes_bytes values) (count * 4) with
    | none => none
    | some data => some (bytes_lanes data)
  else
    let count := min count (var.size / 4)
    match get_uniform_value_raw s var (List.replicate var.size 0) var.size with
    | none => none
    | some data =>
      if count ≤ values.length then
        some (((bytes_lanes data).take count).map
            (fun lane =>
              if var.type.is_signed then int32_to_float (bits_int32 lane)
              else uint32_to_float lane) ++
          values.drop count)
      else
        none

/-- The lane `set_uniform_value(variable, const bool *values, count)` stores for one
boolean (runtime.cpp 784-799): all ones or zero for a bool variable, `1` or `0` for an
integer variable, `1.0f` or `0.0f` for a float variable and on the legacy backend. -/
def bool_lane (s : runtime) (var : uniform) (value : Bool) : Nat :=
  match (if s._renderer_id != 0x9000 then var.type.base else datatype.t_float) with
  | datatype.t_bool => int32_bits (if value then -1 else 0)
  | datatype.t_int => int32_bits (if value then 1 else 0)
  | datatype.t_uint => int32_bits (if value then 1 else 0)
  | datatype.t_float => if value then 0x3F800000 else 0

/-- The overload `runtime::set_uniform_value(variable, const bool *values, count)`
(runtime.cpp 781-802). -/
def set_uniform_value_bool (s : runtime) (var : uniform) (values : List Bool)
    (count : Nat) : Option runtime :=
  if count ≤ values.length then
    let data := (values.take count).map (bool_lane s var)
    set_uniform_value_raw s var (lanes_bytes data) (count * 4)
  else
    none

/-- The overload `runtime::set_uniform_value(variable, const int32_t *values, count)`
(runtime.cpp 803-816). -/
def set_uniform_value_int32 (s : runtime) (var : uniform) (values : List Int)
    (count : Nat) : Option runtime :=
  if !var.type.is_floating_point && s._renderer_id != 0x9000 then
    set_uniform_value_raw s var (lanes_bytes (values.map int32_bits)) (count * 4)
  else if count ≤ values.length then
    let data := (values.take count).map int32_to_float
    set_uniform_value_raw s var (lanes_bytes data) (count * 4)
  else
    none

/-- The overload `runtime::set_uniform_value(variable, const uint32_t *values, count)`
(runtime.cpp 817-830). -/
def set_uniform_value_uint32 (s : runtime) (var : uniform) (values : List Nat)
    (count : Nat) : Option runtime :=
  if !var.type.is_floating_point && s._renderer_id != 0x9000 then
    set_uniform_value_raw s var (lanes_bytes values) (count * 4)
  else if count ≤ values.length then
    let data := (values.take count).map uint32_to_float
    set_uniform_value_raw s var (lanes_bytes data) (count * 4)
  else
    none

/-- The lane `reset_uniform_value` stores on the legacy backend for one lane of the
initializer (runtime.cpp 859-871): its `as_int`, `as_uint` or `as_float` reading, as a
`float`. -/
def initializer_lane (base : datatype) (lane : Nat) : Nat :=
  match base with
  | datatype.t_int => int32_to_float (bits_int32 lane)
  | datatype.t_bool => uint32_to_float lane
  | datatype.t_uint => uint32_to_float lane
  | datatype.t_float => lane % 4294967296

/-- The member function `runtime::reset_uniform_value` (runtime.cpp 846-878); writing
outside the Uniform Storage or reading outside the initializer is the result `none`. -/
def reset_uniform_value (s : runtime) (var : uniform) : Option runtime :=
  if !var.has_initializer_value then
    if var.storage_offset + var.size ≤ s._uniform_data_storage.length then
      some { s with
        _uniform_data_storage :=
          s._uniform_data_storage.take var.storage_offset ++ List.replicate var.size 0 ++
            s._uniform_data_storage.drop (var.storage_offset + var.size) }
    else
      none
  else if s._renderer_id == 0x9000 then
    -- Force all uniforms to floating-point in D3D9
    if var.size / 4 ≤ (bytes_lanes var.initializer_value).length ∧
        var.storage_offset + 4 * (var.size / 4) ≤ s._uniform_data_storage.length then
      some { s with
        _uniform_data_storage :=
          s._uniform_data_storage.take var.storage_offset ++
            lanes_bytes (((bytes_lanes var.initializer_value).take (var.size / 4)).map
              (initializer_lane var.type.base)) ++
            s._uniform_data_storage.drop (var.storage_offset + 4 * (var.size / 4)) }
    else
      none
  else if var.size ≤ var.initializer_value.length ∧
      var.storage_offset + var.size ≤ s._uniform_data_storage.length then
    some { s with
      _uniform_data_storage :=
        s._uniform_data_storage.take var.storage_offset ++
          var.initializer_value.take var.size ++
          s._uniform_data_storage.drop (var.storage_offset + var.size) }
  else
    none

/-- A write to a variable left everything but the variable's storage range as it was: the
runtime state apart from the Uniform Storage, the size of the Uniform Storage, and every
byte outside `[storage_offset, storage_offset+size)`. -/
def outside_unchanged (s s1 : runtime) (var : uniform) : Prop :=
  s1 = { s with _uniform_data_storage := s1._uniform_data_storage } ∧
  s1._uniform_data_storage.length = s._uniform_data_storage.length ∧
  ∀ i, i < var.storage_offset ∨ var.storage_offset + var.size ≤ i →
    s1._uniform_data_storage[i]? = s._uniform_data_storage[i]?

/-! ## Preset engine -/

/-- Modelled from the spec: `ini_file` (`ini_file.hpp`) is not part of the sources at hand.
The spec describes it as a "key/value store with typed get/set" over "primitives, strings,
and ordered sequences thereof".  A stored value is a sequence of strings, of integers (what
is set from `int`, `unsigned int` and their arrays) or of floats (given by their bit
patterns). -/
inductive ini_value where
  | strings (values : List String)
  | numbers (values : List Int)
  | floats (values : List Nat)
  deriving DecidableEq, Repr

/-- Modelled from the spec: the configuration store `ini_file`, the value stored for a
section and a key, if any. -/
def ini_file : Type := String → String → Option ini_value

/-- A configuration store without any entry. -/
def ini_file.empty : ini_file := fun _ _ => none

/-- Modelled from the spec: `ini_file::set(section, key, value)`. -/
def ini_file.set (file : ini_file) (section_name key : String) (value : ini_value) : ini_file :=
  fun s k => if s = section_name ∧ k = key then some value else file s k

/-- Modelled from the spec: `ini_file::get(section, key, std::vector<std::string> &)`; the
argument is left as it is when the store has no sequence of strings for the key. -/
def ini_file.get_strings (file : ini_file) (section_name key : String) (values : List String) :
    List String :=
  match file section_name key with
  | some (ini_value.strings stored) => stored
  | _ => values

/-- Modelled from the spec: `ini_file::get(section, key, int (&)[SIZE])`; the array is left
as it is when the store has no integers for the key, and elements the stored sequence does
not have read as zero. -/
def ini_file.get_int32 (file : ini_file) (section_name key : String) (values : List Int) :
    List Int :=
  match file section_name key with
  | some (ini_value.numbers stored) =>
    (List.range values.length).map (fun i => bits_int32 (int32_bits (stored.getD i 0)))
  | _ => values

/-- Modelled from the spec: `ini_file::get(section, key, unsigned int (&)[SIZE])`; the array
is left as it is when the store has no integers for the key, and elements the stored sequence
does not have read as zero. -/
def ini_file.get_uint32 (file : ini_file) (section_name key : String) (values : List Nat) :
    List Nat :=
  match file section_name key with
  | some (ini_value.numbers stored) =>
    (List.range values.length).map (fun i => int32_bits (stored.getD i 0))
  | _ => values

/-- Modelled from the spec: `ini_file::get(section, key, float (&)[SIZE])`; the array is left
as it is when the store has no floats for the key, and elements the stored sequence does not
have read as zero. -/
def ini_file.get_float (file : ini_file) (section_name key : String) (values : List Nat) :
    List Nat :=
  match file section_name key with
  | some (ini_value.floats stored) =>
    (List.range values.length).map (fun i => stored.getD i 0 % 4294967296)
  | _ => values

/-- Modelled from the spec: `technique::annotation_as_int(name)` (`runtime_objects.hpp`), the
integer annotation of that name, zero when the technique has none. -/
def technique.annotation_as_int (T : technique) (name : String) : Int :=
  match T.int_annotations.lookup name with
  | some value => value
  | none => 0

/-- What the code takes from the C++ implementation without fixing it: the algorithm behind
`std::sort` on the technique list, and the arithmetic of the type `float` (subtraction,
multiplication, division and the conversion from `long long`), on bit patterns. -/
structure cxx_library where
  sort : (technique → technique → Bool) → List technique → List technique
  float_sub : Nat → Nat → Nat
  float_mul : Nat → Nat → Nat
  float_div : Nat → Nat → Nat
  float_of_int64 : Int → Nat

/-- The comparison passed to `std::sort` is a strict weak ordering. -/
def strict_weak_order {α : Type} (comp : α → α → Bool) : Prop :=
  (∀ a b, comp a b = true → comp b a = false) ∧
  (∀ a b c, comp a b = false → comp b c = false → comp a c = false)

/-- The contract of `std::sort(first, last, comp)`: for a strict weak ordering the result is
a permutation of the range in which no element is ordered before an element placed ahead
of it.  The order of equivalent elements is not part of the contract. -/
def std_sort_contract {α : Type} (sort : (α → α → Bool) → List α → List α) : Prop :=
  ∀ comp l, strict_weak_order comp →
    (sort comp l).Perm l ∧ (sort comp l).Pairwise (fun a b => comp b a = false)

/-- The comparison `load_current_preset` sorts the techniques with (runtime.cpp 469-472):
by the position of the name in the ordering list, which for a name that is not in the list
is the length of the list. -/
def technique_before (sorted_technique_list : List String) (lhs rhs : technique) : Bool :=
  decide (sorted_technique_list.indexOf lhs.name < sorted_technique_list.indexOf rhs.name)

/-- The smooth transition of one float lane (runtime.cpp 508-509), in the arithmetic of
`float`. -/
def transition_lane (lib : cxx_library) (transition_ms_left
    transition_ms_left_from_last_frame : Int) (value value_old : Nat) : Nat :=
  let transition_ratio :=
    lib.float_div (lib.float_sub value value_old)
      (lib.float_of_int64 transition_ms_left_from_last_frame)
  lib.float_sub value (lib.float_mul transition_ratio (lib.float_of_int64 transition_ms_left))

/-- One iteration of the loop over the uniforms in `load_current_preset`
(runtime.cpp 482-515). -/
def load_uniform (lib : cxx_library) (env : environment) (preset : ini_file)
    (transition_ms_left transition_ms_left_from_last_frame : Int)
    (s : runtime) (var : uniform) : Option runtime :=
  match s._loaded_effects[var.effect_index]? with
  | none => none
  | some effect =>
    let section_name := env.filename effect.source_file
    match var.type.base with
    | datatype.t_int =>
      match get_uniform_value_int32 s var (List.replicate 16 0) 16 with
      | none => none
      | some values =>
        set_uniform_value_int32 s var (preset.get_int32 section_name var.name values) 16
    | datatype.t_float =>
      match get_uniform_value_float s var (List.replicate 16 0) 16 with
      | none => none
      | some values_old =>
        let values := preset.get_float section_name var.name values_old
        if s._is_in_between_presets_transition then
          -- Perform smooth transition on floating point values
          set_uniform_value_float s var
            (List.zipWith
              (transition_lane lib transition_ms_left transition_ms_left_from_last_frame)
              values values_old) 16
        else
          set_uniform_value_float s var values 16
    | _ =>
      match get_uniform_value_uint32 s var (List.replicate 16 0) 16 with
      | none => none
      | some values =>
        set_uniform_value_uint32 s var (preset.get_uint32 section_name var.name values) 16

/-- The loop over the uniforms in `load_current_preset`. -/
def load_uniforms (lib : cxx_library) (env : environment) (preset : ini_file)
    (transition_ms_left transition_ms_left_from_last_frame : Int) :
    runtime → List uniform → Option runtime
  | s, [] => some s
  | s, var :: rest =>
    match load_uniform lib env preset transition_ms_left transition_ms_left_from_last_frame
        s var with
    | none => none
    | some s1 =>
      load_uniforms lib env preset transition_ms_left transition_ms_left_from_last_frame s1 rest

/-- Whether `load_current_preset` enables a technique (runtime.cpp 520-521): it carries a
non-zero "enabled" annotation or its name is in the preset's technique list. -/
def preset_enables (technique_list : List String) (T : technique) : Bool :=
  decide (T.annotation_as_int "enabled" ≠ 0) || decide (T.name ∈ technique_list)

/-- One iteration of the loop over the techniques in `load_current_preset`
(runtime.cpp 517-529), for the technique at position `t`. -/
def load_technique (preset : ini_file) (technique_list : List String) (s : runtime) (t : Nat) :
    Option runtime :=
  match s._techniques[t]? with
  | none => none
  | some technique =>
    -- Ignore preset if "enabled" annotation is set
    match (if preset_enables technique_list technique then enable_technique s t
        else disable_technique s t) with
    | none => none
    | some s1 =>
      match s1._techniques[t]? with
      | none => none
      | some technique1 =>
        -- Reset toggle key first, since it may not exist in the preset
        some { s1 with
          _techniques := s1._techniques.set t { technique1 with
            toggle_key_data :=
              preset.get_uint32 "" ("Key" ++ technique1.name) [0, 0, 0, 0] } }

/-- The loop over the techniques in `load_current_preset`, given the positions to visit. -/
def load_techniques (preset : ini_file) (technique_list : List String) :
    runtime → List Nat → Option runtime
  | s, [] => some s
  | s, t :: rest =>
    match load_technique preset technique_list s t with
    | none => none
    | some s1 => load_techniques preset technique_list s1 rest

/-- Whether `load_current_preset` takes its early return (runtime.cpp 457-458). -/
def load_deferred (preset : ini_file) (s : runtime) : Bool :=
  s._reload_remaining_effects != 0 &&
    (s._performance_mode ||
      preset.get_strings "" "PreprocessorDefinitions" [] != s._preset_preprocessor_definitions)

/-- The list `load_current_preset` orders the techniques by (runtime.cpp 465-466): the
preset's `TechniqueSorting`, or its `Techniques` when that is empty. -/
def ordering_list (preset : ini_file) : List String :=
  if (preset.get_strings "" "TechniqueSorting" []).isEmpty then
    preset.get_strings "" "Techniques" []
  else preset.get_strings "" "TechniqueSorting" []

/-- The time left till the transition should end, in milliseconds (runtime.cpp 475-476). -/
def transition_ms_left (s : runtime) : Int :=
  s._preset_transition_delay -
    (s._last_present_time - s._last_preset_switching_time).tdiv 1000

/-- The time that was left at the previous frame, in milliseconds (runtime.cpp 477). -/
def transition_ms_left_from_last_frame (s : runtime) : Int :=
  transition_ms_left s + s._last_frame_duration.tdiv 1000

/-- The part of `load_current_preset` before its loops (runtime.cpp 464-480): the techniques
are reordered, and a transition whose time is up ends. -/
def reorder_techniques (lib : cxx_library) (preset : ini_file) (s : runtime) : runtime :=
  -- Reorder techniques
  let s1 : runtime := { s with
    _techniques := lib.sort (technique_before (ordering_list preset)) s._techniques }
  if s1._is_in_between_presets_transition && decide (transition_ms_left s1 ≤ 0) then
    { s1 with _is_in_between_presets_transition := false }
  else s1

/-- The part of `load_current_preset` after the early return (runtime.cpp 464-529). -/
def apply_preset (lib : cxx_library) (env : environment) (preset : ini_file) (s : runtime) :
    Option runtime :=
  let s2 := reorder_techniques lib preset s
  match load_uniforms lib env preset (transition_ms_left s)
      (transition_ms_left_from_last_frame s) s2 s2._uniforms with
  | none => none
  | some s3 =>
    load_techniques preset (preset.get_strings "" "Techniques" []) s3
      (List.range s3._techniques.length)

/-- The member function `runtime::load_current_preset` (runtime.cpp 445-530); `preset` is the
configuration store `ini_file::load_cache(_current_preset_path)`. -/
def load_current_preset (lib : cxx_library) (env : environment) (preset : ini_file)
    (s : runtime) : Option runtime :=
  -- Recompile effects if preprocessor definitions have changed or running in performance mode
  if load_deferred preset s then
    some { s with
      _preset_preprocessor_definitions :=
        preset.get_strings "" "PreprocessorDefinitions" [] }
  else
    apply_preset lib env preset s

/-- The largest value of `size_t` (for the 64-bit build), the idle sentinel of
`_reload_remaining_effects`. -/
def size_t_max : Nat := 18446744073709551615

/-- The member function `runtime::is_loading` (runtime.hpp 171). -/
def is_loading (s : runtime) : Bool :=
  s._reload_remaining_effects != size_t_max

/-- Modelled from the spec: `ini_file::get(section, key, int &)`; the argument is left as it
is when the store has no integers for the key. -/
def ini_file.get_int (file : ini_file) (section_name key : String) (value : Int) : Int :=
  match file section_name key with
  | some (ini_value.numbers stored) => bits_int32 (int32_bits (stored.getD 0 0))
  | _ => value

/-- The lists `save_current_preset` builds in its loop over the techniques, and the preset
store with the toggle keys written so far. -/
structure save_lists where
  effect_list : List Nat
  technique_list : List String
  sorted_technique_list : List String
  preset : ini_file

/-- One iteration of the loop over the techniques in `save_current_preset`
(runtime.cpp 543-557). -/
def save_technique (lists : save_lists) (technique : technique) : save_lists :=
  { technique_list :=
      if technique.enabled then lists.technique_list ++ [technique.name]
      else lists.technique_list
    effect_list :=
      if technique.enabled || technique.toggle_key_data.getD 0 0 != 0 then
        lists.effect_list ++ [technique.effect_index]
      else lists.effect_list
    -- Keep track of the order of all techniques and not just the enabled ones
    sorted_technique_list := lists.sorted_technique_list ++ [technique.name]
    preset :=
      if technique.toggle_key_data.getD 0 0 != 0 then
        lists.preset.set "" ("Key" ++ technique.name)
          (ini_value.numbers (technique.toggle_key_data.map Int.ofNat))
      else if lists.preset.get_int "" ("Key" ++ technique.name) 0 != 0 then
        lists.preset.set "" ("Key" ++ technique.name) (ini_value.numbers [0])
      else lists.preset }

/-- One iteration of the loop over the uniforms in `save_current_preset`
(runtime.cpp 564-592): the preset store after it. -/
def save_uniform (env : environment) (s : runtime) (effect_list : List Nat)
    (preset : ini_file) (var : uniform) : Option ini_file :=
  if var.special != 0 || decide (var.effect_index ∉ effect_list) then
    some preset
  else
    match s._loaded_effects[var.effect_index]? with
    | none => none
    | some effect =>
      let section_name := env.filename effect.source_file
      if var.type.components ≤ 16 then
        match var.type.base with
        | datatype.t_int =>
          match get_uniform_value_int32 s var (List.replicate 16 0) 16 with
          | none => none
          | some values =>
            some (preset.set section_name var.name
              (ini_value.numbers (values.take var.type.components)))
        | datatype.t_float =>
          match get_uniform_value_float s var (List.replicate 16 0) 16 with
          | none => none
          | some values =>
            some (preset.set section_name var.name
              (ini_value.floats (values.take var.type.components)))
        | _ =>
          match get_uniform_value_uint32 s var (List.replicate 16 0) 16 with
          | none => none
          | some values =>
            some (preset.set section_name var.name
              (ini_value.numbers ((values.take var.type.components).map Int.ofNat)))
      else
        none

/-- The loop over the uniforms in `save_current_preset`. -/
def save_uniforms (env : environment) (s : runtime) (effect_list : List Nat) :
    ini_file → List uniform → Option ini_file
  | preset, [] => some preset
  | preset, var :: rest =>
    match save_uniform env s effect_list preset var with
    | none => none
    | some preset1 => save_uniforms env s effect_list preset1 rest

/-- The member function `runtime::save_current_preset` (runtime.cpp 531-593): the
configuration store `ini_file::load_cache(_current_preset_path)` after the call. -/
def save_current_preset (env : environment) (s : runtime) (preset : ini_file) :
    Option ini_file :=
  -- Build list of active techniques and effects
  let lists := s._techniques.foldl save_technique
    { effect_list := [], technique_list := [], sorted_technique_list := [], preset := preset }
  let preset1 :=
    ((lists.preset.set "" "Techniques" (ini_value.strings lists.technique_list)).set
      "" "TechniqueSorting" (ini_value.strings lists.sorted_technique_list)).set
      "" "PreprocessorDefinitions" (ini_value.strings s._preset_preprocessor_definitions)
  save_uniforms env s lists.effect_list preset1 s._uniforms

/-- Every uniform's storage range lies within the Uniform Storage and its effect index
within the loaded effects. -/
def uniforms_valid (s : runtime) : Prop :=
  ∀ var ∈ s._uniforms,
    var.storage_offset + var.size ≤ s._uniform_data_storage.length ∧
      var.effect_index < s._loaded_effects.length

/-- The state `s1` differs from `s` at most in the contents of the Uniform Storage. -/
def storage_only (s s1 : runtime) : Prop :=
  s1 = { s with _uniform_data_storage := s1._uniform_data_storage } ∧
    s1._uniform_data_storage.length = s._uniform_data_storage.length

/-- Whether the effect with index `e` compiled successfully. -/
def effect_compiled (effects : List effect_data) (e : Nat) : Bool :=
  match effects[e]? with
  | some effect => effect.compile_sucess
  | none => false

/-- A technique after its iteration of the loop over the techniques in `load_current_preset`:
enabled through `enable_technique` (which does nothing for an effect that failed to compile)
or disabled through `disable_technique`, then with the toggle key of the preset. -/
def loaded_technique (preset : ini_file) (technique_list : List String)
    (effects : List effect_data) (T : technique) : technique :=
  if preset_enables technique_list T then
    if effect_compiled effects T.effect_index then
      { T with
        enabled := true, timeleft := T.timeout
        toggle_key_data := preset.get_uint32 "" ("Key" ++ T.name) [0, 0, 0, 0] }
    else
      { T with toggle_key_data := preset.get_uint32 "" ("Key" ++ T.name) [0, 0, 0, 0] }
  else
    { T with
      enabled := false, timeleft := 0
      average_cpu_duration := ⟨[]⟩, average_gpu_duration := ⟨[]⟩
      toggle_key_data := preset.get_uint32 "" ("Key" ++ T.name) [0, 0, 0, 0] }

/-- What the enable/disable protocol never changes of an effect: its source file and its
compile flag. -/
def effect_data.identity (effect : effect_data) : String × Bool :=
  (effect.source_file, effect.compile_sucess)

/-- The state `s1` differs from `s` at most in what the enable/disable protocol and the
loop over the techniques write: the techniques, the rendering counts of the effects, the
compile queue and its counter. -/
def registry_only (s s1 : runtime) : Prop :=
  s1 = { s with
    _techniques := s1._techniques
    _loaded_effects := s1._loaded_effects
    _reload_total_effects := s1._reload_total_effects
    _reload_compile_queue := s1._reload_compile_queue } ∧
  s1._loaded_effects.length = s._loaded_effects.length ∧
  ∀ e : Nat, (s1._loaded_effects[e]?).map effect_data.identity =
    (s._loaded_effects[e]?).map effect_data.identity

/-- The bytes of a variable's storage range `[storage_offset, storage_offset+size)`. -/
def range_bytes (s : runtime) (var : uniform) : List Nat :=
  (s._uniform_data_storage.drop var.storage_offset).take var.size

/-- The value of a uniform as `save_current_preset` and `load_current_preset` read it: through
the typed getter for its declared base type (the `unsigned int` one for a bool), into an
array of 16 elements of which the declared components count. -/
def uniform_value (s : runtime) (var : uniform) : Option ini_value :=
  match var.type.base with
  | datatype.t_int =>
    (get_uniform_value_int32 s var (List.replicate 16 0) 16).map
      (fun values => ini_value.numbers (values.take var.type.components))
  | datatype.t_float =>
    (get_uniform_value_float s var (List.replicate 16 0) 16).map
      (fun values => ini_value.floats (values.take var.type.components))
  | _ =>
    (get_uniform_value_uint32 s var (List.replicate 16 0) 16).map
      (fun values => ini_value.numbers ((values.take var.type.components).map Int.ofNat))

/-- Whether `save_current_preset` writes a uniform (runtime.cpp 566-568): it is not special and
its effect is referenced by a technique that is enabled or has a toggle key. -/
def uniform_saved (s : runtime) (var : uniform) : Bool :=
  var.special == 0 &&
    decide (∃ T ∈ s._techniques,
      (T.enabled || T.toggle_key_data.getD 0 0 != 0) = true ∧ T.effect_index = var.effect_index)

/-- The section and the key of a uniform in the preset store. -/
def uniform_key (env : environment) (s : runtime) (var : uniform) : String × String :=
  (match s._loaded_effects[var.effect_index]? with
    | some effect => env.filename effect.source_file
    | none => "",
    var.name)

/-- Whether the integer overloads of the getter and the setter copy the bytes of the
variable (an integer variable on a backend with integer storage) rather than convert each
lane from and to `float`. -/
def integer_storage (s : runtime) (var : uniform) : Bool :=
  !var.type.is_floating_point && s._renderer_id != 0x9000

/-- The `int32_t` the getter returns for a lane of the variable's storage. -/
def int32_decode (s : runtime) (var : uniform) (lane : Nat) : Int :=
  if integer_storage s var then bits_int32 lane else float_to_int32 lane

/-- The lane the setter stores for an `int32_t`. -/
def int32_encode (s : runtime) (var : uniform) (x : Int) : Nat :=
  if integer_storage s var then int32_bits x else int32_to_float x % 4294967296

/-- The `uint32_t` the getter returns for a lane of the variable's storage. -/
def uint32_decode (s : runtime) (var : uniform) (lane : Nat) : Nat :=
  int32_bits (int32_decode s var lane)

/-- The lane the setter stores for a `uint32_t`. -/
def uint32_encode (s : runtime) (var : uniform) (u : Nat) : Nat :=
  if integer_storage s var then u % 4294967296 else uint32_to_float u % 4294967296

/-- The lanes of a variable's storage range that its declared components occupy. -/
def component_lanes (s : runtime) (var : uniform) : List Nat :=
  (bytes_lanes (range_bytes s var)).take var.type.components

/-- The value `save_current_preset` writes for lanes read from a variable's storage range:
integers through the `int32_t` getter for an int variable, the lanes themselves for a float
variable, and integers through the `uint32_t` getter otherwise. -/
def lanes_value (s : runtime) (var : uniform) (lanes : List Nat) : ini_value :=
  match var.type.base with
  | datatype.t_int => ini_value.numbers (lanes.map (int32_decode s var))
  | datatype.t_float => ini_value.floats lanes
  | _ => ini_value.numbers ((lanes.map (uint32_decode s var)).map Int.ofNat)

/-- The storage ranges of two uniforms do not overlap. -/
def storage_disjoint (a b : uniform) : Prop :=
  a.storage_offset + a.size ≤ b.storage_offset ∨ b.storage_offset + b.size ≤ a.storage_offset

/-! ## Frame tick -/

/-- What `on_present` observes of the world in one frame: `current_time` is
`std::chrono::high_resolution_clock::now()` in microseconds, and each flag is the result of
`_input->is_key_pressed` for the key data of that name. -/
structure frame_input where
  current_time : Int
  effects_key_pressed : Bool
  screenshot_key_pressed : Bool
  next_preset_key_pressed : Bool
  previous_preset_key_pressed : Bool
  deriving DecidableEq, Repr

/-- The shortcuts of `on_present` that are not allowed while effects are being loaded or
compiled (runtime.cpp 225-239); `load_cache` is `ini_file::load_cache`.  The call of
`save_config` does not write to the runtime. -/
def preset_shortcuts (lib : cxx_library) (env : environment) (load_cache : String → ini_file)
    (input : frame_input) (s : runtime) : Option runtime :=
  let is_next_preset_key_pressed := input.next_preset_key_pressed
  let is_previous_preset_key_pressed := input.previous_preset_key_pressed
  let switched :=
    if is_next_preset_key_pressed || is_previous_preset_key_pressed then
      -- The preset shortcut key was pressed down, so start the transition
      match switch_to_next_preset env s "" is_previous_preset_key_pressed with
      | none => none
      | some (true, s1) =>
        some { s1 with
          _last_preset_switching_time := input.current_time
          _is_in_between_presets_transition := true }
      | some (false, s1) => some s1
    else some s
  match switched with
  | none => none
  | some s1 =>
    -- Continuously update preset values while a transition is in progress
    if s1._is_in_between_presets_transition then
      load_current_preset lib env (load_cache s1._current_preset_path) s1
    else some s1

/-- The member function `runtime::on_present` (runtime.cpp 165-254) on the members of the
model: the frame times, the keyboard shortcuts and the preset shortcuts.  The date, the frame
counter, the VR poses and the network and draw statistics are not members of the model. -/
def on_present (lib : cxx_library) (env : environment) (load_cache : String → ini_file)
    (input : frame_input) (s : runtime) : Option runtime :=
  -- Advance various statistics
  let s1 : runtime := { s with
    _last_frame_duration := input.current_time - s._last_present_time
    _last_present_time := input.current_time }
  -- Handle keyboard shortcuts
  if !s1._ignore_shortcuts then
    let s2 : runtime :=
      if input.effects_key_pressed then { s1 with _effects_enabled := !s1._effects_enabled }
      else s1
    let s3 : runtime :=
      if input.screenshot_key_pressed then { s2 with _should_save_screenshot := true }
      else s2
    -- Do not allow the next shortcuts while effects are being loaded or compiled
    if !is_loading s3 && s3._reload_compile_queue.isEmpty then
      preset_shortcuts lib env load_cache input s3
    else some s3
  else some s1

/-- The number of values of a stored sequence. -/
def ini_value.length : ini_value → Nat
  | ini_value.strings values => values.length
  | ini_value.numbers values => values.length
  | ini_value.floats values => values.length

/-- The store after the value of each of the given uniforms, in their order, was set under
the section named for the file name of its effect and the key of its name; `none` when a
value cannot be read. -/
def write_uniforms (env : environment) (s : runtime) : ini_file → List uniform → Option ini_file
  | preset, [] => some preset
  | preset, var :: rest =>
    match uniform_value s var with
    | none => none
    | some value =>
      write_uniforms env s (preset.set (uniform_key env s var).1 var.name value) rest

/-- What `save_current_preset` writes, in the words of the specification: after the toggle
keys, `Techniques` is set to the names of the enabled techniques in live order,
`TechniqueSorting` to the names of all techniques in live order, `PreprocessorDefinitions` to
the active definitions, and then the value of every uniform that is not special and whose
effect belongs to a technique that is enabled or has a toggle key, and of no other uniform. -/
def save_current_preset_spec (env : environment) (s : runtime) (preset : ini_file) :
    Option ini_file :=
  write_uniforms env s
    ((((s._techniques.foldl save_technique
        { effect_list := [], technique_list := [], sorted_technique_list := [],
          preset := preset }).preset.set
      "" "Techniques"
        (ini_value.strings ((s._techniques.filter technique.enabled).map technique.name))).set
      "" "TechniqueSorting" (ini_value.strings (s._techniques.map technique.name))).set
      "" "PreprocessorDefinitions" (ini_value.strings s._preset_preprocessor_definitions))
    (s._uniforms.filter (uniform_saved s))

/-- Modelled from the spec: `ini_file::has(section, key)`; the store has an entry for the key
in the section, whatever the value of the entry. -/
def ini_file.has (file : ini_file) (section_name key : String) : Bool :=
  (file section_name key).isSome

/-- The `ini_has` of the environment is `has` on the stores that `load_cache` gives for the
paths (`ini_file::load_cache(path).has(section, key)`). -/
def reads_cache (env : environment) (load_cache : String → ini_file) : Prop :=
  ∀ path section_name key,
    env.ini_has path section_name key = (load_cache path).has section_name key

/-! ## The algorithm of `std::sort` in the GNU C++ library

The program sorts the techniques with `std::sort`, which is code of the C++ library the
program is built with.  The definitions below follow `bits/stl_algo.h` and
`bits/stl_heap.h` of the GNU C++ library; positions are indices into the whole range, and the
loops carry a counter that bounds their iterations by the length of the range. -/

/-- The exchange `std::iter_swap` of the elements at two positions of a range. -/
def iter_swap {α : Type} (l : List α) (i j : Nat) : List α :=
  match l[i]?, l[j]? with
  | some a, some b => (l.set i b).set j a
  | _, _ => l

/-- The comparison of the elements at two positions of a range; false outside the range. -/
def comp_at {α : Type} (comp : α → α → Bool) (l : List α) (i j : Nat) : Bool :=
  match l[i]?, l[j]? with
  | some a, some b => comp a b
  | _, _ => false

/-- The helper `std::__move_median_to_first` of the GNU C++ library. -/
def move_median_to_first {α : Type} (comp : α → α → Bool) (l : List α)
    (result a b c : Nat) : List α :=
  if comp_at comp l a b then
    if comp_at comp l b c then iter_swap l result b
    else if comp_at comp l a c then iter_swap l result c
    else iter_swap l result a
  else if comp_at comp l a c then iter_swap l result a
  else if comp_at comp l b c then iter_swap l result c
  else iter_swap l result b

/-- The loop `while (comp(first, pivot)) ++first;` of `std::__unguarded_partition`. -/
def partition_up {α : Type} (comp : α → α → Bool) (l : List α) (pivot : Nat) :
    Nat → Nat → Nat
  | 0, first => first
  | fuel + 1, first =>
    if comp_at comp l first pivot then partition_up comp l pivot fuel (first + 1) else first

/-- The loop `while (comp(pivot, last)) --last;` of `std::__unguarded_partition`. -/
def partition_down {α : Type} (comp : α → α → Bool) (l : List α) (pivot : Nat) :
    Nat → Nat → Nat
  | 0, last => last
  | fuel + 1, last =>
    if comp_at comp l pivot last then partition_down comp l pivot fuel (last - 1) else last

/-- The helper `std::__unguarded_partition` of the GNU C++ library: the cut and the range
after it. -/
def unguarded_partition {α : Type} (comp : α → α → Bool) (pivot : Nat) :
    Nat → List α → Nat → Nat → Nat × List α
  | 0, l, first, _ => (first, l)
  | fuel + 1, l, first, last =>
    let first := partition_up comp l pivot l.length first
    let last := partition_down comp l pivot l.length (last - 1)
    if first < last then
      unguarded_partition comp pivot fuel (iter_swap l first last) (first + 1) last
    else (first, l)

/-- The helper `std::__unguarded_partition_pivot` of the GNU C++ library. -/
def unguarded_partition_pivot {α : Type} (comp : α → α → Bool) (l : List α)
    (first last : Nat) : Nat × List α :=
  let mid := first + (last - first) / 2
  unguarded_partition comp first l.length
    (move_median_to_first comp l first (first + 1) mid (last - 1)) (first + 1) last

/-- The helper `std::__push_heap` of the GNU C++ library, on the range that starts at
`first`. -/
def push_heap {α : Type} (comp : α → α → Bool) (first top_index : Nat) (value : α) :
    Nat → List α → Nat → List α
  | 0, l, hole_index => l.set (first + hole_index) value
  | fuel + 1, l, hole_index =>
    match l[first + (hole_index - 1) / 2]? with
    | some parent =>
      if top_index < hole_index ∧ comp parent value = true then
        push_heap comp first top_index value fuel (l.set (first + hole_index) parent)
          ((hole_index - 1) / 2)
      else l.set (first + hole_index) value
    | none => l.set (first + hole_index) value

/-- The first loop of `std::__adjust_heap`: the hole moves down to the larger child. -/
def adjust_heap_down {α : Type} (comp : α → α → Bool) (first len : Nat) :
    Nat → List α → Nat → Nat × List α
  | 0, l, hole_index => (hole_index, l)
  | fuel + 1, l, hole_index =>
    if hole_index < (len - 1) / 2 then
      let second_child := 2 * (hole_index + 1)
      let second_child :=
        if comp_at comp l (first + second_child) (first + (second_child - 1)) then
          second_child - 1
        else second_child
      match l[first + second_child]? with
      | some child =>
        adjust_heap_down comp first len fuel (l.set (first + hole_index) child) second_child
      | none => (hole_index, l)
    else (hole_index, l)

/-- The helper `std::__adjust_heap` of the GNU C++ library. -/
def adjust_heap {α : Type} (comp : α → α → Bool) (l : List α) (first hole_index len : Nat)
    (value : α) : List α :=
  let down := adjust_heap_down comp first len len l hole_index
  let second_child := down.1
  let l1 := down.2
  if len % 2 = 0 ∧ second_child = (len - 2) / 2 then
    match l1[first + (2 * (second_child + 1) - 1)]? with
    | some child =>
      push_heap comp first hole_index value len (l1.set (first + second_child) child)
        (2 * (second_child + 1) - 1)
    | none => l1
  else push_heap comp first hole_index value len l1 second_child

/-- The helper `std::__make_heap` of the GNU C++ library: the loop over the parents, from
the last one down to the root. -/
def make_heap {α : Type} (comp : α → α → Bool) (first len : Nat) : Nat → List α → List α
  | 0, l => l
  | parent + 1, l =>
    match l[first + parent]? with
    | some value => make_heap comp first len parent (adjust_heap comp l first parent len value)
    | none => l

/-- The helper `std::__sort_heap` of the GNU C++ library, with `std::__pop_heap` inlined:
`len` is `last - first`. -/
def sort_heap {α : Type} (comp : α → α → Bool) (first : Nat) : Nat → List α → List α
  | 0, l => l
  | len + 1, l =>
    if len + 1 > 1 then
      match l[first + len]?, l[first]? with
      | some value, some top =>
        sort_heap comp first len (adjust_heap comp (l.set (first + len) top) first 0 len value)
      | _, _ => l
    else l

/-- The call `std::__partial_sort(first, last, last, comp)` of the GNU C++ library, a heap
sort of the range. -/
def heap_sort {α : Type} (comp : α → α → Bool) (l : List α) (first last : Nat) : List α :=
  let len := last - first
  sort_heap comp first len
    (if len < 2 then l else make_heap comp first len ((len - 2) / 2 + 1) l)

/-- The helper `std::__introsort_loop` of the GNU C++ library (`_S_threshold` is 16). -/
def introsort_loop {α : Type} (comp : α → α → Bool) :
    Nat → List α → Nat → Nat → Nat → List α
  | 0, l, _, _, _ => l
  | fuel + 1, l, first, last, depth_limit =>
    if last - first > 16 then
      if depth_limit = 0 then heap_sort comp l first last
      else
        let cut := unguarded_partition_pivot comp l first last
        introsort_loop comp fuel
          (introsort_loop comp fuel cut.2 cut.1 last (depth_limit - 1))
          first cut.1 (depth_limit - 1)
    else l

/-- The helper `std::__unguarded_linear_insert` of the GNU C++ library. -/
def unguarded_linear_insert {α : Type} (comp : α → α → Bool) (value : α) :
    Nat → List α → Nat → List α
  | 0, l, last => l.set last value
  | fuel + 1, l, last =>
    match (if last = 0 then none else l[last - 1]?) with
    | some next =>
      if comp value next then
        unguarded_linear_insert comp value fuel (l.set last next) (last - 1)
      else l.set last value
    | none => l.set last value

/-- One iteration of the loop of `std::__insertion_sort` of the GNU C++ library. -/
def insertion_sort_step {α : Type} (comp : α → α → Bool) (first : Nat) (l : List α)
    (i : Nat) : List α :=
  match l[i]?, l[first]? with
  | some value, some front =>
    if comp value front then
      l.take first ++ value :: (l.drop first).take (i - first) ++ l.drop (i + 1)
    else unguarded_linear_insert comp value l.length l i
  | _, _ => l

/-- The helper `std::__final_insertion_sort` of the GNU C++ library. -/
def final_insertion_sort {α : Type} (comp : α → α → Bool) (l : List α) (first last : Nat) :
    List α :=
  if last - first > 16 then
    (List.range' (first + 16) (last - (first + 16))).foldl
      (fun l i =>
        match l[i]? with
        | some value => unguarded_linear_insert comp value l.length l i
        | none => l)
      ((List.range' (first + 1) 15).foldl (insertion_sort_step comp first) l)
  else
    (List.range' (first + 1) (last - (first + 1))).foldl (insertion_sort_step comp first) l

/-- The algorithm `std::sort(first, last, comp)` of the GNU C++ library
(`bits/stl_algo.h`): an introsort with a depth limit of `2 * std::__lg(n)` whose loop leaves
ranges of at most 16 elements to a final insertion sort. -/
def gnu_sort {α : Type} (comp : α → α → Bool) (l : List α) : List α :=
  if l.length = 0 then l
  else
    final_insertion_sort comp
      (introsort_loop comp l.length l 0 l.length (2 * highest_bit 64 l.length)) 0 l.length

/-! ## The arithmetic of `float`

The type `float` is IEEE 754 binary32 and every operation rounds to the nearest `float`, a
tie to the one with an even significand; these are the operations of the SSE instructions
that the 64-bit build of the program runs.  A `float` is given by its bit pattern. -/

/-- The significand of a finite `float` as a natural number: its value is
`float_significand f * 2 ^ float_scale f`. -/
def float_significand (f : Nat) : Nat :=
  if float_exponent f = 0 then float_fraction f else 8388608 + float_fraction f

/-- The power of two that scales the significand of a finite `float`. -/
def float_scale (f : Nat) : Int :=
  if float_exponent f = 0 then -149 else (float_exponent f : Int) - 150

/-- Whether a bit pattern is a NaN. -/
def float_is_nan (f : Nat) : Bool := float_exponent f == 255 && float_fraction f != 0

/-- Whether a bit pattern is an infinity. -/
def float_is_inf (f : Nat) : Bool := float_exponent f == 255 && float_fraction f == 0

/-- The bit pattern of the infinity of a sign. -/
def float_inf (sign : Bool) : Nat := if sign then 0xFF800000 else 0x7F800000

/-- The bit pattern of the zero of a sign. -/
def float_zero (sign : Bool) : Nat := if sign then 0x80000000 else 0

/-- The NaN an invalid operation gives (the "real indefinite" of the SSE instructions). -/
def float_indefinite : Nat := 0xFFC00000

/-- A NaN operand as the result of an operation: the same NaN with its quiet bit set. -/
def float_quiet (f : Nat) : Nat := if f / 4194304 % 2 = 0 then f + 4194304 else f

/-- The `float` nearest to `m * 2 ^ e` with the given sign (round to nearest, ties to even; a
subnormal or zero when the value is too small for a normal number, an infinity when it is
too large). -/
def float_round (sign : Bool) (m : Nat) (e : Int) : Nat :=
  if m = 0 then float_zero sign
  else if (highest_bit 400 m : Int) + e < -126 then
    float_zero sign +
      (if -149 ≤ e then m * 2 ^ (e + 149).toNat else round_shift m (-149 - e).toNat)
  else if ((highest_bit 400 m : Int) + e + 127).toNat * 8388608 +
      ((if highest_bit 400 m ≤ 23 then m * 2 ^ (23 - highest_bit 400 m)
        else round_shift m (highest_bit 400 m - 23)) - 8388608) < 0x7F800000 then
    float_zero sign + (((highest_bit 400 m : Int) + e + 127).toNat * 8388608 +
      ((if highest_bit 400 m ≤ 23 then m * 2 ^ (23 - highest_bit 400 m)
        else round_shift m (highest_bit 400 m - 23)) - 8388608))
  else float_inf sign

/-- The signed integer `± m`. -/
def signed_value (sign : Bool) (m : Nat) : Int := if sign then - (m : Int) else m

/-- The sum of a finite `float` `a` and the finite `float` `b` with its sign replaced by
`sign_b`, rounded; an exact zero is negative only when both summands are. -/
def float_add_finite (a b : Nat) (sign_b : Bool) : Nat :=
  let e := min (float_scale a) (float_scale b)
  let sum := signed_value (float_sign a) (float_significand a * 2 ^ (float_scale a - e).toNat) +
    signed_value sign_b (float_significand b * 2 ^ (float_scale b - e).toNat)
  if sum = 0 then float_zero (float_sign a && sign_b)
  else float_round (decide (sum < 0)) sum.natAbs e

/-- The subtraction of `float` (IEEE 754 binary32, round to nearest even), on bit patterns. -/
def ieee_sub (a b : Nat) : Nat :=
  if float_is_nan a then float_quiet a
  else if float_is_nan b then float_quiet b
  else if float_is_inf a then
    if float_is_inf b && (float_sign a == float_sign b) then float_indefinite
    else float_inf (float_sign a)
  else if float_is_inf b then float_inf (!float_sign b)
  else float_add_finite a b (!float_sign b)

/-- The multiplication of `float` (IEEE 754 binary32, round to nearest even), on bit
patterns. -/
def ieee_mul (a b : Nat) : Nat :=
  if float_is_nan a then float_quiet a
  else if float_is_nan b then float_quiet b
  else if float_is_inf a || float_is_inf b then
    if (!float_is_inf a && float_significand a == 0) ||
        (!float_is_inf b && float_significand b == 0) then float_indefinite
    else float_inf (float_sign a != float_sign b)
  else
    float_round (float_sign a != float_sign b) (float_significand a * float_significand b)
      (float_scale a + float_scale b)

/-- The division of `float` (IEEE 754 binary32, round to nearest even), on bit patterns.  The
quotient of the significands is taken with 64 further bits and one bit that tells whether
the division left a remainder, which rounds as the exact quotient does. -/
def ieee_div (a b : Nat) : Nat :=
  if float_is_nan a then float_quiet a
  else if float_is_nan b then float_quiet b
  else if float_is_inf a then
    if float_is_inf b then float_indefinite else float_inf (float_sign a != float_sign b)
  else if float_is_inf b then float_zero (float_sign a != float_sign b)
  else if float_significand b = 0 then
    if float_significand a = 0 then float_indefinite
    else float_inf (float_sign a != float_sign b)
  else
    float_round (float_sign a != float_sign b)
      (2 * (float_significand a * 2 ^ 64 / float_significand b) +
        (if float_significand a * 2 ^ 64 % float_significand b = 0 then 0 else 1))
      (float_scale a - float_scale b - 65)

/-- The conversion `static_cast<float>(x)` for a `long long`. -/
def ieee_of_int64 (x : Int) : Nat := float_round (decide (x < 0)) x.natAbs 0

/-- The C++ library with the given `std::sort` and the IEEE 754 binary32 arithmetic of
`float`. -/
def ieee_library (sort : (technique → technique → Bool) → List technique → List technique) :
    cxx_library :=
  { sort := sort
    float_sub := ieee_sub
    float_mul := ieee_mul
    float_div := ieee_div
    float_of_int64 := ieee_of_int64 }

/-- The formula of the smooth transition (runtime.cpp 508-509) over an arithmetic given by its
subtraction, multiplication, division and conversion from `long long`. -/
def transition_formula {α : Type} (sub mul div : α → α → α) (of_int64 : Int → α)
    (transition_ms_left transition_ms_left_from_last_frame : Int) (value value_old : α) : α :=
  let transition_ratio := div (sub value value_old) (of_int64 transition_ms_left_from_last_frame)
  sub value (mul transition_ratio (of_int64 transition_ms_left))

/-- The first `k` lanes of a variable's storage range. -/
def leading_lanes (s : runtime) (var : uniform) (k : Nat) : List Nat :=
  (bytes_lanes (range_bytes s var)).take k

/-- The target values of the first `k` lanes of a float variable in `load_current_preset`:
what the preset store holds for them (an element the stored sequence does not have reads as
zero), and the current lanes when the store has no floats for the variable. -/
def preset_lanes (env : environment) (preset : ini_file) (s : runtime) (var : uniform)
    (k : Nat) : List Nat :=
  preset.get_float (uniform_key env s var).1 var.name (leading_lanes s var k)

/-- The first `k` lanes `load_current_preset` stores for a float variable
(runtime.cpp 499-513): during a transition the result of the transition formula for each
target value and current lane, reduced to 32 bits, and the target values otherwise. -/
def applied_lanes (lib : cxx_library) (env : environment) (preset : ini_file)
    (transition_ms_left transition_ms_left_from_last_frame : Int) (s : runtime)
    (var : uniform) (k : Nat) : List Nat :=
  if s._is_in_between_presets_transition then
    (List.zipWith
      (transition_formula lib.float_sub lib.float_mul lib.float_div lib.float_of_int64
        transition_ms_left transition_ms_left_from_last_frame)
      (preset_lanes env preset s var k) (leading_lanes s var k)).map
      (fun x => x % 4294967296)
  else preset_lanes env preset s var k

/-! ## Concrete states used to evaluate the definitions -/

/-- A technique with the given owning effect, enabled flag and backend handle. -/
def demo_technique (name : String) (effect_index : Nat) (enabled : Bool) (impl : Option Nat) :
    technique :=
  { name := name, effect_index := effect_index, enabled := enabled, timeout := 5, timeleft := 2,
    impl := impl, toggle_key_data := [0, 0, 0, 0], int_annotations := [],
    average_cpu_duration := ⟨[3, 4]⟩, average_gpu_duration := ⟨[7]⟩ }

/-- A runtime with the given techniques, effects, compile queue and Uniform Storage. -/
def demo_runtime (techniques : List technique) (effects : List effect_data)
    (queue : List Nat) (storage : List Nat) : runtime :=
  { _renderer_id := 0xb000, _uniforms := [], _techniques := techniques,
    _uniform_data_storage := storage, _effects_enabled := true, _ignore_shortcuts := false,
    _preset_transition_delay := 1000, _current_preset_path := "B.ini",
    _preset_preprocessor_definitions := [], _performance_mode := false,
    _should_save_screenshot := false, _is_in_between_presets_transition := false,
    _reload_total_effects := 1, _reload_compile_queue := queue,
    _reload_remaining_effects := 0, _loaded_effects := effects,
    _last_frame_duration := 1000, _last_present_time := 0, _last_preset_switching_time := 0 }

/-- Effect 0 failed to compile, effect 1 compiled; one disabled technique for each. -/
def demo_registry : runtime :=
  demo_runtime
    [demo_technique "Blur" 0 false none, demo_technique "Tint" 1 false none,
      demo_technique "Glow" 1 false none]
    [⟨"Blur.fx", false, 0⟩, ⟨"Tint.fx", true, 0⟩] [] []

/-- Effect 0 compiled and its only technique is enabled, so its rendering count is 1. -/
def demo_enabled : runtime :=
  demo_runtime [demo_technique "Tint" 0 true (some 1)] [⟨"Tint.fx", true, 1⟩] [] []

/-- An environment in which every directory iteration yields `entries`: `notes.md` is a text
file, every other entry is an existing preset file with a technique list, and two paths are
equivalent when they are equal. -/
def demo_env (entries : List String) : environment :=
  { extension := fun p => if p = "notes.md" then ".md" else ".ini"
    filename := fun p => p
    stem := fun p => p.data
    parent_path := fun _ => ""
    append := fun _ p => p
    absolute := fun p => p
    canonical := fun _ => none
    is_directory := fun _ => true
    status := fun _ => (file_type.regular, 0)
    equivalent := fun p q => p == q
    directory_iterator := fun _ => entries
    ini_has := fun _ _ _ => true
    towlower := Char.toLower
    g_reshade_dll_path := "ReShade.dll" }

/-- The runtime `demo_enabled` with another current preset. -/
def demo_preset (current_preset_path : String) : runtime :=
  { demo_enabled with _current_preset_path := current_preset_path }

/-- An int3 uniform at offset 4 of a 20 byte Uniform Storage filled with `0xff`. -/
def demo_uniform : uniform :=
  { name := "iParams", type := ⟨datatype.t_int, 1, 3⟩, size := 12, storage_offset := 4,
    effect_index := 0, has_initializer_value := false, initializer_value := [], special := 0 }

/-- The runtime `demo_enabled` with a 20 byte Uniform Storage filled with `0xff`. -/
def demo_storage : runtime :=
  { demo_enabled with _uniform_data_storage := List.replicate 20 255 }

/-- The runtime `demo_storage` on the legacy backend (`_renderer_id == 0x9000`). -/
def demo_legacy : runtime :=
  { demo_storage with _renderer_id := 0x9000 }

/-- A library whose `std::sort` is the given algorithm.  The arithmetic of `float` is never
reached in the evaluations below, in which no transition is active; every operation returns
its first operand. -/
def demo_library (sort : (technique → technique → Bool) → List technique → List technique) :
    cxx_library :=
  { sort := sort
    float_sub := fun a _ => a
    float_mul := fun a _ => a
    float_div := fun a _ => a
    float_of_int64 := fun x => x.toNat }

/-- An insertion sort that keeps the order of equivalent elements. -/
def stable_sort (comp : technique → technique → Bool) (l : List technique) : List technique :=
  l.insertionSort (fun a b => comp b a = false)

/-- Seventeen disabled techniques `T00` to `T16` of one compiled effect. -/
def demo_many : runtime :=
  demo_runtime
    (["T00", "T01", "T02", "T03", "T04", "T05", "T06", "T07", "T08", "T09", "T10", "T11",
      "T12", "T13", "T14", "T15", "T16"].map (fun name => demo_technique name 0 false none))
    [⟨"Many.fx", true, 0⟩] [] []

/-- A preset store with a technique list, an ordering list and preprocessor definitions. -/
def demo_ini (techniques sorting definitions : List String) : ini_file :=
  ((ini_file.empty.set "" "Techniques" (ini_value.strings techniques)).set
    "" "TechniqueSorting" (ini_value.strings sorting)).set
    "" "PreprocessorDefinitions" (ini_value.strings definitions)

/-- The runtime `demo_enabled` in performance mode with the given value of
`_reload_remaining_effects`. -/
def demo_performance (remaining : Nat) : runtime :=
  { demo_enabled with _performance_mode := true, _reload_remaining_effects := remaining }

/-- A float uniform of effect 1 at offset 16 of the Uniform Storage. -/
def demo_float_uniform : uniform :=
  { name := "fGlow", type := ⟨datatype.t_float, 1, 1⟩, size := 4, storage_offset := 16,
    effect_index := 1, has_initializer_value := false, initializer_value := [], special := 0 }

/-- Two compiled effects with a technique each: `Tint` of effect 0 is enabled, `Glow` of
effect 1 carries the annotation `enabled = 1` and is disabled.  The int3 uniform of effect 0
holds `(1, 2, 3)`, the float uniform of effect 1 holds `1.0f`. -/
def demo_roundtrip : runtime :=
  { demo_runtime
      [demo_technique "Tint" 0 true (some 1),
        { demo_technique "Glow" 1 false (some 2) with int_annotations := [("enabled", 1)] }]
      [⟨"Tint.fx", true, 1⟩, ⟨"Glow.fx", true, 0⟩] []
      [0, 0, 0, 0, 1, 0, 0, 0, 2, 0, 0, 0, 3, 0, 0, 0, 0, 0, 128, 63] with
    _uniforms := [demo_uniform, demo_float_uniform] }

/-- A preset store that holds `2.0f` for the float uniform of effect 1. -/
def demo_stale : ini_file :=
  ini_file.empty.set "Glow.fx" "fGlow" (ini_value.floats [0x40000000])

/-- An unsigned uniform of effect 0 at offset 4 of the Uniform Storage. -/
def demo_unsigned_uniform : uniform :=
  { name := "uCount", type := ⟨datatype.t_uint, 1, 1⟩, size := 4, storage_offset := 4,
    effect_index := 0, has_initializer_value := false, initializer_value := [], special := 0 }

/-- The runtime `demo_roundtrip` on the legacy backend, with the unsigned uniform as its only
uniform; the lane of the uniform holds `-3.0f`. -/
def demo_legacy_unsigned : runtime :=
  { demo_roundtrip with
    _renderer_id := 0x9000, _uniforms := [demo_unsigned_uniform]
    _uniform_data_storage := [0, 0, 0, 0, 0, 0, 64, 192] }

/-- A frame at time `5000` in which the next-preset key and the screenshot key are pressed. -/
def demo_keys : frame_input :=
  { current_time := 5000, effects_key_pressed := false, screenshot_key_pressed := true,
    next_preset_key_pressed := true, previous_preset_key_pressed := false }

/-- The runtime `demo_enabled` with the reload counter at its idle sentinel. -/
def demo_idle : runtime :=
  { demo_enabled with _reload_remaining_effects := size_t_max }

/-- The environment `demo_env []` in which every file holds the store `load_cache` gives. -/
def demo_cache_env (load_cache : String → ini_file) : environment :=
  { demo_env [] with
    ini_has := fun path section_name key => (load_cache path).has section_name key }

/-- An int uniform of effect 0 with one component and a size of two lanes. -/
def demo_padded_uniform : uniform :=
  { name := "iPadded", type := ⟨datatype.t_int, 1, 1⟩, size := 8, storage_offset := 4,
    effect_index := 0, has_initializer_value := false, initializer_value := [], special := 0 }

/-- The runtime `demo_roundtrip` with the padded uniform as its only uniform; its two lanes
hold `5` and `7`. -/
def demo_padded : runtime :=
  { demo_roundtrip with
    _uniforms := [demo_padded_uniform]
    _uniform_data_storage := [0, 0, 0, 0, 5, 0, 0, 0, 7, 0, 0, 0] }

/-- A float uniform of effect 0 with one component, at the start of the Uniform Storage. -/
def demo_lane_uniform : uniform :=
  { name := "fStrength", type := ⟨datatype.t_float, 1, 1⟩, size := 4, storage_offset := 0,
    effect_index := 0, has_initializer_value := false, initializer_value := [], special := 0 }

/-- A runtime in a preset transition of 1000 ms that has just started: no time has passed
since the switch and the last frame took less than a millisecond.  The float uniform holds
`1e-10f` (`0x2EDBE6FF`). -/
def demo_transition : runtime :=
  { demo_runtime [demo_technique "Glow" 0 true (some 1)] [⟨"Glow.fx", true, 1⟩] []
      [255, 230, 219, 46] with
    _uniforms := [demo_lane_uniform]
    _is_in_between_presets_transition := true
    _last_frame_duration := 0 }

/-- A preset store that names the technique `Glow` and holds `1.0f` for the float uniform. -/
def demo_target : ini_file :=
  (demo_ini ["Glow"] ["Glow"] []).set "Glow.fx" "fStrength" (ini_value.floats [0x3F800000])

/-- The runtime `demo_transition` two seconds after the switch: the transition of 1000 ms is
over. -/
def demo_finished : runtime :=
  { demo_transition with _last_present_time := 2000000 }

/-- A bool uniform of effect 0 at offset 4 of the Uniform Storage. -/
def demo_bool_uniform : uniform :=
  { name := "bSwitch", type := ⟨datatype.t_bool, 1, 1⟩, size := 4, storage_offset := 4,
    effect_index := 0, has_initializer_value := false, initializer_value := [], special := 0 }

/-- The runtime `demo_roundtrip` on the legacy backend, with the bool uniform as its only
uniform; the lane of the uniform holds `0.5f`. -/
def demo_legacy_bool : runtime :=
  { demo_roundtrip with
    _renderer_id := 0x9000, _uniforms := [demo_bool_uniform]
    _uniform_data_storage := [0, 0, 0, 0, 0, 0, 0, 63] }

/-! # Theorems -/

/-! ## Effect/technique registry -/

/-- C1: for every runtime state and every technique `T` whose owning effect has
`compile_sucess == false`, `enable_technique(T)` returns with the whole runtime state
unchanged: `T.enabled` and `T.timeleft`, the compile queue, `_reload_total_effects` and every
effect's rendering count are what they were. -/
theorem enable_technique_compile_failed (s : runtime) (t : Nat) (T : technique)
    (effect : effect_data) (hT : s._techniques[t]? = some T)
    (hE : s._loaded_effects[T.effect_index]? = some effect)
    (hfail : effect.compile_sucess = false) :
    enable_technique s t = some s := by
  simp [enable_technique, hT, hE, hfail]

/-- Witness of C1: enabling the disabled technique of the effect that failed to compile. -/
theorem enable_technique_compile_failed_witness :
    enable_technique demo_registry 0 = some demo_registry :=
  enable_technique_compile_failed demo_registry 0 (demo_technique "Blur" 0 false none)
    ⟨"Blur.fx", false, 0⟩ rfl rfl rfl

/-- C2: for every technique `T` whose owning effect compiled successfully,
`enable_technique(T)` returns and leaves `T.enabled == true` and `T.timeleft == T.timeout`
(the other members of `T` are unchanged); the owning effect's rendering count is one more
than before if `T` was disabled and unchanged otherwise; `T.effect_index` is appended to
the end of the compile queue and `_reload_total_effects` is one more than before if `T` has
no backend handle and the index is not yet in the queue, and both are unchanged otherwise. -/
theorem enable_technique_compiled (s : runtime) (t : Nat) (T : technique)
    (effect : effect_data) (hT : s._techniques[t]? = some T)
    (hE : s._loaded_effects[T.effect_index]? = some effect)
    (hok : effect.compile_sucess = true) :
    ∃ s1 : runtime, enable_technique s t = some s1 ∧
      s1._techniques[t]? = some { T with enabled := true, timeleft := T.timeout } ∧
      (∃ effect1 : effect_data, s1._loaded_effects[T.effect_index]? = some effect1 ∧
        effect1.rendering = if T.enabled then effect.rendering else effect.rendering + 1) ∧
      s1._reload_compile_queue =
        (if T.impl = none ∧ T.effect_index ∉ s._reload_compile_queue
          then s._reload_compile_queue ++ [T.effect_index] else s._reload_compile_queue) ∧
      s1._reload_total_effects =
        (if T.impl = none ∧ T.effect_index ∉ s._reload_compile_queue
          then s._reload_total_effects + 1 else s._reload_total_effects) := by
  have ht : t < s._techniques.length := (List.getElem?_eq_some_iff.mp hT).1
  have he : T.effect_index < s._loaded_effects.length := (List.getElem?_eq_some_iff.mp hE).1
  by_cases hen : T.enabled = true <;>
    by_cases hq : T.impl = none ∧ T.effect_index ∉ s._reload_compile_queue <;>
    simp [enable_technique, hT, hE, hok, hen, hq, ht, he, List.getElem?_set]

/-- Witness of C2: enabling a disabled technique without backend handle of a compiled
effect that is not queued yet. -/
theorem enable_technique_compiled_witness :
    ∃ s1 : runtime, enable_technique demo_registry 1 = some s1 ∧
      s1._techniques[1]? =
        some { demo_technique "Tint" 1 true none with timeleft := 5 } ∧
      (∃ effect1 : effect_data, s1._loaded_effects[1]? = some effect1 ∧
        effect1.rendering = 1) ∧
      s1._reload_compile_queue = [1] ∧ s1._reload_total_effects = 2 :=
  enable_technique_compiled demo_registry 1 (demo_technique "Tint" 1 false none)
    ⟨"Tint.fx", true, 0⟩ rfl rfl rfl

/-- C3: for every technique `T` (with a valid owning effect), `disable_technique(T)` returns
and leaves `T.enabled == false`, `T.timeleft == 0` and both running duration averages cleared
(the other members of `T` are unchanged); the owning effect's rendering count is one less
than before if `T` was enabled and unchanged otherwise; the compile queue,
`_reload_total_effects`, every other technique and every other effect are unchanged. -/
theorem disable_technique_spec (s : runtime) (t : Nat) (T : technique)
    (effect : effect_data) (hT : s._techniques[t]? = some T)
    (hE : s._loaded_effects[T.effect_index]? = some effect) :
    ∃ s1 : runtime, disable_technique s t = some s1 ∧
      s1._techniques[t]? = some { T with
        enabled := false, timeleft := 0,
        average_cpu_duration := ⟨[]⟩, average_gpu_duration := ⟨[]⟩ } ∧
      (∃ effect1 : effect_data, s1._loaded_effects[T.effect_index]? = some effect1 ∧
        effect1.rendering = if T.enabled then effect.rendering - 1 else effect.rendering) ∧
      s1._reload_compile_queue = s._reload_compile_queue ∧
      s1._reload_total_effects = s._reload_total_effects ∧
      (∀ j, j ≠ t → s1._techniques[j]? = s._techniques[j]?) ∧
      (∀ e, e ≠ T.effect_index → s1._loaded_effects[e]? = s._loaded_effects[e]?) := by
  have ht : t < s._techniques.length := (List.getElem?_eq_some_iff.mp hT).1
  have he : T.effect_index < s._loaded_effects.length := (List.getElem?_eq_some_iff.mp hE).1
  by_cases hen : T.enabled = true
  · simp only [disable_technique, hT, hE, hen, if_true, moving_average.clear]
    refine ⟨_, rfl, ?_, ?_, rfl, rfl, ?_, ?_⟩
    · simp [ht]
    · exact ⟨{ effect with rendering := effect.rendering - 1 }, by simp [he], by simp [hen]⟩
    · intro j hj
      simp [List.getElem?_set, Ne.symm hj]
    · intro e hne
      simp [List.getElem?_set, Ne.symm hne]
  · simp only [disable_technique, hT, hen, moving_average.clear]
    refine ⟨_, rfl, ?_, ?_, rfl, rfl, ?_, ?_⟩
    · simp [ht]
    · exact ⟨effect, hE, by simp [hen]⟩
    · intro j hj
      simp [List.getElem?_set, Ne.symm hj]
    · intro e _
      rfl

/-- Witness of C3: disabling the enabled technique of `demo_enabled`. -/
theorem disable_technique_spec_witness :
    ∃ s1 : runtime, disable_technique demo_enabled 0 = some s1 ∧
      s1._techniques[0]? = some { demo_technique "Tint" 0 true (some 1) with
        enabled := false, timeleft := 0,
        average_cpu_duration := ⟨[]⟩, average_gpu_duration := ⟨[]⟩ } ∧
      (∃ effect1 : effect_data, s1._loaded_effects[0]? = some effect1 ∧
        effect1.rendering = 0) ∧
      s1._reload_compile_queue = [] ∧
      s1._reload_total_effects = 1 ∧
      (∀ j, j ≠ 0 → s1._techniques[j]? = demo_enabled._techniques[j]?) ∧
      (∀ e, e ≠ 0 → s1._loaded_effects[e]? = demo_enabled._loaded_effects[e]?) :=
  disable_technique_spec demo_enabled 0 (demo_technique "Tint" 0 true (some 1))
    ⟨"Tint.fx", true, 1⟩ rfl rfl

/-- Counterexample to C4 as stated: in `demo_enabled` the technique is already enabled and
its effect's rendering count is 1; `enable_technique` followed by `disable_technique` leaves
the count at 0, not at its prior value 1. -/
theorem enable_then_disable_counterexample :
    demo_enabled._loaded_effects.map effect_data.rendering = [1] ∧
      ((enable_technique demo_enabled 0).bind (fun s1 => disable_technique s1 0)).map
        (fun s2 => s2._loaded_effects.map effect_data.rendering) = some [0] := by
  decide

/-- C4, amended: for every runtime state and every technique `T` (with a valid owning
effect), `enable_technique(T)` followed by `disable_technique(T)` returns, and the owning
effect's rendering count is back at the value it had before the enable call if `T` was
disabled before that call; if `T` was already enabled, the count ends one below that value. -/
theorem enable_then_disable_rendering (s : runtime) (t : Nat) (T : technique)
    (effect : effect_data) (hT : s._techniques[t]? = some T)
    (hE : s._loaded_effects[T.effect_index]? = some effect) :
    ∃ s1 s2 : runtime, enable_technique s t = some s1 ∧ disable_technique s1 t = some s2 ∧
      ∃ effect2 : effect_data, s2._loaded_effects[T.effect_index]? = some effect2 ∧
        effect2.rendering = if T.enabled then effect.rendering - 1 else effect.rendering := by
  have ht : t < s._techniques.length := (List.getElem?_eq_some_iff.mp hT).1
  have he : T.effect_index < s._loaded_effects.length := (List.getElem?_eq_some_iff.mp hE).1
  by_cases hok : effect.compile_sucess = true
  · by_cases hen : T.enabled = true <;>
      by_cases hq : T.impl = none ∧ T.effect_index ∉ s._reload_compile_queue <;>
      simp [enable_technique, disable_technique, hT, hE, hok, hen, hq, ht, he,
        List.getElem?_set]
  · by_cases hen : T.enabled = true <;>
      simp [enable_technique, disable_technique, hT, hE, hok, hen, ht, he, List.getElem?_set]

/-- Witness of amended C4: enabling and then disabling a disabled technique of a compiled
effect. -/
theorem enable_then_disable_rendering_witness :
    ∃ s1 s2 : runtime, enable_technique demo_registry 1 = some s1 ∧
      disable_technique s1 1 = some s2 ∧
      ∃ effect2 : effect_data, s2._loaded_effects[1]? = some effect2 ∧
        effect2.rendering = 0 :=
  enable_then_disable_rendering demo_registry 1 (demo_technique "Tint" 1 false none)
    ⟨"Tint.fx", true, 0⟩ rfl rfl

/-! ### The rendering count as an invariant -/

/-- Replacing the element at a position changes the number of elements satisfying a
predicate by the difference between the new and the old element. -/
theorem filter_length_set {α : Type} (p : α → Bool) (l : List α) (i : Nat) (a b : α)
    (h : l[i]? = some a) :
    ((l.set i b).filter p).length + (if p a then 1 else 0) =
      (l.filter p).length + (if p b then 1 else 0) := by
  induction l generalizing i with
  | nil => simp at h
  | cons x xs ih =>
    cases i with
    | zero =>
      simp only [List.getElem?_cons_zero, Option.some.injEq] at h
      subst h
      simp only [List.set_cons_zero, List.filter_cons]
      cases hx : p x <;> cases hb : p b <;> simp
    | succ j =>
      simp only [List.getElem?_cons_succ] at h
      have := ih j h
      simp only [List.set_cons_succ, List.filter_cons]
      cases hx : p x <;> simp <;> omega

/-- The number of enabled techniques of an effect after one technique was replaced. -/
theorem enabled_count_set (ts : List technique) (t : Nat) (T T1 : technique) (e : Nat)
    (h : ts[t]? = some T) :
    (enabled_count (ts.set t T1) e : Int) =
      enabled_count ts e + (if T1.enabled && decide (T1.effect_index = e) then 1 else 0)
        - (if T.enabled && decide (T.effect_index = e) then 1 else 0) := by
  have := filter_length_set (fun T => T.enabled && decide (T.effect_index = e)) ts t T T1 h
  simp only [enabled_count]
  split_ifs at this ⊢ <;> omega

/-- An enabled technique is counted for its owning effect. -/
theorem enabled_count_pos (ts : List technique) (T : technique) (hmem : T ∈ ts)
    (hen : T.enabled = true) : 0 < enabled_count ts T.effect_index := by
  unfold enabled_count
  apply List.length_pos_of_mem (a := T)
  simp [List.mem_filter, hmem, hen]

/-- The effect indices stay valid when a technique is replaced by one of the same effect
and an effect is replaced in place. -/
theorem effect_indices_valid_set (ts : List technique) (n : Nat) (t : Nat) (T T1 : technique)
    (hmem : T ∈ ts) (hidx : T1.effect_index = T.effect_index)
    (h : ∀ U ∈ ts, U.effect_index < n) : ∀ U ∈ ts.set t T1, U.effect_index < n := by
  intro U hU
  rcases List.mem_or_eq_of_mem_set hU with hU | hU
  · exact h U hU
  · subst hU
    rw [hidx]
    exact h T hmem

/-- The state `enable_technique` returns for a technique of a compiled effect. -/
theorem enable_technique_eq (s : runtime) (t : Nat) (T : technique) (effect : effect_data)
    (hT : s._techniques[t]? = some T) (hE : s._loaded_effects[T.effect_index]? = some effect)
    (hok : effect.compile_sucess = true) :
    enable_technique s t = some { s with
      _techniques := s._techniques.set t { T with enabled := true, timeleft := T.timeout }
      _reload_total_effects :=
        if T.impl = none ∧ T.effect_index ∉ s._reload_compile_queue
          then s._reload_total_effects + 1 else s._reload_total_effects
      _reload_compile_queue :=
        if T.impl = none ∧ T.effect_index ∉ s._reload_compile_queue
          then s._reload_compile_queue ++ [T.effect_index] else s._reload_compile_queue
      _loaded_effects :=
        if T.enabled then s._loaded_effects
        else s._loaded_effects.set T.effect_index
          { effect with rendering := effect.rendering + 1 } } := by
  by_cases hen : T.enabled = true <;>
    by_cases hq : T.impl = none ∧ T.effect_index ∉ s._reload_compile_queue <;>
    simp [enable_technique, hT, hE, hok, hen, hq]

/-- The call `enable_technique` returns on a valid technique and keeps the registry invariants. -/
theorem enable_technique_kept (s : runtime) (t : Nat) (ht : t < s._techniques.length)
    (hvalid : effect_indices_valid s) :
    ∃ s1, enable_technique s t = some s1 ∧ registry_kept s s1 := by
  obtain ⟨T, hT⟩ : ∃ T, s._techniques[t]? = some T := ⟨_, List.getElem?_eq_getElem ht⟩
  have hmem : T ∈ s._techniques := by
    obtain ⟨h, rfl⟩ := List.getElem?_eq_some_iff.mp hT
    exact List.getElem_mem h
  have he : T.effect_index < s._loaded_effects.length := hvalid T hmem
  obtain ⟨effect, hE⟩ : ∃ effect, s._loaded_effects[T.effect_index]? = some effect :=
    ⟨_, List.getElem?_eq_getElem he⟩
  by_cases hok : effect.compile_sucess = true
  swap
  · refine ⟨s, by simp [enable_technique, hT, hE, hok], rfl, id, fun _ h => h, id⟩
  refine ⟨_, enable_technique_eq s t T effect hT hE hok, ?_, ?_, ?_, ?_⟩
  · simp
  · intro hv
    have hlen : (if T.enabled then s._loaded_effects
        else s._loaded_effects.set T.effect_index
          { effect with rendering := effect.rendering + 1 }).length =
        s._loaded_effects.length := by
      split <;> simp
    unfold effect_indices_valid
    simp only [hlen]
    exact effect_indices_valid_set _ _ t T _ hmem rfl hv
  · intro _ hinv e effect2 hE2
    simp only at hE2 ⊢
    rw [enabled_count_set _ t T _ e hT]
    by_cases hen : T.enabled = true
    · simp only [hen, if_true] at hE2
      have := hinv e effect2 hE2
      simp only [hen, Bool.true_and]
      rw [this]; ring
    · simp only [Bool.not_eq_true] at hen
      simp only [hen, Bool.false_eq_true, if_false, List.getElem?_set] at hE2
      by_cases hidx : T.effect_index = e
      · subst hidx
        simp only [he, if_true, Option.some.injEq] at hE2
        subst hE2
        have := hinv _ effect hE
        simp [hen, this]
      · simp only [hidx, if_false] at hE2
        have := hinv e effect2 hE2
        simp [hen, hidx, this]
  · intro hnd
    simp only
    split
    · next h => exact List.Nodup.append hnd (List.nodup_singleton _) (by simpa using h.2)
    · exact hnd

/-- The state `disable_technique` returns for a technique with a valid owning effect. -/
theorem disable_technique_eq (s : runtime) (t : Nat) (T : technique) (effect : effect_data)
    (hT : s._techniques[t]? = some T) (hE : s._loaded_effects[T.effect_index]? = some effect) :
    disable_technique s t = some { s with
      _techniques := s._techniques.set t { T with
        enabled := false, timeleft := 0,
        average_cpu_duration := ⟨[]⟩, average_gpu_duration := ⟨[]⟩ }
      _loaded_effects :=
        if T.enabled then s._loaded_effects.set T.effect_index
          { effect with rendering := effect.rendering - 1 }
        else s._loaded_effects } := by
  by_cases hen : T.enabled = true <;>
    simp [disable_technique, hT, hE, hen, moving_average.clear]

/-- The call `disable_technique` returns on a valid technique and keeps the registry invariants. -/
theorem disable_technique_kept (s : runtime) (t : Nat) (ht : t < s._techniques.length)
    (hvalid : effect_indices_valid s) :
    ∃ s1, disable_technique s t = some s1 ∧ registry_kept s s1 := by
  obtain ⟨T, hT⟩ : ∃ T, s._techniques[t]? = some T := ⟨_, List.getElem?_eq_getElem ht⟩
  have hmem : T ∈ s._techniques := by
    obtain ⟨h, rfl⟩ := List.getElem?_eq_some_iff.mp hT
    exact List.getElem_mem h
  have he : T.effect_index < s._loaded_effects.length := hvalid T hmem
  obtain ⟨effect, hE⟩ : ∃ effect, s._loaded_effects[T.effect_index]? = some effect :=
    ⟨_, List.getElem?_eq_getElem he⟩
  refine ⟨_, disable_technique_eq s t T effect hT hE, ?_, ?_, ?_, ?_⟩
  · simp
  · intro hv
    have hlen : (if T.enabled then s._loaded_effects.set T.effect_index
          { effect with rendering := effect.rendering - 1 }
        else s._loaded_effects).length = s._loaded_effects.length := by
      split <;> simp
    unfold effect_indices_valid
    simp only [hlen]
    exact effect_indices_valid_set _ _ t T _ hmem rfl hv
  · intro _ hinv e effect2 hE2
    simp only at hE2 ⊢
    rw [enabled_count_set _ t T _ e hT]
    by_cases hen : T.enabled = true
    · simp only [hen, if_true, List.getElem?_set] at hE2
      by_cases hidx : T.effect_index = e
      · subst hidx
        simp only [he, if_true, Option.some.injEq] at hE2
        subst hE2
        have := hinv _ effect hE
        simp [hen, this]
      · simp only [hidx, if_false] at hE2
        have := hinv e effect2 hE2
        simp [hen, hidx, this]
    · simp only [Bool.not_eq_true] at hen
      simp only [hen, Bool.false_eq_true, if_false] at hE2
      have := hinv e effect2 hE2
      simp [hen, this]
  · exact id

/-- Every call on a valid technique returns and keeps the registry invariants. -/
theorem registry_call_kept (s : runtime) (c : registry_call)
    (ht : c.target < s._techniques.length) (hvalid : effect_indices_valid s) :
    ∃ s1, c.apply s = some s1 ∧ registry_kept s s1 := by
  cases c with
  | enable t => exact enable_technique_kept s t ht hvalid
  | disable t => exact disable_technique_kept s t ht hvalid

/-- Every finite sequence of calls on valid techniques returns, and its final state has
valid effect indices, consistent rendering counts when the initial state has, and a
duplicate-free compile queue when the initial state has. -/
theorem run_calls_kept (calls : List registry_call) (s : runtime)
    (hcalls : ∀ c ∈ calls, c.target < s._techniques.length)
    (hvalid : effect_indices_valid s) :
    ∃ s1, run_calls s calls = some s1 ∧ effect_indices_valid s1 ∧
      (rendering_consistent s → rendering_consistent s1) ∧
      (s._reload_compile_queue.Nodup → s1._reload_compile_queue.Nodup) := by
  induction calls generalizing s with
  | nil => exact ⟨s, rfl, hvalid, id, id⟩
  | cons c cs ih =>
    obtain ⟨s1, hs1, hk⟩ :=
      registry_call_kept s c (hcalls c (List.mem_cons_self c cs)) hvalid
    obtain ⟨s2, hs2, hv2, hc2, hq2⟩ := ih s1
      (fun d hd => by
        rw [hk.techniques_length]
        exact hcalls d (List.mem_cons_of_mem c hd))
      (hk.indices_valid hvalid)
    exact ⟨s2, by simp [run_calls, hs1, hs2], hv2,
      fun h => hc2 (hk.consistent hvalid h), fun h => hq2 (hk.queue_nodup h)⟩

/-- C5: starting from any state in which each effect's rendering count equals the number
of currently-enabled techniques that belong to it, every finite sequence of
`enable_technique` / `disable_technique` calls (on techniques of the runtime, whose effect
indices are valid) returns and its final state satisfies the same equality; hence no
rendering count is negative there, and the owning effect of every technique that is still
enabled, the only kind a later `disable_technique` decrements for, has a count of at
least one: a decrement never happens while the count is zero. -/
theorem rendering_count_invariant (s : runtime) (calls : List registry_call)
    (hvalid : effect_indices_valid s)
    (hcalls : ∀ c ∈ calls, c.target < s._techniques.length)
    (hinv : rendering_consistent s) :
    ∃ s1, run_calls s calls = some s1 ∧ rendering_consistent s1 ∧
      (∀ effect ∈ s1._loaded_effects, 0 ≤ effect.rendering) ∧
      (∀ T ∈ s1._techniques, T.enabled = true →
        ∃ effect, s1._loaded_effects[T.effect_index]? = some effect ∧
          0 < effect.rendering) := by
  obtain ⟨s1, hs1, hv1, hc1, _⟩ := run_calls_kept calls s hcalls hvalid
  refine ⟨s1, hs1, hc1 hinv, ?_, ?_⟩
  · intro effect hmem
    obtain ⟨e, he, rfl⟩ := List.mem_iff_getElem.mp hmem
    rw [hc1 hinv e _ (List.getElem?_eq_getElem he)]
    exact Int.natCast_nonneg _
  · intro T hmem hen
    have he : T.effect_index < s1._loaded_effects.length := hv1 T hmem
    refine ⟨_, List.getElem?_eq_getElem he, ?_⟩
    rw [hc1 hinv _ _ (List.getElem?_eq_getElem he)]
    exact_mod_cast enabled_count_pos _ T hmem hen

/-- Witness of C5: enable, enable, disable on the techniques of `demo_registry`. -/
theorem rendering_count_invariant_witness :
    ∃ s1, run_calls demo_registry
        [registry_call.enable 1, registry_call.enable 2, registry_call.disable 1] = some s1 ∧
      rendering_consistent s1 ∧
      (∀ effect ∈ s1._loaded_effects, 0 ≤ effect.rendering) ∧
      (∀ T ∈ s1._techniques, T.enabled = true →
        ∃ effect, s1._loaded_effects[T.effect_index]? = some effect ∧
          0 < effect.rendering) :=
  rendering_count_invariant demo_registry
    [registry_call.enable 1, registry_call.enable 2, registry_call.disable 1]
    (by unfold effect_indices_valid; decide) (by decide)
    (by
      intro e effect h
      match e, h with
      | 0, h => cases h; rfl
      | 1, h => cases h; rfl
      | n + 2, h => simp [demo_registry, demo_runtime] at h)

/-- C6: if the compile queue contains no duplicate effect indices, then after any finite
sequence of `enable_technique` / `disable_technique` calls (on techniques of the runtime,
whose effect indices are valid) it still contains none.  In particular, for techniques `T`
and `U` of the same compiled effect, both without backend handle (`T` and `U` may be the same
technique), enabling `T` and then `U` leaves the effect's index in the queue exactly once;
when the index was not queued before, the queue has grown by this one entry at its end and
`_reload_total_effects` by exactly one. -/
theorem compile_queue_nodup (s : runtime) (calls : List registry_call)
    (hvalid : effect_indices_valid s)
    (hcalls : ∀ c ∈ calls, c.target < s._techniques.length)
    (hnodup : s._reload_compile_queue.Nodup) :
    (∃ s1, run_calls s calls = some s1 ∧ s1._reload_compile_queue.Nodup) ∧
    (∀ (t u : Nat) (T U : technique) (effect : effect_data),
      s._techniques[t]? = some T → s._techniques[u]? = some U →
      U.effect_index = T.effect_index →
      s._loaded_effects[T.effect_index]? = some effect → effect.compile_sucess = true →
      T.impl = none → U.impl = none →
      ∃ s2, run_calls s [registry_call.enable t, registry_call.enable u] = some s2 ∧
        s2._reload_compile_queue.count T.effect_index = 1 ∧
        (T.effect_index ∉ s._reload_compile_queue →
          s2._reload_compile_queue = s._reload_compile_queue ++ [T.effect_index] ∧
          s2._reload_total_effects = s._reload_total_effects + 1)) := by
  constructor
  · obtain ⟨s1, hs1, _, _, hq⟩ := run_calls_kept calls s hcalls hvalid
    exact ⟨s1, hs1, hq hnodup⟩
  · intro t u T U effect hT hU hidx hE hok hTi hUi
    have ht : t < s._techniques.length := (List.getElem?_eq_some_iff.mp hT).1
    have he : T.effect_index < s._loaded_effects.length := (List.getElem?_eq_some_iff.mp hE).1
    have h1 := enable_technique_eq s t T effect hT hE hok
    -- the technique `U` and its effect in the state after the first call
    set s1 : runtime := { s with
      _techniques := s._techniques.set t { T with enabled := true, timeleft := T.timeout }
      _reload_total_effects :=
        if T.impl = none ∧ T.effect_index ∉ s._reload_compile_queue
          then s._reload_total_effects + 1 else s._reload_total_effects
      _reload_compile_queue :=
        if T.impl = none ∧ T.effect_index ∉ s._reload_compile_queue
          then s._reload_compile_queue ++ [T.effect_index] else s._reload_compile_queue
      _loaded_effects :=
        if T.enabled then s._loaded_effects
        else s._loaded_effects.set T.effect_index
          { effect with rendering := effect.rendering + 1 } } with hs1
    obtain ⟨U1, hU1, hU1i, hU1e⟩ : ∃ U1, s1._techniques[u]? = some U1 ∧ U1.impl = none ∧
        U1.effect_index = T.effect_index := by
      by_cases htu : t = u
      · subst htu
        exact ⟨{ T with enabled := true, timeleft := T.timeout }, by simp [hs1, ht], hTi, rfl⟩
      · exact ⟨U, by simp [hs1, List.getElem?_set, htu, hU], hUi, hidx⟩
    obtain ⟨effect1, hE1, hok1⟩ : ∃ effect1, s1._loaded_effects[U1.effect_index]? = some effect1 ∧
        effect1.compile_sucess = true := by
      rw [hU1e]
      by_cases hen : T.enabled = true
      · exact ⟨effect, by simp [hs1, hen, hE], hok⟩
      · exact ⟨{ effect with rendering := effect.rendering + 1 }, by simp [hs1, hen, he], hok⟩
    have h2 := enable_technique_eq s1 u U1 effect1 hU1 hE1 hok1
    have hmem1 : T.effect_index ∈ s1._reload_compile_queue := by
      by_cases hq : T.effect_index ∈ s._reload_compile_queue <;> simp [hs1, hTi, hq]
    obtain ⟨s2, hs2, h2⟩ : ∃ s2, _ = s2 ∧ enable_technique s1 u = some s2 := ⟨_, rfl, h2⟩
    refine ⟨s2, by simp only [run_calls, registry_call.apply, h1, h2], ?_, ?_⟩
    · subst hs2
      simp only [hU1e, hU1i, hmem1, not_true_eq_false, and_false, if_false]
      by_cases hq : T.effect_index ∈ s._reload_compile_queue
      · simp only [hs1, hTi, hq, not_true_eq_false, and_false, if_false]
        exact List.count_eq_one_of_mem hnodup hq
      · simp only [hs1, hTi, hq, not_false_eq_true, and_self, if_true, List.count_append]
        simp [List.count_eq_zero_of_not_mem hq]
    · intro hq
      subst hs2
      simp only [hU1e, hU1i, hmem1, not_true_eq_false, and_false, if_false]
      simp [hs1, hTi, hq]

/-- Witness of C6: two techniques of the same compiled, not yet queued effect of
`demo_registry` are enabled one after the other. -/
theorem compile_queue_nodup_witness :
    (∃ s1, run_calls demo_registry [registry_call.enable 1, registry_call.enable 2] = some s1 ∧
      s1._reload_compile_queue.Nodup) ∧
    (∀ (t u : Nat) (T U : technique) (effect : effect_data),
      demo_registry._techniques[t]? = some T → demo_registry._techniques[u]? = some U →
      U.effect_index = T.effect_index →
      demo_registry._loaded_effects[T.effect_index]? = some effect →
      effect.compile_sucess = true →
      T.impl = none → U.impl = none →
      ∃ s2, run_calls demo_registry [registry_call.enable t, registry_call.enable u] = some s2 ∧
        s2._reload_compile_queue.count T.effect_index = 1 ∧
        (T.effect_index ∉ demo_registry._reload_compile_queue →
          s2._reload_compile_queue = demo_registry._reload_compile_queue ++ [T.effect_index] ∧
          s2._reload_total_effects = demo_registry._reload_total_effects + 1)) :=
  compile_queue_nodup demo_registry [registry_call.enable 1, registry_call.enable 2]
    (by unfold effect_indices_valid; decide) (by decide) (by decide)

/-! ## Preset cycling -/

/-- One iteration of the enumeration loop keeps `scan_consistent`. -/
theorem scan_entry_consistent (env : environment) (cur filter_text : String)
    (st : preset_scan) (entry : String) (h : scan_consistent env cur st) :
    scan_consistent env cur (scan_entry env cur filter_text st entry) := by
  unfold scan_entry
  split
  · exact h
  split
  · next _ heq =>
    refine ⟨?_, by simp⟩
    intro i hi
    simp only [Option.some.injEq] at hi
    subst hi
    refine ⟨⟨entry, by simp, heq⟩, ?_⟩
    intro j c hj hc
    have : (st.preset_paths ++ [entry]).length ≤ j := by simp; omega
    rw [List.getElem?_eq_none this] at hc
    cases hc
  dsimp only
  split
  · next _ hne _ =>
    simp only [Bool.not_eq_true] at hne
    refine ⟨?_, ?_⟩
    · intro i hi
      obtain ⟨⟨c, hc, hceq⟩, hlater⟩ := h.1 i hi
      have hilt : i < st.preset_paths.length := (List.getElem?_eq_some_iff.mp hc).1
      refine ⟨⟨c, by simp [List.getElem?_append_left hilt, hc], hceq⟩, ?_⟩
      intro j d hj hd
      by_cases hjlt : j < st.preset_paths.length
      · rw [List.getElem?_append_left hjlt] at hd
        exact hlater j d hj hd
      · have hjeq : j = st.preset_paths.length := by
          have := (List.getElem?_eq_some_iff.mp hd).1
          simp at this
          omega
        subst hjeq
        simp at hd
        subst hd
        exact hne
    · intro hnone c hc
      simp only [List.mem_append, List.mem_singleton] at hc
      rcases hc with hc | hc
      · exact h.2 hnone c hc
      · subst hc
        exact hne
  · exact h

/-- The enumeration loop ends in a state satisfying `scan_consistent`. -/
theorem scan_entries_consistent (env : environment) (cur filter_text : String)
    (entries : List String) :
    scan_consistent env cur (scan_entries env cur filter_text entries) := by
  unfold scan_entries
  suffices h : ∀ st, scan_consistent env cur st →
      scan_consistent env cur (entries.foldl (scan_entry env cur filter_text) st) from
    h _ ⟨by simp, by simp⟩
  induction entries with
  | nil => exact fun st h => h
  | cons e es ih =>
    intro st h
    exact ih _ (scan_entry_consistent env cur filter_text st e h)

/-- The candidate selected when the current preset was found at a valid position. -/
theorem select_preset_found (st : preset_scan) (reversed : Bool) (i : Nat)
    (hidx : st.current_preset_index = some i) (hi : i < st.preset_paths.length) :
    select_preset st reversed =
      st.preset_paths[if reversed then (i + st.preset_paths.length - 1) % st.preset_paths.length
        else (i + 1) % st.preset_paths.length]? := by
  unfold select_preset
  rcases hpaths : st.preset_paths with _ | ⟨front, rest⟩
  · simp [hpaths] at hi
  · simp only [hpaths, List.length_cons] at hi ⊢
    simp only [hidx]
    cases reversed
    · simp only [Bool.false_eq_true, if_false]
      by_cases hlast : i = rest.length + 1 - 1
      · simp only [hlast, if_true]
        have : (rest.length + 1 - 1 + 1) % (rest.length + 1) = 0 := by
          simp
        rw [this]; simp
      · simp only [hlast, if_false]
        have : (i + 1) % (rest.length + 1) = i + 1 := Nat.mod_eq_of_lt (by omega)
        rw [this]
    · simp only [if_true]
      by_cases hzero : i = 0
      · subst hzero
        simp only [if_true]
        have : (0 + (rest.length + 1) - 1) % (rest.length + 1) = rest.length :=
          by simp
        rw [this, List.getLast_eq_getElem]
        simp
      · simp only [hzero, if_false]
        have : (i + (rest.length + 1) - 1) % (rest.length + 1) = i - 1 := by
          have h1 : i + (rest.length + 1) - 1 = (i - 1) + (rest.length + 1) := by omega
          rw [h1, Nat.add_mod_right]
          exact Nat.mod_eq_of_lt (by omega)
        rw [this]

/-- The recorded index is the last position of a candidate equivalent to the current
preset. -/
theorem scan_index_eq (env : environment) (cur : String) (st : preset_scan)
    (h : scan_consistent env cur st) (i : Nat) (c : String)
    (hc : st.preset_paths[i]? = some c) (heq : env.equivalent c cur = true)
    (hlast : ∀ j d, i < j → st.preset_paths[j]? = some d → env.equivalent d cur = false) :
    st.current_preset_index = some i := by
  rcases hidx : st.current_preset_index with _ | k
  · have hmem : c ∈ st.preset_paths := by
      obtain ⟨hlt, rfl⟩ := List.getElem?_eq_some_iff.mp hc
      exact List.getElem_mem hlt
    have := h.2 hidx c hmem
    rw [heq] at this
    cases this
  · obtain ⟨⟨d, hd, hdeq⟩, hlater⟩ := h.1 k hidx
    rcases Nat.lt_trichotomy i k with hlt | heqk | hgt
    · have := hlast k d hlt hd
      rw [hdeq] at this
      cases this
    · rw [heqk]
    · have := hlater i c hgt hc
      rw [heq] at this
      cases this

/-- C7: for every candidate list of `n` presets in which the current preset sits at index
`i` (the candidate there is equivalent to `_current_preset_path`, and no later candidate is),
`switch_to_next_preset` returns true and sets the current preset path to the candidate at
index `(i+1) mod n` when `reversed` is false and at index `(i+n-1) mod n` when `reversed` is
true; nothing else of the runtime state changes. -/
theorem switch_to_next_preset_adjacent (env : environment) (s : runtime) (filter_path : String)
    (reversed : Bool) (i : Nat) (c : String)
    (hc : (preset_candidates env s filter_path)[i]? = some c)
    (heq : env.equivalent c s._current_preset_path = true)
    (hlast : ∀ j d, i < j → (preset_candidates env s filter_path)[j]? = some d →
      env.equivalent d s._current_preset_path = false) :
    ∃ p, (preset_candidates env s filter_path)[
          if reversed then
            (i + (preset_candidates env s filter_path).length - 1) %
              (preset_candidates env s filter_path).length
          else (i + 1) % (preset_candidates env s filter_path).length]? = some p ∧
      switch_to_next_preset env s filter_path reversed =
        some (true, { s with _current_preset_path := p }) := by
  have hcons := scan_entries_consistent env s._current_preset_path
    (resolve_search env filter_path).1 (env.directory_iterator (resolve_search env filter_path).2)
  unfold preset_candidates at hc hlast ⊢
  unfold switch_to_next_preset
  simp only
  generalize scan_entries env s._current_preset_path (resolve_search env filter_path).1
    (env.directory_iterator (resolve_search env filter_path).2) = st at hc hlast hcons ⊢
  have hi : i < st.preset_paths.length := (List.getElem?_eq_some_iff.mp hc).1
  have hidx := scan_index_eq env _ st hcons i c hc heq hlast
  have hsel := select_preset_found st reversed i hidx hi
  have hpos : 0 < st.preset_paths.length := by omega
  have hk : (if reversed then (i + st.preset_paths.length - 1) % st.preset_paths.length
      else (i + 1) % st.preset_paths.length) < st.preset_paths.length := by
    split <;> exact Nat.mod_lt _ hpos
  obtain ⟨p, hp⟩ : ∃ p, st.preset_paths[
      if reversed then (i + st.preset_paths.length - 1) % st.preset_paths.length
      else (i + 1) % st.preset_paths.length]? = some p := ⟨_, List.getElem?_eq_getElem hk⟩
  rw [hp] at hsel
  refine ⟨p, hp, ?_⟩
  split
  · next hnil => simp [hnil] at hpos
  · simp only [hsel]

/-- Witness of C7, the example of the specification: the directory lists the presets A, B, C
(and a text file that is no preset); with current preset B the next preset is C and the
previous one is A, and with current preset C the next preset wraps around to A. -/
theorem switch_to_next_preset_adjacent_witness :
    preset_candidates (demo_env ["A.ini", "notes.md", "B.ini", "C.ini"]) (demo_preset "B.ini") ""
        = ["A.ini", "B.ini", "C.ini"] ∧
      switch_to_next_preset (demo_env ["A.ini", "notes.md", "B.ini", "C.ini"])
        (demo_preset "B.ini") "" false = some (true, demo_preset "C.ini") ∧
      switch_to_next_preset (demo_env ["A.ini", "notes.md", "B.ini", "C.ini"])
        (demo_preset "B.ini") "" true = some (true, demo_preset "A.ini") ∧
      switch_to_next_preset (demo_env ["A.ini", "notes.md", "B.ini", "C.ini"])
        (demo_preset "C.ini") "" false = some (true, demo_preset "A.ini") := by
  have hB : ∀ j d, 1 < j →
      (preset_candidates (demo_env ["A.ini", "notes.md", "B.ini", "C.ini"])
        (demo_preset "B.ini") "")[j]? = some d →
      (demo_env ["A.ini", "notes.md", "B.ini", "C.ini"]).equivalent d
        (demo_preset "B.ini")._current_preset_path = false := by
    intro j d hj hd
    have hcands : preset_candidates (demo_env ["A.ini", "notes.md", "B.ini", "C.ini"])
        (demo_preset "B.ini") "" = ["A.ini", "B.ini", "C.ini"] := by decide
    rw [hcands] at hd
    match j, hj, hd with
    | 2, _, hd => cases hd; decide
    | n + 3, _, hd => simp at hd
  have hC : ∀ j d, 2 < j →
      (preset_candidates (demo_env ["A.ini", "notes.md", "B.ini", "C.ini"])
        (demo_preset "C.ini") "")[j]? = some d →
      (demo_env ["A.ini", "notes.md", "B.ini", "C.ini"]).equivalent d
        (demo_preset "C.ini")._current_preset_path = false := by
    intro j d hj hd
    have hcands : preset_candidates (demo_env ["A.ini", "notes.md", "B.ini", "C.ini"])
        (demo_preset "C.ini") "" = ["A.ini", "B.ini", "C.ini"] := by decide
    rw [hcands] at hd
    match j, hj, hd with
    | n + 3, _, hd => simp at hd
  obtain ⟨p1, hp1, h1⟩ := switch_to_next_preset_adjacent
    (demo_env ["A.ini", "notes.md", "B.ini", "C.ini"]) (demo_preset "B.ini") "" false 1 "B.ini"
    (by decide) (by decide) hB
  obtain ⟨p2, hp2, h2⟩ := switch_to_next_preset_adjacent
    (demo_env ["A.ini", "notes.md", "B.ini", "C.ini"]) (demo_preset "B.ini") "" true 1 "B.ini"
    (by decide) (by decide) hB
  obtain ⟨p3, hp3, h3⟩ := switch_to_next_preset_adjacent
    (demo_env ["A.ini", "notes.md", "B.ini", "C.ini"]) (demo_preset "C.ini") "" false 2 "C.ini"
    (by decide) (by decide) hC
  have e1 : p1 = "C.ini" := by
    have : some p1 = some "C.ini" := by rw [← hp1]; decide
    exact Option.some.inj this
  have e2 : p2 = "A.ini" := by
    have : some p2 = some "A.ini" := by rw [← hp2]; decide
    exact Option.some.inj this
  have e3 : p3 = "A.ini" := by
    have : some p3 = some "A.ini" := by rw [← hp3]; decide
    exact Option.some.inj this
  subst e1 e2 e3
  exact ⟨by decide, h1, h2, h3⟩

/-- C8: when the enumeration of the search location yields no preset candidate,
`switch_to_next_preset` returns false and leaves `_current_preset_path` and all other
runtime state unchanged, for either value of `reversed`. -/
theorem switch_to_next_preset_no_candidates (env : environment) (s : runtime)
    (filter_path : String) (reversed : Bool)
    (h : preset_candidates env s filter_path = []) :
    switch_to_next_preset env s filter_path reversed = some (false, s) := by
  unfold preset_candidates at h
  unfold switch_to_next_preset
  simp only [h]

/-- Witness of C8: a directory that only lists a text file, for both directions. -/
theorem switch_to_next_preset_no_candidates_witness :
    switch_to_next_preset (demo_env ["notes.md"]) (demo_preset "B.ini") "" false =
        some (false, demo_preset "B.ini") ∧
      switch_to_next_preset (demo_env ["notes.md"]) (demo_preset "B.ini") "" true =
        some (false, demo_preset "B.ini") :=
  ⟨switch_to_next_preset_no_candidates (demo_env ["notes.md"]) (demo_preset "B.ini") "" false
      (by decide),
    switch_to_next_preset_no_candidates (demo_env ["notes.md"]) (demo_preset "B.ini") "" true
      (by decide)⟩

/-- C9: for every non-empty candidate list that does not contain the current preset (no
candidate is equivalent to `_current_preset_path`), `switch_to_next_preset` returns true and
sets the current preset path to the first candidate when `reversed` is false and to the last
candidate when `reversed` is true; nothing else of the runtime state changes. -/
theorem switch_to_next_preset_not_found (env : environment) (s : runtime)
    (filter_path : String) (reversed : Bool)
    (hne : preset_candidates env s filter_path ≠ [])
    (hnot : ∀ c ∈ preset_candidates env s filter_path,
      env.equivalent c s._current_preset_path = false) :
    switch_to_next_preset env s filter_path reversed =
      some (true, { s with
        _current_preset_path :=
          if reversed then (preset_candidates env s filter_path).getLast hne
          else (preset_candidates env s filter_path).head hne }) := by
  have hcons := scan_entries_consistent env s._current_preset_path
    (resolve_search env filter_path).1 (env.directory_iterator (resolve_search env filter_path).2)
  unfold preset_candidates at hne hnot ⊢
  unfold switch_to_next_preset
  simp only
  generalize scan_entries env s._current_preset_path (resolve_search env filter_path).1
    (env.directory_iterator (resolve_search env filter_path).2) = st at hne hnot hcons ⊢
  have hidx : st.current_preset_index = none := by
    rcases hk : st.current_preset_index with _ | k
    · rfl
    · obtain ⟨⟨d, hd, hdeq⟩, _⟩ := hcons.1 k hk
      have hmem : d ∈ st.preset_paths := by
        obtain ⟨hlt, rfl⟩ := List.getElem?_eq_some_iff.mp hd
        exact List.getElem_mem hlt
      have := hnot d hmem
      rw [hdeq] at this
      cases this
  obtain ⟨st_idx, st_paths⟩ := st
  simp only at hidx hne ⊢
  subst hidx
  cases st_paths with
  | nil => exact absurd rfl hne
  | cons front rest =>
    cases reversed <;> simp [select_preset]

/-- Witness of C9: the current preset `Z.ini` is not in the directory listing A, B, C. -/
theorem switch_to_next_preset_not_found_witness :
    switch_to_next_preset (demo_env ["A.ini", "notes.md", "B.ini", "C.ini"])
        (demo_preset "Z.ini") "" false = some (true, demo_preset "A.ini") ∧
      switch_to_next_preset (demo_env ["A.ini", "notes.md", "B.ini", "C.ini"])
        (demo_preset "Z.ini") "" true = some (true, demo_preset "C.ini") :=
  ⟨switch_to_next_preset_not_found (demo_env ["A.ini", "notes.md", "B.ini", "C.ini"])
      (demo_preset "Z.ini") "" false (by decide) (by decide),
    switch_to_next_preset_not_found (demo_env ["A.ini", "notes.md", "B.ini", "C.ini"])
      (demo_preset "Z.ini") "" true (by decide) (by decide)⟩

/-! ## Value marshaller -/

/-- Reading back the four bytes of a lane gives the lane, reduced to 32 bits. -/
theorem bytes_uint32_bytes (x : Nat) :
    bytes_uint32 (x % 256) (x / 256 % 256) (x / 65536 % 256) (x / 16777216 % 256) =
      x % 4294967296 := by
  unfold bytes_uint32
  omega

/-- The bit pattern of an `int32_t` determines it. -/
theorem bits_int32_bits (x : Int) (hlo : -2147483648 ≤ x) (hhi : x < 2147483648) :
    bits_int32 (int32_bits x) = x := by
  unfold bits_int32 int32_bits
  split <;> omega

/-- The memory of an array of lanes has four bytes per lane. -/
theorem lanes_bytes_length (xs : List Nat) : (lanes_bytes xs).length = 4 * xs.length := by
  induction xs with
  | nil => rfl
  | cons x xs ih => simp [lanes_bytes, uint32_bytes, ih]; omega

/-- The lanes of the memory of an array of lanes, followed by other memory. -/
theorem bytes_lanes_append (xs rest : List Nat) :
    bytes_lanes (lanes_bytes xs ++ rest) =
      xs.map (fun x => x % 4294967296) ++ bytes_lanes rest := by
  induction xs with
  | nil => simp [lanes_bytes]
  | cons x xs ih =>
    have : lanes_bytes (x :: xs) ++ rest =
        x % 256 :: (x / 256 % 256) :: (x / 65536 % 256) :: (x / 16777216 % 256) ::
          (lanes_bytes xs ++ rest) := rfl
    rw [this, bytes_lanes, ih, bytes_uint32_bytes, List.map_cons, List.cons_append]

/-- The result of `static_cast<int32_t>` is an `int32_t`. -/
theorem float_to_int32_range (f : Nat) :
    -2147483648 ≤ float_to_int32 f ∧ float_to_int32 f < 2147483648 := by
  unfold float_to_int32
  split_ifs <;> omega

/-- The bytes written for an array of `int32_t` lanes read back as the same lanes. -/
theorem int32_lanes_roundtrip (xs : List Int) (rest : List Nat)
    (h : ∀ x ∈ xs, -2147483648 ≤ x ∧ x < 2147483648) :
    ((bytes_lanes (lanes_bytes (xs.map int32_bits) ++ rest)).map bits_int32).take xs.length
      = xs := by
  rw [bytes_lanes_append, List.map_append, List.take_left']
  · rw [List.map_map, List.map_map]
    conv_rhs => rw [← List.map_id xs]
    apply List.map_congr_left
    intro x hx
    obtain ⟨hlo, hhi⟩ := h x hx
    simp only [Function.comp_apply, id]
    have hlt : int32_bits x < 4294967296 := by unfold int32_bits; omega
    rw [Nat.mod_eq_of_lt hlt]
    exact bits_int32_bits x hlo hhi
  · simp

/-- The bytes the raw setter stores are the bytes the raw getter reads. -/
theorem storage_write_read (storage data : List Nat) (offset size : Nat)
    (hstorage : offset + size ≤ storage.length) (hdata : size ≤ data.length) :
    ((storage.take offset ++ data.take size ++ storage.drop (offset + size)).drop offset).take
      size = data.take size := by
  have h1 : (storage.take offset).length = offset := by simp; omega
  have h2 : (data.take size).length = size := by simp; omega
  have h3 : (storage.take offset).drop offset = [] := by
    apply List.drop_eq_nil_of_le
    omega
  rw [List.append_assoc, List.drop_append_eq_append_drop, h3, List.nil_append,
    h1, Nat.sub_self, List.drop_zero]
  exact List.take_left' h2

/-- The absolute value of a finite `float` is not negative. -/
theorem float_abs_nonneg (f : Nat) : 0 ≤ float_abs f := by
  unfold float_abs
  split_ifs <;> positivity

/-- The integer part of the absolute value is its floor. -/
theorem float_abs_trunc_eq_floor (f : Nat) : float_abs_trunc f = ⌊float_abs f⌋₊ := by
  unfold float_abs_trunc float_abs
  split_ifs with h0 h150
  · have hlt : float_fraction f < 2 ^ 149 := by
      have : float_fraction f < 8388608 := Nat.mod_lt _ (by norm_num)
      have : (8388608 : Nat) ≤ 2 ^ 149 := by norm_num
      omega
    have : ((2 : ℚ) ^ 149) = ((2 ^ 149 : Nat) : ℚ) := by norm_cast
    rw [this, Nat.floor_div_eq_div, Nat.div_eq_of_lt hlt]
  · have : ((8388608 + float_fraction f : Nat) : ℚ) * 2 ^ (float_exponent f - 150) =
        (((8388608 + float_fraction f) * 2 ^ (float_exponent f - 150) : Nat) : ℚ) := by
      norm_cast
    rw [this, Nat.floor_natCast]
  · have : ((2 : ℚ) ^ (150 - float_exponent f)) = ((2 ^ (150 - float_exponent f) : Nat) : ℚ) := by
      norm_cast
    rw [this, Nat.floor_div_eq_div]

/-- The refinement behind `static_cast<int32_t>`: for a `float` within the range of
`int32_t` the conversion is the truncation toward zero of its value. -/
theorem float_to_int32_eq_trunc (f : Nat) (h : float_in_int32_range f) :
    float_to_int32 f = trunc_toward_zero (float_value f) := by
  obtain ⟨hfin, hlo, hhi⟩ := h
  have hnn := float_abs_nonneg f
  have hfloor := float_abs_trunc_eq_floor f
  unfold float_to_int32 trunc_toward_zero
  unfold float_value at hlo hhi ⊢
  rw [if_neg hfin]
  by_cases hs : float_sign f = true
  · simp only [hs, if_true] at hlo hhi ⊢
    have hle : float_abs_trunc f ≤ 2147483648 := by
      rw [hfloor]
      have : ⌊float_abs f⌋₊ < 2147483649 := by
        rw [Nat.floor_lt hnn]
        push_cast
        linarith
      omega
    rw [if_pos hle]
    by_cases hz : 0 ≤ -float_abs f
    · have hzero : float_abs f = 0 := by linarith
      rw [if_pos hz, hfloor, hzero]
      simp
    · rw [if_neg hz, Int.ceil_neg, hfloor, Int.natCast_floor_eq_floor hnn]
  · simp only [hs, Bool.false_eq_true, if_false] at hlo hhi ⊢
    have hlt : float_abs_trunc f < 2147483648 := by
      rw [hfloor, Nat.floor_lt hnn]
      push_cast
      linarith
    rw [if_pos hlt, if_pos hnn, hfloor, Int.natCast_floor_eq_floor hnn]

/-- Reading `size` bytes of a variable back right after `size` bytes were stored for it
yields the stored bytes, followed by the untouched rest of the receiving buffer. -/
theorem get_raw_after_set_raw (s : runtime) (var : uniform) (data buffer : List Nat)
    (size : Nat) (hsize : size ≤ var.size) (hdata : data.length = size)
    (hbuffer : size ≤ buffer.length)
    (hstorage : var.storage_offset + var.size ≤ s._uniform_data_storage.length) :
    ∃ s1, set_uniform_value_raw s var data size = some s1 ∧
      s1._renderer_id = s._renderer_id ∧
      get_uniform_value_raw s1 var buffer size = some (data ++ buffer.drop size) := by
  have hmin : min size var.size = size := Nat.min_eq_left hsize
  have hle : var.storage_offset + size ≤ s._uniform_data_storage.length := by omega
  refine ⟨{ s with
      _uniform_data_storage :=
        s._uniform_data_storage.take var.storage_offset ++ data.take size ++
          s._uniform_data_storage.drop (var.storage_offset + size) },
    by simp only [set_uniform_value_raw, hmin, hle, hdata, le_refl, and_self, if_true],
    rfl, ?_⟩
  have hlen : (s._uniform_data_storage.take var.storage_offset ++ data.take size ++
      s._uniform_data_storage.drop (var.storage_offset + size)).length =
      s._uniform_data_storage.length := by
    simp only [List.length_append, List.length_take, List.length_drop]
    omega
  simp only [get_uniform_value_raw, hmin, hlen, hle, hbuffer, and_self, if_true]
  rw [storage_write_read _ _ _ _ hle (by omega), List.take_of_length_le (by omega)]

/-- C10: on a non-legacy backend (`_renderer_id != 0x9000`), for every uniform declared with
an integer (not floating-point) base type whose storage lies within the Uniform Storage, and
every vector of at most component-count `float` values each within the signed 32-bit range,
`set_uniform_value(float values, n)` followed by `get_uniform_value(int32 values, n)`
returns, lane by lane, the truncation toward zero of the written floats. -/
theorem float_write_int32_read (s : runtime) (var : uniform) (values : List Nat)
    (out : List Int)
    (hbackend : s._renderer_id ≠ 0x9000)
    (hbase : var.type.base ≠ datatype.t_float)
    (hcount : values.length ≤ var.type.components)
    (hsize : 4 * var.type.components ≤ var.size)
    (hstorage : var.storage_offset + var.size ≤ s._uniform_data_storage.length)
    (hout : values.length ≤ out.length)
    (hrange : ∀ f ∈ values, float_in_int32_range f) :
    ∃ (s1 : runtime) (out1 : List Int),
      set_uniform_value_float s var values values.length = some s1 ∧
      get_uniform_value_int32 s1 var out values.length = some out1 ∧
      out1.take values.length = values.map (fun f => trunc_toward_zero (float_value f)) := by
  have hfp : var.type.is_floating_point = false := by
    unfold type.is_floating_point
    split
    · next h => exact absurd h hbase
    · rfl
  have hrid : (s._renderer_id == 0x9000) = false := by simpa using hbackend
  have hbytes : (lanes_bytes ((values.map float_to_int32).map int32_bits)).length =
      values.length * 4 := by
    rw [lanes_bytes_length]; simp; omega
  obtain ⟨s1, hset, hid, hget⟩ := get_raw_after_set_raw s var
    (lanes_bytes ((values.map float_to_int32).map int32_bits))
    (lanes_bytes (out.map int32_bits)) (values.length * 4) (by omega) hbytes
    (by rw [lanes_bytes_length]; simp; omega) hstorage
  refine ⟨s1, (bytes_lanes (lanes_bytes ((values.map float_to_int32).map int32_bits) ++
    (lanes_bytes (out.map int32_bits)).drop (values.length * 4))).map bits_int32, ?_, ?_, ?_⟩
  · simp only [set_uniform_value_float, hfp, hrid, Bool.or_self, Bool.false_eq_true, if_false,
      le_refl, if_true, List.take_length]
    exact hset
  · simp only [get_uniform_value_int32, hfp, hid, bne, hrid, Bool.not_false, Bool.and_self,
      if_true, hget]
  · have := int32_lanes_roundtrip (values.map float_to_int32)
      ((lanes_bytes (out.map int32_bits)).drop (values.length * 4))
      (by
        intro x hx
        obtain ⟨f, _, rfl⟩ := List.mem_map.mp hx
        exact float_to_int32_range f)
    rw [List.length_map] at this
    rw [this]
    apply List.map_congr_left
    intro f hf
    exact float_to_int32_eq_trunc f (hrange f hf)

/-- Witness of C10: the floats 2.75, -3.5 and 0.5 (bit patterns `0x40300000`, `0xC0600000`,
`0x3F000000`) written to an int3 uniform read back as 2, -3 and 0. -/
theorem float_write_int32_read_witness :
    ∃ (s1 : runtime) (out1 : List Int),
      set_uniform_value_float demo_storage demo_uniform
        [0x40300000, 0xC0600000, 0x3F000000] 3 = some s1 ∧
      get_uniform_value_int32 s1 demo_uniform [7, 7, 7, 7] 3 = some out1 ∧
      out1.take 3 = [2, -3, 0] := by
  have hrange : ∀ f ∈ [0x40300000, 0xC0600000, 0x3F000000], float_in_int32_range f := by
    intro f hf
    simp only [List.mem_cons, List.mem_singleton, List.not_mem_nil, or_false] at hf
    rcases hf with rfl | rfl | rfl <;>
      norm_num [float_in_int32_range, float_value, float_abs, float_sign, float_exponent,
        float_fraction]
  obtain ⟨s1, out1, h1, h2, h3⟩ := float_write_int32_read demo_storage demo_uniform
    [0x40300000, 0xC0600000, 0x3F000000] [7, 7, 7, 7]
    (by decide) (by decide) (by decide) (by decide) (by decide) (by decide) hrange
  refine ⟨s1, out1, h1, h2, ?_⟩
  have e1 := float_to_int32_eq_trunc 0x40300000 (hrange _ (by simp))
  have e2 := float_to_int32_eq_trunc 0xC0600000 (hrange _ (by simp))
  have e3 := float_to_int32_eq_trunc 0x3F000000 (hrange _ (by simp))
  have h4 : out1.take 3 = [trunc_toward_zero (float_value 0x40300000),
      trunc_toward_zero (float_value 0xC0600000),
      trunc_toward_zero (float_value 0x3F000000)] := h3
  rw [h4, ← e1, ← e2, ← e3]
  decide

/-- The state the raw setter returns when the clamped range lies within the Uniform Storage
and the source buffer. -/
theorem set_uniform_value_raw_eq (s : runtime) (var : uniform) (data : List Nat) (size : Nat)
    (hstorage : var.storage_offset + min size var.size ≤ s._uniform_data_storage.length)
    (hdata : min size var.size ≤ data.length) :
    set_uniform_value_raw s var data size = some { s with
      _uniform_data_storage :=
        s._uniform_data_storage.take var.storage_offset ++ data.take (min size var.size) ++
          s._uniform_data_storage.drop (var.storage_offset + min size var.size) } := by
  simp only [set_uniform_value_raw, hstorage, hdata, and_self, if_true]

/-- The lanes of the memory of an array of lanes below `2 ^ 32`. -/
theorem bytes_lanes_lanes_bytes (xs rest : List Nat) (h : ∀ x ∈ xs, x < 4294967296) :
    bytes_lanes (lanes_bytes xs ++ rest) = xs ++ bytes_lanes rest := by
  rw [bytes_lanes_append]
  congr 1
  conv_rhs => rw [← List.map_id xs]
  apply List.map_congr_left
  intro x hx
  exact Nat.mod_eq_of_lt (h x hx)

/-- C11: on a legacy-float backend (`_renderer_id == 0x9000`), for a uniform of any declared
base type whose storage lies within the Uniform Storage and any vector of `n <= size/4`
floats, `set_uniform_value(float values, n)` stores the 32-bit patterns of the floats
unchanged at the start of the variable's storage range, and a following
`get_uniform_value(float, n)` returns bit-identical lanes. -/
theorem legacy_float_write_read (s : runtime) (var : uniform) (values out : List Nat)
    (hlegacy : s._renderer_id = 0x9000)
    (hcount : values.length ≤ var.size / 4)
    (hstorage : var.storage_offset + var.size ≤ s._uniform_data_storage.length)
    (hout : values.length ≤ out.length)
    (hbits : ∀ f ∈ values, f < 4294967296) :
    ∃ (s1 : runtime) (out1 : List Nat),
      set_uniform_value_float s var values values.length = some s1 ∧
      (s1._uniform_data_storage.drop var.storage_offset).take (4 * values.length) =
        lanes_bytes values ∧
      get_uniform_value_float s1 var out values.length = some out1 ∧
      out1.take values.length = values := by
  have hrid : (s._renderer_id == 0x9000) = true := by simp [hlegacy]
  have hsz : values.length * 4 ≤ var.size := by
    have := Nat.div_mul_le_self var.size 4
    omega
  have hmin : min (values.length * 4) var.size = values.length * 4 := Nat.min_eq_left hsz
  have hlen : (lanes_bytes values).length = values.length * 4 := by
    rw [lanes_bytes_length]; omega
  have hset := set_uniform_value_raw_eq s var (lanes_bytes values) (values.length * 4)
    (by omega) (by omega)
  have htake : (lanes_bytes values).take (values.length * 4) = lanes_bytes values :=
    List.take_of_length_le (by omega)
  rw [hmin, htake] at hset
  obtain ⟨s1, hset1, hid, hget⟩ := get_raw_after_set_raw s var (lanes_bytes values)
    (lanes_bytes out) (values.length * 4) hsz hlen
    (by rw [lanes_bytes_length]; omega) hstorage
  have hs1 : s1 = { s with
      _uniform_data_storage :=
        s._uniform_data_storage.take var.storage_offset ++ lanes_bytes values ++
          s._uniform_data_storage.drop (var.storage_offset + values.length * 4) } :=
    Option.some.inj (hset1.symm.trans hset)
  refine ⟨s1, values ++ bytes_lanes ((lanes_bytes out).drop (values.length * 4)),
    ?_, ?_, ?_, ?_⟩
  · simp only [set_uniform_value_float, hrid, Bool.or_true, if_true]
    exact hset1
  · have := storage_write_read s._uniform_data_storage (lanes_bytes values)
      var.storage_offset (values.length * 4) (by omega) (by omega)
    rw [htake] at this
    rw [hs1, Nat.mul_comm 4]
    exact this
  · simp only [get_uniform_value_float, hid, hrid, Bool.or_true, if_true, hget,
      bytes_lanes_lanes_bytes values _ hbits]
  · simp

/-- Witness of C11: the floats 2.75, -3.5 and a NaN written to an int3 uniform on the legacy
backend. -/
theorem legacy_float_write_read_witness :
    ∃ (s1 : runtime) (out1 : List Nat),
      set_uniform_value_float demo_legacy demo_uniform
        [0x40300000, 0xC0600000, 0x7FC00000] 3 = some s1 ∧
      (s1._uniform_data_storage.drop 4).take 12 =
        lanes_bytes [0x40300000, 0xC0600000, 0x7FC00000] ∧
      get_uniform_value_float s1 demo_uniform [7, 7, 7, 7] 3 = some out1 ∧
      out1.take 3 = [0x40300000, 0xC0600000, 0x7FC00000] :=
  legacy_float_write_read demo_legacy demo_uniform [0x40300000, 0xC0600000, 0x7FC00000]
    [7, 7, 7, 7] (by decide) (by decide) (by decide) (by decide) (by decide)

/-- The lanes of zeroed memory are zero. -/
theorem bytes_lanes_zero (k : Nat) (rest : List Nat) :
    bytes_lanes (List.replicate (4 * k) 0 ++ rest) = List.replicate k 0 ++ bytes_lanes rest := by
  induction k with
  | zero => simp
  | succ k ih =>
    have : List.replicate (4 * (k + 1)) 0 ++ rest =
        0 :: 0 :: 0 :: 0 :: (List.replicate (4 * k) 0 ++ rest) := by
      rw [show 4 * (k + 1) = 4 * k + 1 + 1 + 1 + 1 by ring]
      simp [List.replicate_succ]
    rw [this, bytes_lanes, ih]
    simp [bytes_uint32, List.replicate_succ]

/-- Reading a prefix of a zeroed storage range yields zero bytes. -/
theorem zero_range_read (storage : List Nat) (offset size k : Nat)
    (hstorage : offset + size ≤ storage.length) (hk : k ≤ size) :
    ((storage.take offset ++ List.replicate size 0 ++
      storage.drop (offset + size)).drop offset).take k = List.replicate k 0 := by
  have h1 : (storage.take offset).length = offset := by simp; omega
  have h3 : (storage.take offset).drop offset = [] := by
    apply List.drop_eq_nil_of_le
    omega
  rw [List.append_assoc, List.drop_append_eq_append_drop, h3, List.nil_append,
    h1, Nat.sub_self, List.drop_zero, List.take_append_of_le_length (by simp; omega),
    List.take_replicate, Nat.min_eq_left hk]

/-- The raw getter on a zeroed variable: the first `min size var.size` bytes of the buffer
become zero. -/
theorem get_raw_zero (s : runtime) (var : uniform) (storage : List Nat) (data : List Nat)
    (size : Nat) (hstorage : var.storage_offset + var.size ≤ storage.length)
    (hs : s._uniform_data_storage =
      storage.take var.storage_offset ++ List.replicate var.size 0 ++
        storage.drop (var.storage_offset + var.size))
    (hdata : min size var.size ≤ data.length) :
    get_uniform_value_raw s var data size =
      some (List.replicate (min size var.size) 0 ++ data.drop (min size var.size)) := by
  have hlen : s._uniform_data_storage.length = storage.length := by
    rw [hs]
    simp only [List.length_append, List.length_take, List.length_drop, List.length_replicate]
    omega
  have hle : var.storage_offset + min size var.size ≤ s._uniform_data_storage.length := by
    have := Nat.min_le_right size var.size
    omega
  simp only [get_uniform_value_raw, hle, hdata, and_self, if_true]
  rw [hs, zero_range_read storage _ _ _ hstorage (Nat.min_le_right _ _)]

/-- The first lanes of memory that starts with enough zero bytes are zero. -/
theorem bytes_lanes_zero_take (m n : Nat) (rest : List Nat) (h : 4 * n ≤ m) :
    (bytes_lanes (List.replicate m 0 ++ rest)).take n = List.replicate n 0 := by
  have : List.replicate m (0 : Nat) = List.replicate (4 * n) 0 ++ List.replicate (m - 4 * n) 0 := by
    rw [← List.replicate_add]
    congr 1
    omega
  rw [this, List.append_assoc, bytes_lanes_zero, List.take_left' (by simp)]

/-- After the first `n` lanes of a prefix were replaced, the first `n` elements of the buffer
are the replaced ones. -/
theorem take_map_take_append {α β : Type} (f : α → β) (l : List α) (rest : List β) (n : Nat)
    (x : α) (h : l.take n = List.replicate n x) :
    ((l.take n).map f ++ rest).take n = List.replicate n (f x) := by
  rw [h, List.map_replicate, List.take_left' (by simp)]

/-- Every typed getter reads zeros from a zeroed variable. -/
theorem typed_reads_zero (s : runtime) (var : uniform) (storage : List Nat)
    (hstorage : var.storage_offset + var.size ≤ storage.length)
    (hs : s._uniform_data_storage =
      storage.take var.storage_offset ++ List.replicate var.size 0 ++
        storage.drop (var.storage_offset + var.size))
    (n : Nat) (hn : 4 * n ≤ var.size) :
    (∀ buffer : List Bool, n ≤ buffer.length →
      ∃ out, get_uniform_value_bool s var buffer n = some out ∧
        out.take n = List.replicate n false) ∧
    (∀ buffer : List Int, n ≤ buffer.length →
      ∃ out, get_uniform_value_int32 s var buffer n = some out ∧
        out.take n = List.replicate n 0) ∧
    (∀ buffer : List Nat, n ≤ buffer.length →
      ∃ out, get_uniform_value_uint32 s var buffer n = some out ∧
        out.take n = List.replicate n 0) ∧
    (∀ buffer : List Nat, n ≤ buffer.length →
      ∃ out, get_uniform_value_float s var buffer n = some out ∧
        out.take n = List.replicate n 0) := by
  have hcount : min n (var.size / 4) = n := by
    apply Nat.min_eq_left
    omega
  have hmin : min (n * 4) var.size = n * 4 := Nat.min_eq_left (by omega)
  -- the copy of the whole variable into the scratch buffer
  have hwhole := get_raw_zero s var storage (List.replicate var.size 0) var.size hstorage hs
    (by simp)
  rw [Nat.min_self] at hwhole
  have hlanes : ∀ rest, (bytes_lanes (List.replicate var.size 0 ++ rest)).take n =
      List.replicate n 0 := fun rest => bytes_lanes_zero_take var.size n rest hn
  -- the copy of `n` lanes into a caller's buffer of lanes
  have hpart : ∀ lanes : List Nat, n ≤ lanes.length →
      get_uniform_value_raw s var (lanes_bytes lanes) (n * 4) =
        some (List.replicate (n * 4) 0 ++ (lanes_bytes lanes).drop (n * 4)) := by
    intro lanes hl
    have := get_raw_zero s var storage (lanes_bytes lanes) (n * 4) hstorage hs
      (by rw [hmin, lanes_bytes_length]; omega)
    rwa [hmin] at this
  have hpart_lanes : ∀ rest, (bytes_lanes (List.replicate (n * 4) 0 ++ rest)).take n =
      List.replicate n 0 := fun rest => bytes_lanes_zero_take (n * 4) n rest (by omega)
  have hint : ∀ buffer : List Int, n ≤ buffer.length →
      ∃ out, get_uniform_value_int32 s var buffer n = some out ∧
        out.take n = List.replicate n 0 := by
    intro buffer hb
    unfold get_uniform_value_int32
    split
    · rw [hpart _ (by simpa using hb)]
      refine ⟨_, rfl, ?_⟩
      rw [← List.map_take, hpart_lanes, List.map_replicate]
      rfl
    · simp only [hwhole, hcount, hb, if_true]
      refine ⟨_, rfl, ?_⟩
      have := hlanes (List.drop var.size (List.replicate var.size 0))
      exact take_map_take_append float_to_int32 _ _ n 0 this
  refine ⟨?_, hint, ?_, ?_⟩
  · intro buffer hb
    simp only [get_uniform_value_bool, hwhole, hcount, hb, if_true]
    refine ⟨_, rfl, ?_⟩
    have := hlanes (List.drop var.size (List.replicate var.size 0))
    exact take_map_take_append (fun lane => lane != 0) _ _ n 0 this
  · intro buffer hb
    obtain ⟨out, hout, hz⟩ := hint (buffer.map bits_int32) (by simpa using hb)
    simp only [get_uniform_value_uint32, hout]
    refine ⟨_, rfl, ?_⟩
    rw [← List.map_take, hz, List.map_replicate]
    rfl
  · intro buffer hb
    unfold get_uniform_value_float
    split
    · rw [hpart _ hb]
      exact ⟨_, rfl, hpart_lanes _⟩
    · simp only [hwhole, hcount, hb, if_true]
      refine ⟨_, rfl, ?_⟩
      have := hlanes (List.drop var.size (List.replicate var.size 0))
      have hzero : (if var.type.is_signed = true then int32_to_float (bits_int32 0)
          else uint32_to_float 0) = 0 := by
        split <;> decide
      have h := take_map_take_append
        (fun lane => if var.type.is_signed = true then int32_to_float (bits_int32 lane)
          else uint32_to_float lane) _ (List.drop n buffer) n 0 this
      simp only [hzero] at h
      exact h

/-- The bytes of a storage in which the range starting at `offset` was replaced by `mid`. -/
theorem splice_get (storage mid : List Nat) (offset : Nat)
    (h : offset + mid.length ≤ storage.length) (i : Nat) :
    (storage.take offset ++ mid ++ storage.drop (offset + mid.length))[i]? =
      if i < offset then storage[i]?
      else if i < offset + mid.length then mid[i - offset]?
      else storage[i]? := by
  have h1 : (storage.take offset).length = offset := by simp; omega
  by_cases hi : i < offset
  · rw [if_pos hi, List.append_assoc, List.getElem?_append_left (by omega),
      List.getElem?_take_of_lt hi]
  · rw [if_neg hi, List.append_assoc, List.getElem?_append_right (by omega), h1]
    by_cases hm : i < offset + mid.length
    · rw [if_pos hm, List.getElem?_append_left (by omega)]
    · rw [if_neg hm, List.getElem?_append_right (by omega), List.getElem?_drop]
      congr 1
      omega

/-- C12: for every uniform whose `has_initializer_value` is false (and whose storage lies
within the Uniform Storage), `reset_uniform_value` returns; afterwards every byte of its
storage range `[storage_offset, storage_offset+size)` is zero, the storage bytes outside the
range are unchanged, and every typed read of `n` lanes that fit in the variable (in
particular of every component up to the declared count) yields false / 0 / 0 / 0.0, whatever
the backend and the declared base type. -/
theorem reset_uniform_value_zero (s : runtime) (var : uniform)
    (hinit : var.has_initializer_value = false)
    (hstorage : var.storage_offset + var.size ≤ s._uniform_data_storage.length) :
    ∃ s1 : runtime, reset_uniform_value s var = some s1 ∧
      (∀ i, var.storage_offset ≤ i → i < var.storage_offset + var.size →
        s1._uniform_data_storage[i]? = some 0) ∧
      (∀ i, i < var.storage_offset ∨ var.storage_offset + var.size ≤ i →
        s1._uniform_data_storage[i]? = s._uniform_data_storage[i]?) ∧
      (∀ n, 4 * n ≤ var.size →
        (∀ buffer : List Bool, n ≤ buffer.length →
          ∃ out, get_uniform_value_bool s1 var buffer n = some out ∧
            out.take n = List.replicate n false) ∧
        (∀ buffer : List Int, n ≤ buffer.length →
          ∃ out, get_uniform_value_int32 s1 var buffer n = some out ∧
            out.take n = List.replicate n 0) ∧
        (∀ buffer : List Nat, n ≤ buffer.length →
          ∃ out, get_uniform_value_uint32 s1 var buffer n = some out ∧
            out.take n = List.replicate n 0) ∧
        (∀ buffer : List Nat, n ≤ buffer.length →
          ∃ out, get_uniform_value_float s1 var buffer n = some out ∧
            out.take n = List.replicate n 0)) := by
  refine ⟨{ s with
      _uniform_data_storage :=
        s._uniform_data_storage.take var.storage_offset ++ List.replicate var.size 0 ++
          s._uniform_data_storage.drop (var.storage_offset + var.size) }, ?_, ?_, ?_, ?_⟩
  · simp [reset_uniform_value, hinit, hstorage]
  · intro i hlo hhi
    have := splice_get s._uniform_data_storage (List.replicate var.size 0) var.storage_offset
      (by simpa using hstorage) i
    simp only [List.length_replicate] at this
    rw [this, if_neg (by omega), if_pos hhi, List.getElem?_replicate, if_pos (by omega)]
  · intro i hi
    have := splice_get s._uniform_data_storage (List.replicate var.size 0) var.storage_offset
      (by simpa using hstorage) i
    simp only [List.length_replicate] at this
    rw [this]
    rcases hi with hi | hi
    · rw [if_pos hi]
    · rw [if_neg (by omega), if_neg (by omega)]
  · intro n hn
    exact typed_reads_zero _ var s._uniform_data_storage hstorage rfl n hn

/-- Witness of C12: the int3 uniform of `demo_storage`, whose storage is filled with `0xff`,
is reset on the legacy backend. -/
theorem reset_uniform_value_zero_witness :
    ∃ s1 : runtime, reset_uniform_value demo_legacy demo_uniform = some s1 ∧
      s1._uniform_data_storage =
        [255, 255, 255, 255, 0, 0, 0, 0, 0, 0, 0, 0, 0, 0, 0, 0, 255, 255, 255, 255] ∧
      get_uniform_value_bool s1 demo_uniform [true, true, true] 3 =
        some [false, false, false] ∧
      get_uniform_value_int32 s1 demo_uniform [7, 7, 7] 3 = some [0, 0, 0] ∧
      get_uniform_value_uint32 s1 demo_uniform [7, 7, 7] 3 = some [0, 0, 0] ∧
      get_uniform_value_float s1 demo_uniform [7, 7, 7] 3 = some [0, 0, 0] := by
  obtain ⟨s1, h1, _, _, _⟩ := reset_uniform_value_zero demo_legacy demo_uniform
    (by decide) (by decide)
  have hs1 : some s1 = some { demo_legacy with
      _uniform_data_storage :=
        [255, 255, 255, 255, 0, 0, 0, 0, 0, 0, 0, 0, 0, 0, 0, 0, 255, 255, 255, 255] } := by
    rw [← h1]; decide
  cases hs1
  exact ⟨_, h1, rfl, by decide, by decide, by decide, by decide⟩

/-- The raw setter returns for every requested size when the variable lies within the
Uniform Storage and the source buffer holds the clamped number of bytes; it only writes
inside the variable's storage range. -/
theorem set_uniform_value_raw_frame (s : runtime) (var : uniform) (data : List Nat) (size : Nat)
    (hstorage : var.storage_offset + var.size ≤ s._uniform_data_storage.length)
    (hdata : min size var.size ≤ data.length) :
    ∃ s1, set_uniform_value_raw s var data size = some s1 ∧ outside_unchanged s s1 var := by
  have hmin := Nat.min_le_right size var.size
  have hlen : (data.take (min size var.size)).length = min size var.size := by
    simp only [List.length_take]; omega
  refine ⟨_, set_uniform_value_raw_eq s var data size (by omega) hdata, rfl, ?_, ?_⟩
  · simp only [List.length_append, List.length_take, List.length_drop]
    omega
  · intro i hi
    have := splice_get s._uniform_data_storage (data.take (min size var.size))
      var.storage_offset (by omega) i
    rw [hlen] at this
    simp only
    rw [this]
    rcases hi with hi | hi
    · rw [if_pos hi]
    · rw [if_neg (by omega), if_neg (by omega)]

/-- C19, the code at the failing input: the search location holds one valid preset and it
is the current preset, so there is no other preset to switch to; `switch_to_next_preset`
nevertheless returns true, in both directions, after "switching" to the current preset. -/
theorem switch_to_next_preset_only_current :
    preset_candidates (demo_env ["notes.md", "B.ini"]) (demo_preset "B.ini") "" = ["B.ini"] ∧
      switch_to_next_preset (demo_env ["notes.md", "B.ini"]) (demo_preset "B.ini") "" false =
        some (true, demo_preset "B.ini") ∧
      switch_to_next_preset (demo_env ["notes.md", "B.ini"]) (demo_preset "B.ini") "" true =
        some (true, demo_preset "B.ini") := by
  decide

/-- The function `check_preset_path` returns true if and only if the extension of the path is
`.ini` or `.txt`, the status of the absolute path is neither that of a directory nor the error
`ERROR_INVALID_NAME`, and the path either does not exist or `ini_file::has` finds the key
`Techniques` in the unnamed section of its file. -/
theorem check_preset_path_iff (env : environment) (p : String) :
    check_preset_path env p = true ↔
      (env.extension p = ".ini" ∨ env.extension p = ".txt") ∧
      (env.status (absolute_path env p)).1 ≠ file_type.directory ∧
      (env.status (absolute_path env p)).2 ≠ 0x7b ∧
      ((env.status (absolute_path env p)).1 = file_type.not_found ∨
        env.ini_has (absolute_path env p) "" "Techniques" = true) := by
  unfold check_preset_path
  by_cases hini : env.extension p = ".ini" <;> by_cases htxt : env.extension p = ".txt" <;>
    by_cases hdir : (env.status (absolute_path env p)).1 = file_type.directory <;>
    by_cases hec : (env.status (absolute_path env p)).2 = 0x7b <;>
    by_cases hnf : (env.status (absolute_path env p)).1 = file_type.not_found <;>
    simp [hini, htxt, hdir, hec, hnf]

/-! ## Preset engine -/

/-- Counterexample to C17 as stated: in performance mode with the remaining-effects counter
at its idle sentinel, `is_loading()` is false but `load_current_preset` takes the deferred
path; with the counter at zero, `is_loading()` is true but the preset is applied (the
technique named in the preset stays enabled through the full path, here with its toggle key
reloaded). -/
theorem load_deferred_counterexample :
    (is_loading (demo_performance size_t_max) = false ∧
      load_current_preset (demo_library stable_sort) (demo_env []) (demo_ini ["Tint"] [] ["A=1"])
        (demo_performance size_t_max) =
        some { demo_performance size_t_max with _preset_preprocessor_definitions := ["A=1"] }) ∧
    (is_loading (demo_performance 0) = true ∧
      load_deferred (demo_ini ["Tint"] [] ["A=1"]) (demo_performance 0) = false ∧
      load_current_preset (demo_library stable_sort) (demo_env []) (demo_ini ["Tint"] [] ["A=1"])
        (demo_performance 0) =
        some { demo_performance 0 with
          _techniques := [{ demo_technique "Tint" 0 true (some 1) with timeleft := 5 }] }) := by
  decide

/-- C17, amended: `load_current_preset` takes its deferred path (stores the preset's
preprocessor definitions as the pending set and changes nothing else) exactly when the
remaining-effects counter is not zero, which includes its idle sentinel, and either
performance mode is on or the preset's definitions differ from the last applied set; in every
other case, in particular with the counter at zero, it applies the preset. -/
theorem load_current_preset_deferred (lib : cxx_library) (env : environment)
    (preset : ini_file) (s : runtime) :
    (load_deferred preset s = true ↔
      s._reload_remaining_effects ≠ 0 ∧
        (s._performance_mode = true ∨
          preset.get_strings "" "PreprocessorDefinitions" [] ≠
            s._preset_preprocessor_definitions)) ∧
    (load_deferred preset s = true →
      load_current_preset lib env preset s =
        some { s with
          _preset_preprocessor_definitions :=
            preset.get_strings "" "PreprocessorDefinitions" [] }) ∧
    (load_deferred preset s = false →
      load_current_preset lib env preset s = apply_preset lib env preset s) := by
  refine ⟨?_, ?_, ?_⟩
  · simp [load_deferred]
  · intro h
    simp [load_current_preset, h]
  · intro h
    simp [load_current_preset, h]

/-! ### The loops of `load_current_preset` -/

/-- Memory has a lane for every four bytes. -/
theorem bytes_lanes_length (l : List Nat) : (bytes_lanes l).length = l.length / 4 := by
  induction l using bytes_lanes.induct with
  | case1 b0 b1 b2 b3 rest ih =>
    simp only [bytes_lanes, List.length_cons, ih]
    omega
  | case2 l h =>
    have hlt : l.length < 4 := by
      match l, h with
      | [], _ => simp
      | [_], _ => simp
      | [_, _], _ => simp
      | [_, _, _], _ => simp
      | b0 :: b1 :: b2 :: b3 :: rest, h => exact absurd rfl (h b0 b1 b2 b3 rest)
    rw [bytes_lanes]
    · simp; omega
    · exact h

/-- The raw getter returns, with a buffer of unchanged size, when the variable lies within
the Uniform Storage and the buffer holds the clamped number of bytes. -/
theorem get_uniform_value_raw_length (s : runtime) (var : uniform) (data : List Nat)
    (size : Nat)
    (hstorage : var.storage_offset + var.size ≤ s._uniform_data_storage.length)
    (hdata : min size var.size ≤ data.length) :
    ∃ out, get_uniform_value_raw s var data size = some out ∧ out.length = data.length := by
  have := Nat.min_le_right size var.size
  simp only [get_uniform_value_raw]
  rw [if_pos ⟨by omega, hdata⟩]
  refine ⟨_, rfl, ?_⟩
  simp only [List.length_append, List.length_take, List.length_drop]
  omega

/-- The `int32_t` getter returns, with a buffer of unchanged size. -/
theorem get_uniform_value_int32_length (s : runtime) (var : uniform) (values : List Int)
    (count : Nat)
    (hstorage : var.storage_offset + var.size ≤ s._uniform_data_storage.length)
    (hcount : count ≤ values.length) :
    ∃ out, get_uniform_value_int32 s var values count = some out ∧
      out.length = values.length := by
  unfold get_uniform_value_int32
  split
  · obtain ⟨out, hout, hlen⟩ := get_uniform_value_raw_length s var
      (lanes_bytes (values.map int32_bits)) (count * 4) hstorage
      (by
        have := Nat.min_le_left (count * 4) var.size
        rw [lanes_bytes_length, List.length_map]
        omega)
    rw [hout]
    refine ⟨_, rfl, ?_⟩
    rw [List.length_map, bytes_lanes_length, hlen, lanes_bytes_length, List.length_map]
    omega
  · obtain ⟨out, hout, hlen⟩ := get_uniform_value_raw_length s var
      (List.replicate var.size 0) var.size hstorage (by simp)
    have hmin := Nat.min_le_left count (var.size / 4)
    have hmin2 := Nat.min_le_right count (var.size / 4)
    simp only [hout]
    rw [if_pos (by omega)]
    refine ⟨_, rfl, ?_⟩
    simp only [List.length_append, List.length_map, List.length_take, List.length_drop,
      bytes_lanes_length, hlen, List.length_replicate]
    omega

/-- The `uint32_t` getter returns, with a buffer of unchanged size. -/
theorem get_uniform_value_uint32_length (s : runtime) (var : uniform) (values : List Nat)
    (count : Nat)
    (hstorage : var.storage_offset + var.size ≤ s._uniform_data_storage.length)
    (hcount : count ≤ values.length) :
    ∃ out, get_uniform_value_uint32 s var values count = some out ∧
      out.length = values.length := by
  obtain ⟨out, hout, hlen⟩ := get_uniform_value_int32_length s var (values.map bits_int32)
    count hstorage (by simpa using hcount)
  simp only [get_uniform_value_uint32, hout]
  exact ⟨_, rfl, by simpa using hlen⟩

/-- The `float` getter returns, with a buffer of unchanged size. -/
theorem get_uniform_value_float_length (s : runtime) (var : uniform) (values : List Nat)
    (count : Nat)
    (hstorage : var.storage_offset + var.size ≤ s._uniform_data_storage.length)
    (hcount : count ≤ values.length) :
    ∃ out, get_uniform_value_float s var values count = some out ∧
      out.length = values.length := by
  unfold get_uniform_value_float
  split
  · obtain ⟨out, hout, hlen⟩ := get_uniform_value_raw_length s var
      (lanes_bytes values) (count * 4) hstorage
      (by
        have := Nat.min_le_left (count * 4) var.size
        rw [lanes_bytes_length]
        omega)
    rw [hout]
    refine ⟨_, rfl, ?_⟩
    rw [bytes_lanes_length, hlen, lanes_bytes_length]
    omega
  · obtain ⟨out, hout, hlen⟩ := get_uniform_value_raw_length s var
      (List.replicate var.size 0) var.size hstorage (by simp)
    have hmin := Nat.min_le_left count (var.size / 4)
    have hmin2 := Nat.min_le_right count (var.size / 4)
    simp only [hout]
    rw [if_pos (by omega)]
    refine ⟨_, rfl, ?_⟩
    simp only [List.length_append, List.length_map, List.length_take, List.length_drop,
      bytes_lanes_length, hlen, List.length_replicate]
    omega

/-- The typed setters for `int32_t`, `uint32_t` and `float` return and only write inside
the variable's storage range. -/
theorem typed_setters_frame (s : runtime) (var : uniform) (count : Nat)
    (hstorage : var.storage_offset + var.size ≤ s._uniform_data_storage.length) :
    (∀ values : List Int, count ≤ values.length →
      ∃ s1, set_uniform_value_int32 s var values count = some s1 ∧ outside_unchanged s s1 var) ∧
    (∀ values : List Nat, count ≤ values.length →
      ∃ s1, set_uniform_value_uint32 s var values count = some s1 ∧
        outside_unchanged s s1 var) ∧
    (∀ values : List Nat, count ≤ values.length →
      ∃ s1, set_uniform_value_float s var values count = some s1 ∧
        outside_unchanged s s1 var) := by
  have hmin := Nat.min_le_left (count * 4) var.size
  have hraw : ∀ lanes : List Nat, count ≤ lanes.length →
      ∃ s1, set_uniform_value_raw s var (lanes_bytes lanes) (count * 4) = some s1 ∧
        outside_unchanged s s1 var := by
    intro lanes hl
    exact set_uniform_value_raw_frame s var _ _ hstorage (by rw [lanes_bytes_length]; omega)
  refine ⟨?_, ?_, ?_⟩
  · intro values hv
    unfold set_uniform_value_int32
    split
    · exact hraw _ (by simpa using hv)
    · simp only [hv, if_true]
      exact hraw _ (by simp [hv])
  · intro values hv
    unfold set_uniform_value_uint32
    split
    · exact hraw _ hv
    · simp only [hv, if_true]
      exact hraw _ (by simp [hv])
  · intro values hv
    unfold set_uniform_value_float
    split
    · exact hraw _ hv
    · simp only [hv, if_true]
      exact hraw _ (by simp [hv])

/-- The lengths of the arrays the typed getters of the preset store return. -/
theorem ini_get_length (preset : ini_file) (section_name key : String) :
    (∀ values : List Int, (preset.get_int32 section_name key values).length = values.length) ∧
    (∀ values : List Nat, (preset.get_uint32 section_name key values).length = values.length) ∧
    (∀ values : List Nat, (preset.get_float section_name key values).length = values.length) := by
  refine ⟨?_, ?_, ?_⟩ <;> intro values
  · unfold ini_file.get_int32
    split <;> simp
  · unfold ini_file.get_uint32
    split <;> simp
  · unfold ini_file.get_float
    split <;> simp

/-- One iteration of the loop over the uniforms returns for a valid uniform and only
writes inside the variable's storage range. -/
theorem load_uniform_frame (lib : cxx_library) (env : environment) (preset : ini_file)
    (left total : Int) (s : runtime) (var : uniform)
    (hstorage : var.storage_offset + var.size ≤ s._uniform_data_storage.length)
    (heffect : var.effect_index < s._loaded_effects.length) :
    ∃ s1, load_uniform lib env preset left total s var = some s1 ∧
      outside_unchanged s s1 var := by
  obtain ⟨hint, huint, hfloat⟩ := typed_setters_frame s var 16 hstorage
  obtain ⟨gint, guint, gfloat⟩ := ini_get_length preset
    (env.filename (s._loaded_effects[var.effect_index]).source_file) var.name
  unfold load_uniform
  rw [List.getElem?_eq_getElem heffect]
  simp only
  split
  · obtain ⟨out, hout, hlen⟩ := get_uniform_value_int32_length s var (List.replicate 16 0) 16
      hstorage (by simp)
    simp only [hout]
    exact hint _ (by rw [gint, hlen]; simp)
  · obtain ⟨out, hout, hlen⟩ := get_uniform_value_float_length s var (List.replicate 16 0) 16
      hstorage (by simp)
    simp only [hout]
    split
    · exact hfloat _ (by
        rw [List.length_zipWith, gfloat, hlen]
        simp)
    · exact hfloat _ (by rw [gfloat, hlen]; simp)
  · obtain ⟨out, hout, hlen⟩ := get_uniform_value_uint32_length s var (List.replicate 16 0) 16
      hstorage (by simp)
    simp only [hout]
    exact huint _ (by rw [guint, hlen]; simp)

/-- The loop over the uniforms returns when all of them are valid, and changes at most the
contents of the Uniform Storage. -/
theorem load_uniforms_frame (lib : cxx_library) (env : environment) (preset : ini_file)
    (left total : Int) (vars : List uniform) (s : runtime)
    (hvalid : ∀ var ∈ vars,
      var.storage_offset + var.size ≤ s._uniform_data_storage.length ∧
        var.effect_index < s._loaded_effects.length) :
    ∃ s1, load_uniforms lib env preset left total s vars = some s1 ∧ storage_only s s1 := by
  induction vars generalizing s with
  | nil => exact ⟨s, rfl, rfl, rfl⟩
  | cons var rest ih =>
    obtain ⟨hs, he⟩ := hvalid var (List.mem_cons_self _ _)
    obtain ⟨s1, h1, e1, l1, _⟩ := load_uniform_frame lib env preset left total s var hs he
    obtain ⟨s2, h2, e2, l2⟩ := ih s1 (by
      intro v hv
      obtain ⟨hvs, hve⟩ := hvalid v (List.mem_cons_of_mem _ hv)
      rw [l1, e1]
      exact ⟨hvs, hve⟩)
    refine ⟨s2, by simp only [load_uniforms, h1, h2], ?_, l2.trans l1⟩
    rw [e2, e1]

/-- Effects that differ at most in their rendering counts have the same compile flags. -/
theorem effect_compiled_of_registry_only (s s1 : runtime) (h : registry_only s s1) (e : Nat) :
    effect_compiled s1._loaded_effects e = effect_compiled s._loaded_effects e := by
  have := h.2.2 e
  unfold effect_compiled
  cases h1 : s1._loaded_effects[e]? <;> cases h0 : s._loaded_effects[e]? <;>
    simp [h1, h0, effect_data.identity] at this ⊢
  exact this.2

/-- Replacing an effect by one that differs in its rendering count only. -/
theorem registry_only_set (effects : List effect_data) (i : Nat) (effect : effect_data)
    (rendering : Int) (h : effects[i]? = some effect) (e : Nat) :
    ((effects.set i { effect with rendering := rendering })[e]?).map effect_data.identity =
      (effects[e]?).map effect_data.identity := by
  rw [List.getElem?_set]
  have hi : i < effects.length := (List.getElem?_eq_some_iff.mp h).1
  by_cases hie : i = e
  · subst hie
    simp [hi, h, effect_data.identity]
  · simp [hie]

/-- One iteration of the loop over the techniques, for a technique with a valid owning
effect. -/
theorem load_technique_step (preset : ini_file) (technique_list : List String) (s : runtime)
    (t : Nat) (T : technique) (effect : effect_data)
    (hT : s._techniques[t]? = some T)
    (hE : s._loaded_effects[T.effect_index]? = some effect) :
    ∃ s1, load_technique preset technique_list s t = some s1 ∧
      s1._techniques =
        s._techniques.set t (loaded_technique preset technique_list s._loaded_effects T) ∧
      registry_only s s1 := by
  have ht : t < s._techniques.length := (List.getElem?_eq_some_iff.mp hT).1
  have hcomp : effect_compiled s._loaded_effects T.effect_index = effect.compile_sucess := by
    simp [effect_compiled, hE]
  unfold load_technique loaded_technique
  rw [hT, hcomp]
  simp only
  by_cases hen : preset_enables technique_list T = true
  · simp only [hen, if_true]
    by_cases hok : effect.compile_sucess = true
    · rw [enable_technique_eq s t T effect hT hE hok]
      simp only [List.getElem?_set, ht, if_true, hok, List.set_set]
      refine ⟨_, rfl, rfl, rfl, ?_, ?_⟩
      · simp only
        split <;> simp
      · intro e
        simp only
        split
        · rfl
        · have := registry_only_set _ _ effect (effect.rendering + 1) hE e
          simpa [hok] using this
    · have hfail : enable_technique s t = some s := by
        simp [enable_technique, hT, hE, hok]
      simp only [hfail, hT, hok]
      exact ⟨_, rfl, rfl, rfl, rfl, fun _ => rfl⟩
  · simp only [Bool.not_eq_true] at hen
    simp only [hen, Bool.false_eq_true, if_false]
    rw [disable_technique_eq s t T effect hT hE]
    simp only [List.getElem?_set, ht, if_true, List.set_set]
    refine ⟨_, rfl, rfl, rfl, ?_, ?_⟩
    · simp only
      split <;> simp
    · intro e
      simp only
      split
      · exact registry_only_set _ _ effect _ hE e
      · rfl

/-- The relation `registry_only` is transitive. -/
theorem registry_only_trans (s s1 s2 : runtime) (h1 : registry_only s s1)
    (h2 : registry_only s1 s2) : registry_only s s2 := by
  obtain ⟨e1, l1, c1⟩ := h1
  obtain ⟨e2, l2, c2⟩ := h2
  refine ⟨?_, l2.trans l1, fun e => (c2 e).trans (c1 e)⟩
  rw [e2, e1]

/-- The relation `registry_only` is reflexive. -/
theorem registry_only_refl (s : runtime) : registry_only s s :=
  ⟨rfl, rfl, fun _ => rfl⟩

/-- What the loop over the techniques keeps of a technique. -/
theorem loaded_technique_kept (preset : ini_file) (technique_list : List String)
    (effects : List effect_data) (T : technique) :
    (loaded_technique preset technique_list effects T).name = T.name ∧
    (loaded_technique preset technique_list effects T).effect_index = T.effect_index ∧
    (loaded_technique preset technique_list effects T).int_annotations = T.int_annotations := by
  unfold loaded_technique
  split
  · split <;> exact ⟨rfl, rfl, rfl⟩
  · exact ⟨rfl, rfl, rfl⟩

/-- The technique after the loop depends on the effects through their compile flags only. -/
theorem loaded_technique_congr (preset : ini_file) (technique_list : List String)
    (s s1 : runtime) (h : registry_only s s1) (T : technique) :
    loaded_technique preset technique_list s1._loaded_effects T =
      loaded_technique preset technique_list s._loaded_effects T := by
  unfold loaded_technique
  rw [effect_compiled_of_registry_only s s1 h]

/-- The loop over the techniques, over distinct valid positions: it returns, every visited
technique is replaced by its `loaded_technique`, the other techniques stay. -/
theorem load_techniques_loop (preset : ini_file) (technique_list : List String)
    (ts : List Nat) (s : runtime) (hnodup : ts.Nodup)
    (hts : ∀ t ∈ ts, t < s._techniques.length) (hvalid : effect_indices_valid s) :
    ∃ s1, load_techniques preset technique_list s ts = some s1 ∧ registry_only s s1 ∧
      ∀ j : Nat, s1._techniques[j]? =
        if j ∈ ts then
          (s._techniques[j]?).map (loaded_technique preset technique_list s._loaded_effects)
        else s._techniques[j]? := by
  induction ts generalizing s with
  | nil => exact ⟨s, rfl, registry_only_refl s, fun j => by simp⟩
  | cons t rest ih =>
    have ht : t < s._techniques.length := hts t (List.mem_cons_self _ _)
    obtain ⟨T, hT⟩ : ∃ T, s._techniques[t]? = some T := ⟨_, List.getElem?_eq_getElem ht⟩
    have hmem : T ∈ s._techniques := by
      obtain ⟨h, rfl⟩ := List.getElem?_eq_some_iff.mp hT
      exact List.getElem_mem h
    have he : T.effect_index < s._loaded_effects.length := hvalid T hmem
    obtain ⟨effect, hE⟩ : ∃ effect, s._loaded_effects[T.effect_index]? = some effect :=
      ⟨_, List.getElem?_eq_getElem he⟩
    obtain ⟨s1, h1, htech, hreg⟩ := load_technique_step preset technique_list s t T effect hT hE
    have hlen1 : s1._techniques.length = s._techniques.length := by rw [htech]; simp
    have hvalid1 : effect_indices_valid s1 := by
      unfold effect_indices_valid
      rw [htech, hreg.2.1]
      exact effect_indices_valid_set _ _ t T _ hmem
        (loaded_technique_kept preset technique_list s._loaded_effects T).2.1 hvalid
    obtain ⟨hnot, hnd⟩ := List.nodup_cons.mp hnodup
    obtain ⟨s2, h2, hreg2, hget⟩ := ih s1 hnd
      (fun u hu => by rw [hlen1]; exact hts u (List.mem_cons_of_mem _ hu)) hvalid1
    refine ⟨s2, by simp only [load_techniques, h1, h2], registry_only_trans s s1 s2 hreg hreg2, ?_⟩
    intro j
    rw [hget j, htech, List.getElem?_set]
    have hcongr : loaded_technique preset technique_list s1._loaded_effects =
        loaded_technique preset technique_list s._loaded_effects :=
      funext (loaded_technique_congr preset technique_list s s1 hreg)
    rw [hcongr]
    by_cases hjt : t = j
    · subst hjt
      simp [hnot, ht, hT]
    · have hjt' : j ≠ t := fun h => hjt h.symm
      by_cases hjr : j ∈ rest
      · simp [hjt, hjt', hjr]
      · simp [hjt, hjt', hjr]

/-- The loop over all techniques replaces every technique by its `loaded_technique`. -/
theorem load_techniques_all (preset : ini_file) (technique_list : List String) (s : runtime)
    (hvalid : effect_indices_valid s) :
    ∃ s1, load_techniques preset technique_list s (List.range s._techniques.length) = some s1 ∧
      registry_only s s1 ∧
      s1._techniques =
        s._techniques.map (loaded_technique preset technique_list s._loaded_effects) := by
  obtain ⟨s1, h1, hreg, hget⟩ := load_techniques_loop preset technique_list
    (List.range s._techniques.length) s (List.nodup_range _)
    (fun t ht => List.mem_range.mp ht) hvalid
  refine ⟨s1, h1, hreg, ?_⟩
  apply List.ext_getElem?
  intro j
  rw [hget j, List.getElem?_map]
  by_cases hj : j < s._techniques.length
  · simp [hj]
  · simp [hj, List.getElem?_eq_none (Nat.le_of_not_lt hj)]

/-- The comparison of `load_current_preset` is a strict weak ordering. -/
theorem technique_before_strict_weak (sorted_technique_list : List String) :
    strict_weak_order (technique_before sorted_technique_list) := by
  constructor
  · intro a b h
    simp only [technique_before, decide_eq_true_eq, decide_eq_false_iff_not] at h ⊢
    omega
  · intro a b c h1 h2
    simp only [technique_before, decide_eq_false_iff_not] at h1 h2 ⊢
    omega

/-- An insertion sort meets the contract of `std::sort`, whatever the order it starts
from. -/
theorem insertion_sort_contract (comp : technique → technique → Bool)
    (h : strict_weak_order comp) (l : List technique) :
    (l.insertionSort (fun a b => comp b a = false)).Perm l ∧
      (l.insertionSort (fun a b => comp b a = false)).Pairwise (fun a b => comp b a = false) := by
  haveI : IsTotal technique (fun a b => comp b a = false) := ⟨fun a b => by
    cases hba : comp b a
    · exact Or.inl rfl
    · exact Or.inr (h.1 b a hba)⟩
  haveI : IsTrans technique (fun a b => comp b a = false) :=
    ⟨fun a b c hab hbc => h.2 c b a hbc hab⟩
  exact ⟨List.perm_insertionSort _ l, List.sorted_insertionSort _ l⟩

/-- The stable insertion sort meets the contract of `std::sort`. -/
theorem stable_sort_contract : std_sort_contract stable_sort :=
  fun comp l h => insertion_sort_contract comp h l

/-- The part of `load_current_preset` after the early return: it returns when the effect
indices and the uniforms are valid, and the techniques are then the sorted techniques, each
replaced by its `loaded_technique`. -/
theorem apply_preset_eq (lib : cxx_library) (env : environment) (preset : ini_file)
    (s : runtime) (hsort : std_sort_contract lib.sort) (hvalid : effect_indices_valid s)
    (huniforms : uniforms_valid s) :
    ∃ s2, apply_preset lib env preset s = some s2 ∧
      s2._techniques =
        (lib.sort (technique_before (ordering_list preset)) s._techniques).map
          (loaded_technique preset (preset.get_strings "" "Techniques" []) s._loaded_effects) ∧
      s2._loaded_effects.length = s._loaded_effects.length ∧
      (∀ e, effect_compiled s2._loaded_effects e = effect_compiled s._loaded_effects e) ∧
      s2._uniforms = s._uniforms ∧ s2._renderer_id = s._renderer_id ∧
      s2._uniform_data_storage.length = s._uniform_data_storage.length := by
  obtain ⟨hperm, _⟩ := hsort (technique_before (ordering_list preset)) s._techniques
    (technique_before_strict_weak _)
  unfold apply_preset
  simp only
  -- the state before the loop over the uniforms
  generalize hs2 : reorder_techniques lib preset s = s2
  have hs2t : s2._techniques =
      lib.sort (technique_before (ordering_list preset)) s._techniques := by
    rw [← hs2, reorder_techniques]; split <;> rfl
  have hs2e : s2._loaded_effects = s._loaded_effects := by
    rw [← hs2, reorder_techniques]; split <;> rfl
  have hs2u : s2._uniforms = s._uniforms := by
    rw [← hs2, reorder_techniques]; split <;> rfl
  have hs2s : s2._uniform_data_storage = s._uniform_data_storage := by
    rw [← hs2, reorder_techniques]; split <;> rfl
  have hs2r : s2._renderer_id = s._renderer_id := by
    rw [← hs2, reorder_techniques]; split <;> rfl
  obtain ⟨s3, h3, e3, l3⟩ := load_uniforms_frame lib env preset
    (transition_ms_left s) (transition_ms_left_from_last_frame s) s2._uniforms s2
    (by
      intro var hvar
      rw [hs2u] at hvar
      rw [hs2s, hs2e]
      exact huniforms var hvar)
  have hs3t : s3._techniques = s2._techniques := by rw [e3]
  have hs3e : s3._loaded_effects = s2._loaded_effects := by rw [e3]
  have hvalid3 : effect_indices_valid s3 := by
    intro T hT
    rw [hs3t, hs2t] at hT
    rw [hs3e, hs2e]
    exact hvalid T (hperm.subset hT)
  obtain ⟨s4, h4, hreg, htech⟩ := load_techniques_all preset
    (preset.get_strings "" "Techniques" []) s3 hvalid3
  refine ⟨s4, ?_, ?_, ?_, ?_, ?_, ?_, ?_⟩
  · simp only [h3, h4]
  · rw [htech, hs3t, hs2t, hs3e, hs2e]
  · rw [hreg.2.1, hs3e, hs2e]
  · intro e
    rw [effect_compiled_of_registry_only s3 s4 hreg, hs3e, hs2e]
  · rw [hreg.1, e3, hs2u]
  · rw [hreg.1, e3, hs2r]
  · rw [hreg.1]
    exact l3.trans (by rw [hs2s])

/-- Counterexample to C18 as stated: the preset's technique list names the technique `Blur`,
whose effect failed to compile; after the (non-deferred) `load_current_preset` it is still
disabled. -/
theorem load_enables_counterexample :
    load_deferred (demo_ini ["Blur"] [] []) demo_registry = false ∧
      (demo_registry._loaded_effects.map effect_data.compile_sucess = [false, true]) ∧
      (load_current_preset (demo_library stable_sort) (demo_env []) (demo_ini ["Blur"] [] [])
          demo_registry).map
        (fun s => s._techniques.map (fun T => (T.name, T.effect_index, T.enabled))) =
        some [("Blur", 0, false), ("Tint", 1, false), ("Glow", 1, false)] := by
  decide

/-- C18, amended: after a non-deferred `load_current_preset` (which returns when `std::sort`
meets its contract and the effect indices and uniforms are valid), for every technique `T` in
`_techniques`: if `T` carries a non-zero "enabled" annotation or `T.name` occurs in the
preset's `Techniques` list, then `T.enabled` is true provided the owning effect compiled
successfully, and is what it was before the call when the effect failed to compile;
otherwise `T.enabled` is false. -/
theorem load_current_preset_enabled (lib : cxx_library) (env : environment)
    (preset : ini_file) (s : runtime) (hsort : std_sort_contract lib.sort)
    (hvalid : effect_indices_valid s) (huniforms : uniforms_valid s)
    (hnow : load_deferred preset s = false) :
    ∃ s2, load_current_preset lib env preset s = some s2 ∧
      ∀ T ∈ s2._techniques,
        ((T.annotation_as_int "enabled" ≠ 0 ∨ T.name ∈ preset.get_strings "" "Techniques" []) →
          (effect_compiled s2._loaded_effects T.effect_index = true → T.enabled = true) ∧
          (effect_compiled s2._loaded_effects T.effect_index = false →
            ∃ T0 ∈ s._techniques, T0.name = T.name ∧ T0.effect_index = T.effect_index ∧
              T.enabled = T0.enabled)) ∧
        (¬ (T.annotation_as_int "enabled" ≠ 0 ∨
            T.name ∈ preset.get_strings "" "Techniques" []) →
          T.enabled = false) := by
  obtain ⟨s2, h2, htech, _, hcomp, _⟩ := apply_preset_eq lib env preset s hsort hvalid huniforms
  obtain ⟨hperm, _⟩ := hsort (technique_before (ordering_list preset)) s._techniques
    (technique_before_strict_weak _)
  refine ⟨s2, by simp only [load_current_preset, hnow, Bool.false_eq_true, if_false, h2], ?_⟩
  intro T hT
  rw [htech] at hT
  obtain ⟨T0, hT0, rfl⟩ := List.mem_map.mp hT
  have hmem : T0 ∈ s._techniques := hperm.subset hT0
  obtain ⟨hname, hidx, hann⟩ :=
    loaded_technique_kept preset (preset.get_strings "" "Techniques" []) s._loaded_effects T0
  have hwants : preset_enables (preset.get_strings "" "Techniques" []) T0 = true ↔
      (T0.annotation_as_int "enabled" ≠ 0 ∨
        T0.name ∈ preset.get_strings "" "Techniques" []) := by
    simp [preset_enables]
  have hann2 : (loaded_technique preset (preset.get_strings "" "Techniques" [])
      s._loaded_effects T0).annotation_as_int "enabled" = T0.annotation_as_int "enabled" := by
    simp only [technique.annotation_as_int, hann]
  rw [hann2, hname, hidx, hcomp]
  constructor
  · intro hw
    have hen := hwants.mpr hw
    constructor
    · intro hc
      simp [loaded_technique, hen, hc]
    · intro hc
      exact ⟨T0, hmem, rfl, rfl, by simp [loaded_technique, hen, hc]⟩
  · intro hw
    have hen : preset_enables (preset.get_strings "" "Techniques" []) T0 = false := by
      rw [← Bool.not_eq_true]
      exact fun h => hw (hwants.mp h)
    simp [loaded_technique, hen]

/-- Witness of C18: the preset names `Tint`, whose effect compiled, and `Blur`, whose effect
failed to compile; `Glow` is not named. -/
theorem load_current_preset_enabled_witness :
    ∃ s2, load_current_preset (demo_library stable_sort) (demo_env [])
        (demo_ini ["Blur", "Tint"] [] []) demo_registry = some s2 ∧
      s2._techniques.map (fun T => (T.name, T.enabled)) =
        [("Blur", false), ("Tint", true), ("Glow", false)] := by
  obtain ⟨s2, h2, _⟩ := load_current_preset_enabled (demo_library stable_sort) (demo_env [])
    (demo_ini ["Blur", "Tint"] [] []) demo_registry stable_sort_contract
    (by unfold effect_indices_valid; decide) (by unfold uniforms_valid; decide) (by decide)
  refine ⟨s2, h2, ?_⟩
  have : (some s2).map (fun s => s._techniques.map (fun T => (T.name, T.enabled))) =
      some [("Blur", false), ("Tint", true), ("Glow", false)] := by
    rw [← h2]; decide
  simpa using this

/-- Counterexample to C16 as stated: seventeen techniques, none of which is named by the
(empty) ordering list, so that all of them have the same position.  With the algorithm of
`std::sort` in the GNU C++ library, which partitions a range of more than 16 elements around
a pivot, `load_current_preset` leaves them in another order than the one they had. -/
theorem load_order_counterexample :
    load_deferred (demo_ini [] [] []) demo_many = false ∧
      ordering_list (demo_ini [] [] []) = [] ∧
      demo_many._techniques.map technique.name =
        ["T00", "T01", "T02", "T03", "T04", "T05", "T06", "T07", "T08", "T09", "T10", "T11",
          "T12", "T13", "T14", "T15", "T16"] ∧
      (load_current_preset (demo_library gnu_sort) (demo_env []) (demo_ini [] [] [])
          demo_many).map (fun s => s._techniques.map technique.name) =
        some ["T08", "T16", "T15", "T14", "T13", "T12", "T11", "T10", "T09", "T00", "T07",
          "T06", "T05", "T04", "T03", "T02", "T01"] := by
  decide

/-- C16, amended: after a non-deferred `load_current_preset` (which returns when `std::sort`
meets its contract and the effect indices and uniforms are valid), `_techniques` is a
permutation of its previous contents (each technique with its name and effect) ordered by
non-decreasing position of each technique's name in the ordering list, where the position of
a name absent from the list is the length of the list.  The relative order of techniques
with equal position is the one `std::sort` produces; its contract does not fix it. -/
theorem load_current_preset_order (lib : cxx_library) (env : environment)
    (preset : ini_file) (s : runtime) (hsort : std_sort_contract lib.sort)
    (hvalid : effect_indices_valid s) (huniforms : uniforms_valid s)
    (hnow : load_deferred preset s = false) :
    ∃ (s2 : runtime) (L : List technique),
      load_current_preset lib env preset s = some s2 ∧ L.Perm s._techniques ∧
      s2._techniques.map (fun T => (T.name, T.effect_index)) =
        L.map (fun T => (T.name, T.effect_index)) ∧
      s2._techniques.Pairwise (fun a b =>
        (ordering_list preset).indexOf a.name ≤ (ordering_list preset).indexOf b.name) ∧
      ∀ name, name ∉ ordering_list preset →
        (ordering_list preset).indexOf name = (ordering_list preset).length := by
  obtain ⟨s2, h2, htech, _⟩ := apply_preset_eq lib env preset s hsort hvalid huniforms
  obtain ⟨hperm, hsorted⟩ := hsort (technique_before (ordering_list preset)) s._techniques
    (technique_before_strict_weak _)
  refine ⟨s2, lib.sort (technique_before (ordering_list preset)) s._techniques,
    by simp only [load_current_preset, hnow, Bool.false_eq_true, if_false, h2], hperm, ?_, ?_,
    fun name h => List.indexOf_eq_length.mpr h⟩
  · rw [htech, List.map_map]
    apply List.map_congr_left
    intro T _
    obtain ⟨hname, hidx, _⟩ :=
      loaded_technique_kept preset (preset.get_strings "" "Techniques" []) s._loaded_effects T
    simp [hname, hidx]
  · rw [htech, List.pairwise_map]
    refine hsorted.imp ?_
    intro a b hab
    rw [(loaded_technique_kept preset _ s._loaded_effects a).1,
      (loaded_technique_kept preset _ s._loaded_effects b).1]
    simp only [technique_before, decide_eq_false_iff_not] at hab
    omega

/-- Witness of C16: the ordering list `[Glow, Tint]` on the techniques `Blur`, `Tint`,
`Glow`. -/
theorem load_current_preset_order_witness :
    ∃ s2, load_current_preset (demo_library stable_sort) (demo_env [])
        (demo_ini ["Tint"] ["Glow", "Tint"] []) demo_registry = some s2 ∧
      s2._techniques.map technique.name = ["Glow", "Tint", "Blur"] := by
  obtain ⟨s2, _, h2, _⟩ := load_current_preset_order (demo_library stable_sort) (demo_env [])
    (demo_ini ["Tint"] ["Glow", "Tint"] []) demo_registry stable_sort_contract
    (by unfold effect_indices_valid; decide) (by unfold uniforms_valid; decide) (by decide)
  refine ⟨s2, h2, ?_⟩
  have : (some s2).map (fun s => s._techniques.map technique.name) =
      some ["Glow", "Tint", "Blur"] := by
    rw [← h2]; decide
  simpa using this

/-! ### Reading back what `load_current_preset` writes -/

/-- The first lanes of memory only depend on its first bytes. -/
theorem bytes_lanes_take_append (k : Nat) (X rest : List Nat) (h : 4 * k ≤ X.length) :
    (bytes_lanes (X ++ rest)).take k = (bytes_lanes X).take k := by
  induction k generalizing X with
  | zero => simp
  | succ k ih =>
    match X, h with
    | b0 :: b1 :: b2 :: b3 :: X1, h =>
      have h1 : 4 * k ≤ X1.length := by simp at h; omega
      have := ih X1 h1
      simp only [List.cons_append, bytes_lanes, List.take_succ_cons]
      exact congrArg _ this
    | [], h => simp at h
    | [_], h => simp at h; omega
    | [_, _], h => simp at h; omega
    | [_, _, _], h => simp at h; omega

/-- The first lanes of a prefix of memory that is long enough. -/
theorem bytes_lanes_take_take (k m : Nat) (X : List Nat) (h : 4 * k ≤ m) (hm : m ≤ X.length) :
    (bytes_lanes (X.take m)).take k = (bytes_lanes X).take k := by
  have := bytes_lanes_take_append k (X.take m) (X.drop m) (by simp; omega)
  rw [List.take_append_drop] at this
  exact this.symm

/-- The raw getter copies the first bytes of the variable's storage range. -/
theorem get_uniform_value_raw_range (s : runtime) (var : uniform) (data : List Nat)
    (size : Nat)
    (hstorage : var.storage_offset + var.size ≤ s._uniform_data_storage.length)
    (hdata : min size var.size ≤ data.length) :
    get_uniform_value_raw s var data size =
      some ((range_bytes s var).take (min size var.size) ++ data.drop (min size var.size)) := by
  have hmin := Nat.min_le_right size var.size
  simp only [get_uniform_value_raw, range_bytes]
  rw [if_pos ⟨by omega, hdata⟩, List.take_take, Nat.min_eq_left hmin]

/-- The length of a variable's storage range. -/
theorem range_bytes_length (s : runtime) (var : uniform)
    (hstorage : var.storage_offset + var.size ≤ s._uniform_data_storage.length) :
    (range_bytes s var).length = var.size := by
  simp only [range_bytes, List.length_take, List.length_drop]
  omega

/-- The raw setter replaces the first bytes of the variable's storage range. -/
theorem set_uniform_value_raw_range (s : runtime) (var : uniform) (data : List Nat)
    (size : Nat)
    (hstorage : var.storage_offset + var.size ≤ s._uniform_data_storage.length)
    (hdata : min size var.size ≤ data.length) :
    ∃ s1, set_uniform_value_raw s var data size = some s1 ∧ outside_unchanged s s1 var ∧
      range_bytes s1 var =
        data.take (min size var.size) ++ (range_bytes s var).drop (min size var.size) := by
  have hmin := Nat.min_le_right size var.size
  obtain ⟨s1, h1, hframe⟩ := set_uniform_value_raw_frame s var data size hstorage hdata
  refine ⟨s1, h1, hframe, ?_⟩
  have heq := set_uniform_value_raw_eq s var data size (by omega) hdata
  rw [h1] at heq
  have hs1 := Option.some.inj heq
  have hstor : s1._uniform_data_storage =
      s._uniform_data_storage.take var.storage_offset ++ data.take (min size var.size) ++
        s._uniform_data_storage.drop (var.storage_offset + min size var.size) := by
    rw [hs1]
  have h1len : (s._uniform_data_storage.take var.storage_offset).length = var.storage_offset := by
    simp; omega
  have h3 : (s._uniform_data_storage.take var.storage_offset).drop var.storage_offset = [] := by
    apply List.drop_eq_nil_of_le
    omega
  have h2len : (data.take (min size var.size)).length = min size var.size := by
    simp only [List.length_take]; omega
  simp only [range_bytes]
  rw [hstor, List.append_assoc, List.drop_append_eq_append_drop, h3, List.nil_append, h1len,
    Nat.sub_self, List.drop_zero, List.take_append_eq_append_take, h2len,
    List.take_of_length_le (Nat.le_of_eq h2len |>.trans hmin), ← List.drop_drop, List.take_drop]
  congr 2
  rw [Nat.add_sub_cancel' hmin]

/-- The lanes of the memory of an array of lanes. -/
theorem bytes_lanes_of_lanes (xs : List Nat) :
    bytes_lanes (lanes_bytes xs) = xs.map (fun x => x % 4294967296) := by
  have := bytes_lanes_append xs []
  simpa [bytes_lanes] using this

/-- The first lanes the `int32_t` getter returns are the decoded first lanes of the
variable's storage range. -/
theorem get_uniform_value_int32_lanes (s : runtime) (var : uniform) (buffer : List Int)
    (n k : Nat)
    (hstorage : var.storage_offset + var.size ≤ s._uniform_data_storage.length)
    (hn : n ≤ buffer.length) (hk : k ≤ n) (hsize : 4 * k ≤ var.size) :
    ∃ out, get_uniform_value_int32 s var buffer n = some out ∧
      out.take k = ((bytes_lanes (range_bytes s var)).take k).map (int32_decode s var) := by
  have hrange := range_bytes_length s var hstorage
  unfold get_uniform_value_int32
  by_cases hraw : integer_storage s var = true
  · have hraw2 := hraw
    unfold integer_storage at hraw2
    rw [if_pos hraw2]
    have hm1 := Nat.min_le_left (n * 4) var.size
    have hm2 := Nat.min_le_right (n * 4) var.size
    rw [get_uniform_value_raw_range s var _ _ hstorage
      (by rw [lanes_bytes_length, List.length_map]; omega)]
    refine ⟨_, rfl, ?_⟩
    rw [← List.map_take, bytes_lanes_take_append k _ _
      (by
        rw [List.length_take, hrange, Nat.min_eq_left hm2]
        exact Nat.le_min.mpr ⟨by omega, hsize⟩),
      bytes_lanes_take_take k _ _ (Nat.le_min.mpr ⟨by omega, hsize⟩) (by omega)]
    apply List.map_congr_left
    intro lane _
    simp [int32_decode, hraw]
  · have hraw2 := hraw
    unfold integer_storage at hraw2
    rw [if_neg hraw2]
    have hcount : k ≤ min n (var.size / 4) := Nat.le_min.mpr ⟨hk, by omega⟩
    have hm1 := Nat.min_le_left n (var.size / 4)
    rw [get_uniform_value_raw_range s var _ _ hstorage (by simp)]
    simp only [Nat.min_self, List.drop_replicate, Nat.sub_self, List.replicate_zero,
      List.append_nil]
    rw [List.take_of_length_le (Nat.le_of_eq hrange), if_pos (by omega)]
    refine ⟨_, rfl, ?_⟩
    rw [List.take_append_of_le_length
      (by
        rw [List.length_map, List.length_take, bytes_lanes_length, hrange]
        omega),
      ← List.map_take, List.take_take, Nat.min_eq_left hcount]
    apply List.map_congr_left
    intro lane _
    simp [int32_decode, hraw]

/-- The first lanes the `uint32_t` getter returns are the decoded first lanes of the
variable's storage range. -/
theorem get_uniform_value_uint32_lanes (s : runtime) (var : uniform) (buffer : List Nat)
    (n k : Nat)
    (hstorage : var.storage_offset + var.size ≤ s._uniform_data_storage.length)
    (hn : n ≤ buffer.length) (hk : k ≤ n) (hsize : 4 * k ≤ var.size) :
    ∃ out, get_uniform_value_uint32 s var buffer n = some out ∧
      out.take k = ((bytes_lanes (range_bytes s var)).take k).map (uint32_decode s var) := by
  obtain ⟨out, hout, htake⟩ := get_uniform_value_int32_lanes s var (buffer.map bits_int32) n k
    hstorage (by simpa using hn) hk hsize
  simp only [get_uniform_value_uint32, hout]
  refine ⟨_, rfl, ?_⟩
  rw [← List.map_take, htake, List.map_map]
  rfl

/-- The first lanes the `float` getter returns for a float variable are the first lanes of
the variable's storage range. -/
theorem get_uniform_value_float_lanes (s : runtime) (var : uniform) (buffer : List Nat)
    (n k : Nat)
    (hstorage : var.storage_offset + var.size ≤ s._uniform_data_storage.length)
    (hfloat : var.type.is_floating_point = true)
    (hn : n ≤ buffer.length) (hk : k ≤ n) (hsize : 4 * k ≤ var.size) :
    ∃ out, get_uniform_value_float s var buffer n = some out ∧
      out.take k = (bytes_lanes (range_bytes s var)).take k := by
  have hrange := range_bytes_length s var hstorage
  unfold get_uniform_value_float
  simp only [hfloat, Bool.true_or, if_true]
  have hm1 := Nat.min_le_left (n * 4) var.size
  have hm2 := Nat.min_le_right (n * 4) var.size
  rw [get_uniform_value_raw_range s var _ _ hstorage (by rw [lanes_bytes_length]; omega)]
  refine ⟨_, rfl, ?_⟩
  rw [bytes_lanes_take_append k _ _
    (by
      rw [List.length_take, hrange, Nat.min_eq_left hm2]
      exact Nat.le_min.mpr ⟨by omega, hsize⟩),
    bytes_lanes_take_take k _ _ (Nat.le_min.mpr ⟨by omega, hsize⟩) (by omega)]

/-- After the raw setter stored at least `4 * k` bytes of an array of lanes, the first `k`
lanes of the variable's storage range are the first lanes of the array. -/
theorem set_uniform_value_raw_lanes (s : runtime) (var : uniform) (lanes : List Nat)
    (n k : Nat)
    (hstorage : var.storage_offset + var.size ≤ s._uniform_data_storage.length)
    (hn : n ≤ lanes.length) (hk : k ≤ n) (hsize : 4 * k ≤ var.size) :
    ∃ s1, set_uniform_value_raw s var (lanes_bytes lanes) (n * 4) = some s1 ∧
      outside_unchanged s s1 var ∧
      (bytes_lanes (range_bytes s1 var)).take k =
        (lanes.take k).map (fun x => x % 4294967296) := by
  have hm1 := Nat.min_le_left (n * 4) var.size
  have hm2 := Nat.min_le_right (n * 4) var.size
  have hlen := lanes_bytes_length lanes
  obtain ⟨s1, h1, hframe, hr⟩ := set_uniform_value_raw_range s var (lanes_bytes lanes) (n * 4)
    hstorage (by omega)
  refine ⟨s1, h1, hframe, ?_⟩
  rw [hr, bytes_lanes_take_append k _ _
    (by
      rw [List.length_take, hlen]
      exact Nat.le_min.mpr ⟨Nat.le_min.mpr ⟨by omega, hsize⟩, by omega⟩),
    bytes_lanes_take_take k _ _ (Nat.le_min.mpr ⟨by omega, hsize⟩) (by omega),
    bytes_lanes_of_lanes, List.map_take]

/-- After the `int32_t` setter, the first lanes of the variable's storage range are the
encoded first values. -/
theorem set_uniform_value_int32_lanes (s : runtime) (var : uniform) (values : List Int)
    (n k : Nat)
    (hstorage : var.storage_offset + var.size ≤ s._uniform_data_storage.length)
    (hn : n ≤ values.length) (hk : k ≤ n) (hsize : 4 * k ≤ var.size) :
    ∃ s1, set_uniform_value_int32 s var values n = some s1 ∧ outside_unchanged s s1 var ∧
      (bytes_lanes (range_bytes s1 var)).take k =
        (values.take k).map (int32_encode s var) := by
  unfold set_uniform_value_int32
  by_cases hraw : integer_storage s var = true
  · have hraw2 := hraw
    unfold integer_storage at hraw2
    rw [if_pos hraw2]
    obtain ⟨s1, h1, hframe, hl⟩ := set_uniform_value_raw_lanes s var (values.map int32_bits) n k
      hstorage (by simpa using hn) hk hsize
    refine ⟨s1, h1, hframe, ?_⟩
    rw [hl, ← List.map_take, List.map_map]
    apply List.map_congr_left
    intro x _
    have : int32_bits x < 4294967296 := by unfold int32_bits; omega
    simp [int32_encode, hraw, Nat.mod_eq_of_lt this]
  · have hraw2 := hraw
    unfold integer_storage at hraw2
    rw [if_neg hraw2, if_pos hn]
    obtain ⟨s1, h1, hframe, hl⟩ := set_uniform_value_raw_lanes s var
      ((values.take n).map int32_to_float) n k hstorage (by simp [hn]) hk hsize
    refine ⟨s1, h1, hframe, ?_⟩
    rw [hl, ← List.map_take, List.take_take, Nat.min_eq_left hk, List.map_map]
    apply List.map_congr_left
    intro x _
    simp [int32_encode, hraw]

/-- After the `uint32_t` setter, the first lanes of the variable's storage range are the
encoded first values. -/
theorem set_uniform_value_uint32_lanes (s : runtime) (var : uniform) (values : List Nat)
    (n k : Nat)
    (hstorage : var.storage_offset + var.size ≤ s._uniform_data_storage.length)
    (hn : n ≤ values.length) (hk : k ≤ n) (hsize : 4 * k ≤ var.size) :
    ∃ s1, set_uniform_value_uint32 s var values n = some s1 ∧ outside_unchanged s s1 var ∧
      (bytes_lanes (range_bytes s1 var)).take k =
        (values.take k).map (uint32_encode s var) := by
  unfold set_uniform_value_uint32
  by_cases hraw : integer_storage s var = true
  · have hraw2 := hraw
    unfold integer_storage at hraw2
    rw [if_pos hraw2]
    obtain ⟨s1, h1, hframe, hl⟩ := set_uniform_value_raw_lanes s var values n k
      hstorage hn hk hsize
    refine ⟨s1, h1, hframe, ?_⟩
    rw [hl]
    apply List.map_congr_left
    intro x _
    simp [uint32_encode, hraw]
  · have hraw2 := hraw
    unfold integer_storage at hraw2
    rw [if_neg hraw2, if_pos hn]
    obtain ⟨s1, h1, hframe, hl⟩ := set_uniform_value_raw_lanes s var
      ((values.take n).map uint32_to_float) n k hstorage (by simp [hn]) hk hsize
    refine ⟨s1, h1, hframe, ?_⟩
    rw [hl, ← List.map_take, List.take_take, Nat.min_eq_left hk, List.map_map]
    apply List.map_congr_left
    intro x _
    simp [uint32_encode, hraw]

/-- After the `float` setter on a float variable, the first lanes of the variable's storage
range are the first values. -/
theorem set_uniform_value_float_lanes (s : runtime) (var : uniform) (values : List Nat)
    (n k : Nat)
    (hstorage : var.storage_offset + var.size ≤ s._uniform_data_storage.length)
    (hfloat : var.type.is_floating_point = true)
    (hn : n ≤ values.length) (hk : k ≤ n) (hsize : 4 * k ≤ var.size) :
    ∃ s1, set_uniform_value_float s var values n = some s1 ∧ outside_unchanged s s1 var ∧
      (bytes_lanes (range_bytes s1 var)).take k =
        (values.take k).map (fun x => x % 4294967296) := by
  unfold set_uniform_value_float
  simp only [hfloat, Bool.true_or, if_true]
  exact set_uniform_value_raw_lanes s var values n k hstorage hn hk hsize

/-! ### Integers converted to `float` and back -/

/-- The function `highest_bit` finds the position of the highest set bit. -/
theorem highest_bit_spec (bits n : Nat) (hpos : 0 < n) (hlt : n < 2 ^ (bits + 1)) :
    2 ^ highest_bit bits n ≤ n ∧ n < 2 ^ (highest_bit bits n + 1) ∧
      highest_bit bits n ≤ bits := by
  induction bits generalizing n with
  | zero =>
    simp only [highest_bit]
    simp at hlt ⊢
    omega
  | succ bits ih =>
    unfold highest_bit
    by_cases h2 : n < 2
    · simp only [h2, if_true]
      simp
      omega
    · simp only [h2, if_false]
      have hhalf : n / 2 < 2 ^ (bits + 1) := by
        rw [pow_succ] at hlt
        omega
      obtain ⟨h1, h3, h4⟩ := ih (n / 2) (by omega) hhalf
      refine ⟨?_, ?_, by omega⟩
      · rw [pow_succ]; omega
      · rw [pow_succ]; omega

/-- The fields of a bit pattern assembled from an exponent and a fraction, without and with
the sign bit. -/
theorem float_fields (E frac : Nat) (hE : E < 256) (hfrac : frac < 8388608) :
    E * 8388608 + frac < 2147483648 ∧
    float_exponent (E * 8388608 + frac) = E ∧ float_fraction (E * 8388608 + frac) = frac ∧
    float_sign (E * 8388608 + frac) = false ∧
    float_exponent (2147483648 + (E * 8388608 + frac)) = E ∧
    float_fraction (2147483648 + (E * 8388608 + frac)) = frac ∧
    float_sign (2147483648 + (E * 8388608 + frac)) = true := by
  simp only [float_exponent, float_fraction, float_sign, beq_iff_eq, beq_eq_false_iff_ne]
  refine ⟨?_, ?_, ?_, ?_, ?_, ?_, ?_⟩ <;> omega

/-- The integer part of a `float` with a non-zero exponent field. -/
theorem float_abs_trunc_of_fields (f E frac : Nat) (hE : float_exponent f = E)
    (hfrac : float_fraction f = frac) (hE0 : E ≠ 0) :
    float_abs_trunc f =
      if 150 ≤ E then (8388608 + frac) * 2 ^ (E - 150) else (8388608 + frac) / 2 ^ (150 - E) := by
  unfold float_abs_trunc
  rw [hE, hfrac, if_neg hE0]

/-- The significand of the conversion of `n`, whose highest set bit is at position `e`. -/
theorem significand_exact (n e : Nat) (hlo : 2 ^ e ≤ n) (hhi : n < 2 ^ (e + 1))
    (hrep : ∀ j, 2 ^ (23 + j) ≤ n → n % 2 ^ j = 0) :
    ∃ q, 8388608 ≤ q ∧ q < 16777216 ∧
      (if e ≤ 23 then n * 2 ^ (23 - e) else round_shift n (e - 23)) = q ∧
      (if 150 ≤ e + 127 then q * 2 ^ (e + 127 - 150) else q / 2 ^ (150 - (e + 127))) = n := by
  by_cases h23 : e ≤ 23
  · refine ⟨n * 2 ^ (23 - e), ?_, ?_, by rw [if_pos h23], ?_⟩
    · calc 8388608 = 2 ^ e * 2 ^ (23 - e) := by
            rw [← pow_add, Nat.add_sub_cancel' h23]; norm_num
        _ ≤ n * 2 ^ (23 - e) := Nat.mul_le_mul_right _ hlo
    · calc n * 2 ^ (23 - e) < 2 ^ (e + 1) * 2 ^ (23 - e) :=
            Nat.mul_lt_mul_of_pos_right hhi (by positivity)
        _ = 16777216 := by
            rw [← pow_add, show e + 1 + (23 - e) = 24 by omega]; norm_num
    · by_cases he : e = 23
      · subst he
        simp
      · rw [if_neg (by omega), show 150 - (e + 127) = 23 - e by omega]
        exact Nat.mul_div_cancel _ (by positivity)
  · have hj : 23 + (e - 23) = e := by omega
    have hmod : n % 2 ^ (e - 23) = 0 := hrep (e - 23) (by rw [hj]; exact hlo)
    have hround : round_shift n (e - 23) = n / 2 ^ (e - 23) := by
      unfold round_shift
      rw [hmod, if_pos (by positivity)]
    refine ⟨n / 2 ^ (e - 23), ?_, ?_, by rw [if_neg h23, hround], ?_⟩
    · rw [Nat.le_div_iff_mul_le (by positivity),
        show (8388608 : Nat) = 2 ^ 23 by norm_num, ← pow_add, hj]
      exact hlo
    · rw [Nat.div_lt_iff_lt_mul (by positivity),
        show (16777216 : Nat) = 2 ^ 24 by norm_num, ← pow_add,
        show 24 + (e - 23) = e + 1 by omega]
      exact hhi
    · rw [if_pos (by omega), show e + 127 - 150 = e - 23 by omega]
      exact Nat.div_mul_cancel (Nat.dvd_of_mod_eq_zero hmod)

/-- A number that is a 24-bit significand times a power of two is converted to `float`
exactly: the conversion is a positive finite `float` whose integer part is the number, and
with the sign bit set it is the negative `float` with the same integer part. -/
theorem nat_to_float_exact (n : Nat) (hpos : 0 < n) (hlt : n < 4294967296)
    (hrep : ∀ j, 2 ^ (23 + j) ≤ n → n % 2 ^ j = 0) :
    nat_to_float n < 2147483648 ∧ float_exponent (nat_to_float n) ≠ 255 ∧
      float_sign (nat_to_float n) = false ∧
      float_abs_trunc (nat_to_float n) = n ∧
      float_exponent (2147483648 + nat_to_float n) ≠ 255 ∧
      float_sign (2147483648 + nat_to_float n) = true ∧
      float_abs_trunc (2147483648 + nat_to_float n) = n := by
  obtain ⟨hlo, hhi, he⟩ := highest_bit_spec 32 n hpos (by omega)
  generalize hb : highest_bit 32 n = e at hlo hhi he
  obtain ⟨q, hq1, hq2, hq, hval⟩ := significand_exact n e hlo hhi hrep
  have hbits : nat_to_float n = (e + 127) * 8388608 + (q - 8388608) := by
    unfold nat_to_float
    rw [if_neg (by omega), hb]
    by_cases h23 : e ≤ 23
    · rw [if_pos h23] at hq ⊢
      rw [hq]
    · rw [if_neg h23] at hq ⊢
      rw [hq]
  obtain ⟨f1, f2, f3, f4, f5, f6, f7⟩ := float_fields (e + 127) (q - 8388608) (by omega)
    (by omega)
  have hfrac : 8388608 + (q - 8388608) = q := by omega
  rw [hbits]
  refine ⟨f1, by rw [f2]; omega, f4, ?_, by rw [f5]; omega, f7, ?_⟩
  · rw [float_abs_trunc_of_fields _ _ _ f2 f3 (by omega), hfrac]
    exact hval
  · rw [float_abs_trunc_of_fields _ _ _ f5 f6 (by omega), hfrac]
    exact hval

/-- The integer part of a `float` has at most 24 significant bits. -/
theorem float_abs_trunc_rep (f j : Nat) (h : 2 ^ (23 + j) ≤ float_abs_trunc f) :
    float_abs_trunc f % 2 ^ j = 0 := by
  have hfrac : float_fraction f < 8388608 := by unfold float_fraction; omega
  have hpos : 0 < 2 ^ (23 + j) := by positivity
  unfold float_abs_trunc at h ⊢
  by_cases h0 : float_exponent f = 0
  · rw [if_pos h0] at h
    omega
  · rw [if_neg h0] at h ⊢
    by_cases h150 : 150 ≤ float_exponent f
    · rw [if_pos h150] at h ⊢
      have hlt : 2 ^ (23 + j) < 2 ^ (24 + (float_exponent f - 150)) := by
        calc 2 ^ (23 + j) ≤ (8388608 + float_fraction f) * 2 ^ (float_exponent f - 150) := h
          _ < 16777216 * 2 ^ (float_exponent f - 150) :=
            Nat.mul_lt_mul_of_pos_right (by omega) (by positivity)
          _ = 2 ^ (24 + (float_exponent f - 150)) := by rw [pow_add]; norm_num
      have hj : j ≤ float_exponent f - 150 := by
        have := (Nat.pow_lt_pow_iff_right (by norm_num : 1 < 2)).mp hlt
        omega
      exact Nat.mod_eq_zero_of_dvd (Dvd.dvd.mul_left (Nat.pow_dvd_pow 2 hj) _)
    · rw [if_neg h150] at h
      exfalso
      have h1 : (8388608 + float_fraction f) / 2 ^ (150 - float_exponent f) < 8388608 := by
        rw [Nat.div_lt_iff_lt_mul (by positivity)]
        have h2 : 2 ^ 1 ≤ 2 ^ (150 - float_exponent f) :=
          Nat.pow_le_pow_right (by norm_num) (by omega)
        calc 8388608 + float_fraction f < 8388608 * 2 ^ 1 := by omega
          _ ≤ 8388608 * 2 ^ (150 - float_exponent f) := Nat.mul_le_mul_left _ h2
      have h3 : 2 ^ 23 ≤ 2 ^ (23 + j) := Nat.pow_le_pow_right (by norm_num) (by omega)
      norm_num at h3
      omega

/-- The result of `static_cast<int32_t>` on a `float` has at most 24 significant bits. -/
theorem float_to_int32_rep (f j : Nat) (h : 2 ^ (23 + j) ≤ (float_to_int32 f).natAbs) :
    (float_to_int32 f).natAbs % 2 ^ j = 0 := by
  have hmin : ∀ x : Int, x = -2147483648 → 2 ^ (23 + j) ≤ x.natAbs → x.natAbs % 2 ^ j = 0 := by
    intro x hx hle
    subst hx
    have h31 : (-2147483648 : Int).natAbs = 2 ^ 31 := by decide
    rw [h31] at hle ⊢
    have := (Nat.pow_le_pow_iff_right (by norm_num : 1 < 2)).mp hle
    exact Nat.mod_eq_zero_of_dvd (Nat.pow_dvd_pow 2 (by omega))
  unfold float_to_int32 at h ⊢
  split_ifs at h ⊢
  · exact hmin _ rfl h
  · rw [Int.natAbs_neg, Int.natAbs_ofNat] at h ⊢
    exact float_abs_trunc_rep f j h
  · exact hmin _ rfl h
  · rw [Int.natAbs_ofNat] at h ⊢
    exact float_abs_trunc_rep f j h
  · exact hmin _ rfl h

/-- An `int32_t` with at most 24 significant bits is converted to `float` and back without
change. -/
theorem int32_float_roundtrip (x : Int) (hlo : -2147483648 ≤ x) (hhi : x < 2147483648)
    (hrep : ∀ j, 2 ^ (23 + j) ≤ x.natAbs → x.natAbs % 2 ^ j = 0) :
    int32_to_float x < 4294967296 ∧ float_to_int32 (int32_to_float x) = x := by
  unfold int32_to_float
  by_cases hneg : x < 0
  · rw [if_pos hneg]
    have hn : (-x).toNat = x.natAbs := by omega
    rw [hn]
    obtain ⟨h1, _, _, _, h5, h6, h7⟩ := nat_to_float_exact x.natAbs (by omega) (by omega) hrep
    refine ⟨by omega, ?_⟩
    unfold float_to_int32
    rw [if_neg h5, h6, if_pos rfl, h7, if_pos (by omega)]
    omega
  · rw [if_neg hneg]
    have hn : x.toNat = x.natAbs := by omega
    rw [hn]
    by_cases h0 : x = 0
    · subst h0
      exact ⟨by decide, by decide⟩
    · obtain ⟨h1, h2, h3, h4, _⟩ := nat_to_float_exact x.natAbs (by omega) (by omega) hrep
      refine ⟨by omega, ?_⟩
      unfold float_to_int32
      rw [if_neg h2, h3, if_neg (by simp), h4, if_pos (by omega)]
      omega

/-! ### Values converted into the preset store and back -/

/-- The lanes of memory are unsigned 32-bit numbers. -/
theorem bytes_lanes_lt (l : List Nat) : ∀ lane ∈ bytes_lanes l, lane < 4294967296 := by
  induction l using bytes_lanes.induct with
  | case1 b0 b1 b2 b3 rest ih =>
    intro lane hlane
    rw [bytes_lanes, List.mem_cons] at hlane
    rcases hlane with h | h
    · subst h
      unfold bytes_uint32
      omega
    · exact ih lane h
  | case2 l h =>
    intro lane hlane
    rw [bytes_lanes] at hlane
    · simp at hlane
    · exact h

/-- Whether the integer overloads copy bytes only depends on the backend. -/
theorem integer_storage_congr (s s1 : runtime) (var : uniform)
    (h : s1._renderer_id = s._renderer_id) :
    integer_storage s1 var = integer_storage s var := by
  unfold integer_storage
  rw [h]

/-- The `int32_t` the getter returns for a lane is an `int32_t`. -/
theorem int32_decode_range (s : runtime) (var : uniform) (lane : Nat) :
    -2147483648 ≤ int32_decode s var lane ∧ int32_decode s var lane < 2147483648 := by
  unfold int32_decode
  split
  · unfold bits_int32
    split <;> omega
  · exact float_to_int32_range lane

/-- An `int32_t` read from a lane, written to the preset store, read back from it and stored
by the setter is read by the getter as the same `int32_t`. -/
theorem int32_decode_encode (s s1 : runtime) (var : uniform) (lane : Nat)
    (h : s1._renderer_id = s._renderer_id) :
    int32_decode s1 var
        (int32_encode s1 var (bits_int32 (int32_bits (int32_decode s var lane)))) =
      int32_decode s var lane := by
  obtain ⟨hlo, hhi⟩ := int32_decode_range s var lane
  rw [bits_int32_bits _ hlo hhi]
  unfold int32_decode int32_encode at *
  rw [integer_storage_congr s s1 var h]
  by_cases hraw : integer_storage s var = true
  · simp only [if_pos hraw] at hlo hhi ⊢
    exact bits_int32_bits _ hlo hhi
  · simp only [if_neg hraw] at hlo hhi ⊢
    obtain ⟨hlt, hback⟩ := int32_float_roundtrip (float_to_int32 lane) hlo hhi
      (fun j => float_to_int32_rep lane j)
    have hfloor : float_to_int32 (int32_to_float (float_to_int32 lane) % 4294967296) =
        float_to_int32 (int32_to_float (float_to_int32 lane)) := by
      rw [Nat.mod_eq_of_lt hlt]
    rw [hfloor, hback]

/-- A `uint32_t` read from a lane, written to the preset store, read back from it and stored
by the setter is read by the getter as the same `uint32_t`: on a backend with integer storage
always, with `float` storage when `static_cast<int32_t>` of the lane is not a negative number
other than `0x80000000`. -/
theorem uint32_decode_encode (s s1 : runtime) (var : uniform) (lane : Nat)
    (h : s1._renderer_id = s._renderer_id)
    (hok : integer_storage s var = true ∨ 0 ≤ float_to_int32 lane ∨
      float_to_int32 lane = -2147483648) :
    uint32_decode s1 var
        (uint32_encode s1 var (int32_bits (Int.ofNat (uint32_decode s var lane)))) =
      uint32_decode s var lane := by
  obtain ⟨hlo, hhi⟩ := int32_decode_range s var lane
  have hu : uint32_decode s var lane < 4294967296 := by
    unfold uint32_decode int32_bits
    omega
  have hwrap : int32_bits (Int.ofNat (uint32_decode s var lane)) = uint32_decode s var lane := by
    generalize uint32_decode s var lane = u at hu
    unfold int32_bits
    simp only [Int.ofNat_eq_coe]
    omega
  rw [hwrap]
  unfold uint32_decode uint32_encode int32_decode at *
  rw [integer_storage_congr s s1 var h]
  by_cases hraw : integer_storage s var = true
  · simp only [if_pos hraw] at hlo hhi hu ⊢
    rw [Nat.mod_eq_of_lt hu, bits_int32_bits _ hlo hhi]
  · simp only [if_neg hraw] at hlo hhi hu ⊢
    rcases hok with hok | hpos | hmin
    · exact absurd hok hraw
    · obtain ⟨hlt, hback⟩ := int32_float_roundtrip (float_to_int32 lane) hlo hhi
        (fun j => float_to_int32_rep lane j)
      have hconv : uint32_to_float (int32_bits (float_to_int32 lane)) % 4294967296 =
          int32_to_float (float_to_int32 lane) := by
        unfold uint32_to_float
        rw [Nat.mod_eq_of_lt hu]
        unfold int32_to_float at hlt ⊢
        rw [if_neg (by omega)] at hlt ⊢
        have : int32_bits (float_to_int32 lane) = (float_to_int32 lane).toNat := by
          unfold int32_bits
          omega
        rw [this, Nat.mod_eq_of_lt hlt]
      rw [hconv, hback]
    · rw [hmin]
      decide

/-- The value of a uniform in terms of the lanes of its storage range. -/
theorem uniform_value_eq (s : runtime) (var : uniform)
    (hstorage : var.storage_offset + var.size ≤ s._uniform_data_storage.length)
    (hk : var.type.components ≤ 16) (hsize : 4 * var.type.components ≤ var.size) :
    uniform_value s var = some (lanes_value s var (component_lanes s var)) := by
  unfold uniform_value lanes_value component_lanes
  cases hb : var.type.base
  · obtain ⟨out, hout, htake⟩ := get_uniform_value_uint32_lanes s var (List.replicate 16 0) 16
      var.type.components hstorage (by simp) hk hsize
    simp only [hout, Option.map_some', htake]
  · obtain ⟨out, hout, htake⟩ := get_uniform_value_int32_lanes s var (List.replicate 16 0) 16
      var.type.components hstorage (by simp) hk hsize
    simp only [hout, Option.map_some', htake]
  · obtain ⟨out, hout, htake⟩ := get_uniform_value_uint32_lanes s var (List.replicate 16 0) 16
      var.type.components hstorage (by simp) hk hsize
    simp only [hout, Option.map_some', htake]
  · obtain ⟨out, hout, htake⟩ := get_uniform_value_float_lanes s var (List.replicate 16 0) 16
      var.type.components hstorage (by unfold type.is_floating_point; rw [hb])
      (by simp) hk hsize
    simp only [hout, Option.map_some', htake]

/-- The first elements of an array read from a stored sequence that fills them. -/
theorem take_range_map_getD {α β : Type} (f : α → β) (d : α) (l : List α) (n : Nat)
    (h : l.length ≤ n) :
    ((List.range n).map (fun i => f (l.getD i d))).take l.length = l.map f := by
  apply List.ext_getElem
  · simp [h]
  · intro i h1 h2
    have hi : i < l.length := by simpa using h2
    simp [List.getD_eq_getElem?_getD, List.getElem?_eq_getElem hi]

/-- The bytes of a variable's storage range are not changed by a write to a variable whose
storage range does not overlap it. -/
theorem range_bytes_outside (s s1 : runtime) (w var : uniform)
    (h : outside_unchanged s s1 w) (hd : storage_disjoint w var) :
    range_bytes s1 var = range_bytes s var := by
  unfold range_bytes
  apply List.ext_getElem?
  intro i
  rw [List.getElem?_take, List.getElem?_take]
  split
  · rw [List.getElem?_drop, List.getElem?_drop]
    apply h.2.2
    unfold storage_disjoint at hd
    omega
  · rfl

/-- One iteration of the loop over the uniforms, outside a transition, for a uniform whose
entry in the preset store is a value read from lanes on the same backend: afterwards the
uniform has that value. -/
theorem load_uniform_value (lib : cxx_library) (env : environment) (preset : ini_file)
    (left total : Int) (s0 s : runtime) (var : uniform) (effect : effect_data) (L : List Nat)
    (hstorage : var.storage_offset + var.size ≤ s._uniform_data_storage.length)
    (hk : var.type.components ≤ 16) (hsize : 4 * var.type.components ≤ var.size)
    (heffect : s._loaded_effects[var.effect_index]? = some effect)
    (hentry : preset (env.filename effect.source_file) var.name = some (lanes_value s0 var L))
    (hlen : L.length = var.type.components) (hlanes : ∀ lane ∈ L, lane < 4294967296)
    (hok : var.type.base ≠ datatype.t_int → var.type.base ≠ datatype.t_float →
      ∀ lane ∈ L, integer_storage s0 var = true ∨ 0 ≤ float_to_int32 lane ∨
        float_to_int32 lane = -2147483648)
    (hrenderer : s._renderer_id = s0._renderer_id)
    (htransition : s._is_in_between_presets_transition = false) :
    ∃ s1, load_uniform lib env preset left total s var = some s1 ∧
      outside_unchanged s s1 var ∧ uniform_value s1 var = some (lanes_value s0 var L) := by
  have hvalue : ∀ s1, outside_unchanged s s1 var →
      uniform_value s1 var = some (lanes_value s1 var (component_lanes s1 var)) := by
    intro s1 h1
    exact uniform_value_eq s1 var (by rw [h1.2.1]; exact hstorage) hk hsize
  have hr1 : ∀ s1, outside_unchanged s s1 var → s1._renderer_id = s0._renderer_id := by
    intro s1 h1
    rw [h1.1]
    exact hrenderer
  obtain ⟨gint, guint, gfloat⟩ := ini_get_length preset (env.filename effect.source_file)
    var.name
  unfold load_uniform
  rw [heffect]
  simp only
  have huint : var.type.base ≠ datatype.t_int → var.type.base ≠ datatype.t_float →
      lanes_value s0 var L =
        ini_value.numbers ((L.map (uint32_decode s0 var)).map Int.ofNat) →
      (∀ s1, lanes_value s1 var (component_lanes s1 var) =
        ini_value.numbers (((component_lanes s1 var).map (uint32_decode s1 var)).map
          Int.ofNat)) →
      ∃ s1,
        (match get_uniform_value_uint32 s var (List.replicate 16 0) 16 with
          | none => none
          | some values =>
            set_uniform_value_uint32 s var
              (preset.get_uint32 (env.filename effect.source_file) var.name values) 16) =
          some s1 ∧
        outside_unchanged s s1 var ∧ uniform_value s1 var = some (lanes_value s0 var L) := by
    intro hb1 hb2 hv0 hv1
    obtain ⟨out, hout, holen⟩ := get_uniform_value_uint32_length s var (List.replicate 16 0) 16
      hstorage (by simp)
    simp only [hout]
    have hnew : (preset.get_uint32 (env.filename effect.source_file) var.name out).take
        var.type.components =
        ((L.map (uint32_decode s0 var)).map Int.ofNat).map int32_bits := by
      unfold ini_file.get_uint32
      rw [hentry, hv0]
      simp only
      have := take_range_map_getD int32_bits 0
        ((L.map (uint32_decode s0 var)).map Int.ofNat) out.length
        (by simp [holen, hlen, hk])
      rw [List.length_map, List.length_map, hlen] at this
      exact this
    obtain ⟨s1, h1, hframe, hl⟩ := set_uniform_value_uint32_lanes s var
      (preset.get_uint32 (env.filename effect.source_file) var.name out) 16
      var.type.components hstorage (by rw [guint, holen]; simp) hk hsize
    refine ⟨s1, h1, hframe, ?_⟩
    rw [hvalue s1 hframe, hv0, hv1 s1]
    simp only [component_lanes, hl, hnew, List.map_map]
    congr 2
    apply List.map_congr_left
    intro lane hlane
    simp only [Function.comp_apply]
    have he : uint32_encode s var = uint32_encode s1 var := by
      funext x
      unfold uint32_encode
      rw [integer_storage_congr s s1 var (by rw [hframe.1])]
    rw [he]
    exact congrArg Int.ofNat
      (uint32_decode_encode s0 s1 var lane (hr1 s1 hframe) (hok hb1 hb2 lane hlane))
  cases hb : var.type.base
  case t_int =>
    obtain ⟨out, hout, holen⟩ := get_uniform_value_int32_length s var (List.replicate 16 0) 16
      hstorage (by simp)
    simp only [hout]
    have hnew : (preset.get_int32 (env.filename effect.source_file) var.name out).take
        var.type.components =
        (L.map (int32_decode s0 var)).map (fun x => bits_int32 (int32_bits x)) := by
      unfold ini_file.get_int32
      rw [hentry]
      simp only [lanes_value, hb]
      have := take_range_map_getD (fun x => bits_int32 (int32_bits x)) 0
        (L.map (int32_decode s0 var)) out.length (by simp [holen, hlen, hk])
      rw [List.length_map, hlen] at this
      exact this
    obtain ⟨s1, h1, hframe, hl⟩ := set_uniform_value_int32_lanes s var
      (preset.get_int32 (env.filename effect.source_file) var.name out) 16
      var.type.components hstorage (by rw [gint, holen]; simp) hk hsize
    refine ⟨s1, h1, hframe, ?_⟩
    rw [hvalue s1 hframe]
    simp only [lanes_value, hb, component_lanes, hl, hnew, List.map_map]
    congr 2
    apply List.map_congr_left
    intro lane _
    simp only [Function.comp_apply]
    have he : int32_encode s var = int32_encode s1 var := by
      funext x
      unfold int32_encode
      rw [integer_storage_congr s s1 var (by rw [hframe.1])]
    rw [he]
    exact int32_decode_encode s0 s1 var lane (hr1 s1 hframe)
  case t_float =>
    obtain ⟨out, hout, holen⟩ := get_uniform_value_float_length s var (List.replicate 16 0) 16
      hstorage (by simp)
    simp only [hout, htransition, Bool.false_eq_true, if_false]
    have hfloat : var.type.is_floating_point = true := by
      unfold type.is_floating_point; rw [hb]
    have hnew : (preset.get_float (env.filename effect.source_file) var.name out).take
        var.type.components = L.map (fun x => x % 4294967296) := by
      unfold ini_file.get_float
      rw [hentry]
      simp only [lanes_value, hb]
      have := take_range_map_getD (fun x => x % 4294967296) 0 L out.length
        (by simp [holen, hlen, hk])
      rw [hlen] at this
      exact this
    obtain ⟨s1, h1, hframe, hl⟩ := set_uniform_value_float_lanes s var
      (preset.get_float (env.filename effect.source_file) var.name out) 16
      var.type.components hstorage hfloat (by rw [gfloat, holen]; simp) hk hsize
    refine ⟨s1, h1, hframe, ?_⟩
    rw [hvalue s1 hframe]
    simp only [lanes_value, hb, component_lanes, hl, hnew, List.map_map]
    congr 2
    conv_rhs => rw [← List.map_id L]
    apply List.map_congr_left
    intro lane hlane
    have := hlanes lane hlane
    simp only [Function.comp_apply, id]
    omega
  case t_bool =>
    exact huint (by rw [hb]; simp) (by rw [hb]; simp) (by simp only [lanes_value, hb])
      (fun s1 => by simp only [lanes_value, hb])
  case t_uint =>
    exact huint (by rw [hb]; simp) (by rw [hb]; simp) (by simp only [lanes_value, hb])
      (fun s1 => by simp only [lanes_value, hb])

/-- The value of a uniform only depends on the backend and on the bytes of its storage
range. -/
theorem uniform_value_congr (s s1 : runtime) (var : uniform)
    (hstorage : var.storage_offset + var.size ≤ s._uniform_data_storage.length)
    (hlength : s1._uniform_data_storage.length = s._uniform_data_storage.length)
    (hk : var.type.components ≤ 16) (hsize : 4 * var.type.components ≤ var.size)
    (hrenderer : s1._renderer_id = s._renderer_id)
    (hrange : range_bytes s1 var = range_bytes s var) :
    uniform_value s1 var = uniform_value s var := by
  rw [uniform_value_eq s var hstorage hk hsize,
    uniform_value_eq s1 var (by rw [hlength]; exact hstorage) hk hsize]
  have hd : int32_decode s1 var = int32_decode s var := by
    funext lane
    unfold int32_decode
    rw [integer_storage_congr s s1 var hrenderer]
  have hu : uint32_decode s1 var = uint32_decode s var := by
    funext lane
    unfold uint32_decode
    rw [hd]
  unfold lanes_value component_lanes
  rw [hrange, hd, hu]

/-- The declared components of a valid uniform have a lane each. -/
theorem component_lanes_length (s : runtime) (var : uniform)
    (hstorage : var.storage_offset + var.size ≤ s._uniform_data_storage.length)
    (hsize : 4 * var.type.components ≤ var.size) :
    (component_lanes s var).length = var.type.components := by
  unfold component_lanes
  rw [List.length_take, bytes_lanes_length, range_bytes_length s var hstorage]
  omega

/-- The loop over the uniforms, outside a transition and over uniforms with storage ranges
that do not overlap: every uniform whose entry in the preset store is the value it has in the
state `s0` (on the same backend) has that value afterwards. -/
theorem load_uniforms_value (lib : cxx_library) (env : environment) (preset : ini_file)
    (left total : Int) (s0 : runtime) (vars : List uniform) (s : runtime)
    (hdisjoint : vars.Pairwise storage_disjoint)
    (hvalid : ∀ var ∈ vars,
      var.storage_offset + var.size ≤ s._uniform_data_storage.length ∧
        var.effect_index < s._loaded_effects.length)
    (hshape : ∀ var ∈ vars, var.type.components ≤ 16 ∧ 4 * var.type.components ≤ var.size)
    (hrenderer : s._renderer_id = s0._renderer_id)
    (heffects : s._loaded_effects = s0._loaded_effects)
    (hlength : s._uniform_data_storage.length = s0._uniform_data_storage.length)
    (htransition : s._is_in_between_presets_transition = false) :
    ∃ s1, load_uniforms lib env preset left total s vars = some s1 ∧ storage_only s s1 ∧
      (∀ var, (∀ w ∈ vars, storage_disjoint w var) → range_bytes s1 var = range_bytes s var) ∧
      ∀ var ∈ vars,
        (∀ effect, s0._loaded_effects[var.effect_index]? = some effect →
          preset (env.filename effect.source_file) var.name =
            some (lanes_value s0 var (component_lanes s0 var))) →
        (var.type.base ≠ datatype.t_int → var.type.base ≠ datatype.t_float →
          ∀ lane ∈ component_lanes s0 var,
            integer_storage s0 var = true ∨ 0 ≤ float_to_int32 lane ∨
              float_to_int32 lane = -2147483648) →
        uniform_value s1 var = some (lanes_value s0 var (component_lanes s0 var)) := by
  induction vars generalizing s with
  | nil => exact ⟨s, rfl, ⟨rfl, rfl⟩, fun _ _ => rfl, fun var hvar => by simp at hvar⟩
  | cons v rest ih =>
    obtain ⟨hdv, hdrest⟩ := List.pairwise_cons.mp hdisjoint
    obtain ⟨hs, he⟩ := hvalid v (List.mem_cons_self _ _)
    obtain ⟨hk, hsize⟩ := hshape v (List.mem_cons_self _ _)
    obtain ⟨s1, h1, hframe⟩ := load_uniform_frame lib env preset left total s v hs he
    have hs1 : s1 = { s with _uniform_data_storage := s1._uniform_data_storage } := hframe.1
    have hlen1 : s1._uniform_data_storage.length = s._uniform_data_storage.length := hframe.2.1
    obtain ⟨s2, h2, hso2, hrange2, hvalue2⟩ := ih s1 hdrest
      (by
        intro w hw
        obtain ⟨hws, hwe⟩ := hvalid w (List.mem_cons_of_mem _ hw)
        rw [hlen1, hs1]
        exact ⟨hws, hwe⟩)
      (fun w hw => hshape w (List.mem_cons_of_mem _ hw))
      (by rw [hs1]; exact hrenderer) (by rw [hs1]; exact heffects)
      (by rw [hlen1]; exact hlength) (by rw [hs1]; exact htransition)
    have hs2 : s2 = { s1 with _uniform_data_storage := s2._uniform_data_storage } := hso2.1
    have hlen2 : s2._uniform_data_storage.length = s1._uniform_data_storage.length := hso2.2
    refine ⟨s2, by simp only [load_uniforms, h1, h2], ⟨?_, hlen2.trans hlen1⟩, ?_, ?_⟩
    · rw [hs2, hs1]
    · intro var hvar
      rw [hrange2 var (fun w hw => hvar w (List.mem_cons_of_mem _ hw))]
      exact range_bytes_outside s s1 v var hframe (hvar v (List.mem_cons_self _ _))
    · intro var hvar hentry hok
      rcases List.mem_cons.mp hvar with hv | hv
      · subst hv
        obtain ⟨effect, heffect⟩ : ∃ effect, s._loaded_effects[var.effect_index]? = some effect :=
          ⟨_, List.getElem?_eq_getElem he⟩
        have hs0 : var.storage_offset + var.size ≤ s0._uniform_data_storage.length := by
          rw [← hlength]; exact hs
        obtain ⟨s1', h1', _, hvalue⟩ := load_uniform_value lib env preset left total s0 s var
          effect (component_lanes s0 var) hs hk hsize heffect
          (hentry effect (by rw [← heffects]; exact heffect))
          (component_lanes_length s0 var hs0 hsize)
          (fun lane hlane => bytes_lanes_lt _ lane (List.mem_of_mem_take hlane))
          hok hrenderer htransition
        rw [h1] at h1'
        have heq : s1 = s1' := Option.some.inj h1'
        rw [← heq] at hvalue
        rw [← hvalue]
        exact uniform_value_congr s1 s2 var (by rw [hlen1]; exact hs) hlen2 hk hsize
          (by rw [hs2])
          (hrange2 var (fun w hw => (hdv w hw).symm))
      · exact hvalue2 var hv hentry hok

/-! ### What `save_current_preset` writes -/

/-- The lists built by the loop over the techniques in `save_current_preset`: the names of
the enabled techniques, the names of all techniques, and the effects of the techniques that
are enabled or have a toggle key. -/
theorem save_technique_lists (l : List technique) (init : save_lists) :
    (l.foldl save_technique init).technique_list =
        init.technique_list ++ (l.filter technique.enabled).map technique.name ∧
      (l.foldl save_technique init).sorted_technique_list =
        init.sorted_technique_list ++ l.map technique.name ∧
      ∀ e, e ∈ (l.foldl save_technique init).effect_list ↔
        e ∈ init.effect_list ∨
          ∃ T ∈ l, (T.enabled || T.toggle_key_data.getD 0 0 != 0) = true ∧ T.effect_index = e := by
  induction l generalizing init with
  | nil => simp
  | cons T rest ih =>
    obtain ⟨h1, h2, h3⟩ := ih (save_technique init T)
    rw [List.foldl_cons]
    refine ⟨?_, ?_, ?_⟩
    · rw [h1]
      cases hen : T.enabled <;> simp [save_technique, hen, List.filter_cons]
    · rw [h2]
      simp [save_technique]
    · intro e
      rw [h3 e]
      by_cases hc : (T.enabled || T.toggle_key_data.getD 0 0 != 0) = true
      · have hm : e ∈ (save_technique init T).effect_list ↔
            e ∈ init.effect_list ∨ T.effect_index = e := by
          simp only [save_technique, hc, if_true, List.mem_append, List.mem_singleton]
          exact or_congr Iff.rfl eq_comm
        rw [hm]
        simp only [List.mem_cons, exists_eq_or_imp, hc, true_and]
        tauto
      · have hm : e ∈ (save_technique init T).effect_list ↔ e ∈ init.effect_list := by
          simp only [save_technique, hc, if_false, Bool.false_eq_true]
        rw [hm]
        simp only [List.mem_cons, exists_eq_or_imp, hc, Bool.false_eq_true, false_and, false_or]

/-- An entry of the preset store after `set`. -/
theorem ini_file_set_get (file : ini_file) (section_name key : String) (value : ini_value)
    (s k : String) :
    file.set section_name key value s k =
      if s = section_name ∧ k = key then some value else file s k := rfl

/-- One iteration of the loop over the uniforms in `save_current_preset`, for a valid
uniform: the value of the uniform is stored under its key unless the uniform is special or
its effect is not in the list of effects. -/
theorem save_uniform_eq (env : environment) (s : runtime) (effect_list : List Nat)
    (preset : ini_file) (var : uniform)
    (hstorage : var.storage_offset + var.size ≤ s._uniform_data_storage.length)
    (heffect : var.effect_index < s._loaded_effects.length)
    (hk : var.type.components ≤ 16) (hsize : 4 * var.type.components ≤ var.size) :
    save_uniform env s effect_list preset var =
      some (if (var.special != 0 || decide (var.effect_index ∉ effect_list)) = true then preset
        else preset.set (uniform_key env s var).1 (uniform_key env s var).2
          (lanes_value s var (component_lanes s var))) := by
  have hvalue := uniform_value_eq s var hstorage hk hsize
  unfold save_uniform
  by_cases hc : (var.special != 0 || decide (var.effect_index ∉ effect_list)) = true
  · rw [if_pos hc, if_pos hc]
  · rw [if_neg hc, if_neg hc]
    unfold uniform_key
    rw [List.getElem?_eq_getElem heffect]
    simp only
    rw [if_pos hk]
    unfold uniform_value at hvalue
    cases hb : var.type.base <;> simp only [hb] at hvalue ⊢
    · cases hg : get_uniform_value_uint32 s var (List.replicate 16 0) 16 <;>
        simp only [hg, Option.map_some', Option.map_none'] at hvalue ⊢
      · exact absurd hvalue (by simp)
      · rw [Option.some.inj hvalue]
    · cases hg : get_uniform_value_int32 s var (List.replicate 16 0) 16 <;>
        simp only [hg, Option.map_some', Option.map_none'] at hvalue ⊢
      · exact absurd hvalue (by simp)
      · rw [Option.some.inj hvalue]
    · cases hg : get_uniform_value_uint32 s var (List.replicate 16 0) 16 <;>
        simp only [hg, Option.map_some', Option.map_none'] at hvalue ⊢
      · exact absurd hvalue (by simp)
      · rw [Option.some.inj hvalue]
    · cases hg : get_uniform_value_float s var (List.replicate 16 0) 16 <;>
        simp only [hg, Option.map_some', Option.map_none'] at hvalue ⊢
      · exact absurd hvalue (by simp)
      · rw [Option.some.inj hvalue]

/-- The loop over the uniforms in `save_current_preset`, over valid uniforms: it returns;
an entry that is the key of no written uniform stays, and the entry under the key of a
written uniform is the value of that uniform when no other written uniform has the key. -/
theorem save_uniforms_entries (env : environment) (s : runtime) (effect_list : List Nat)
    (vars : List uniform) (preset : ini_file)
    (hvalid : ∀ var ∈ vars,
      var.storage_offset + var.size ≤ s._uniform_data_storage.length ∧
        var.effect_index < s._loaded_effects.length)
    (hshape : ∀ var ∈ vars, var.type.components ≤ 16 ∧ 4 * var.type.components ≤ var.size) :
    ∃ preset1, save_uniforms env s effect_list preset vars = some preset1 ∧
      (∀ section_name key,
        (∀ var ∈ vars, (var.special != 0 || decide (var.effect_index ∉ effect_list)) = false →
          uniform_key env s var ≠ (section_name, key)) →
        preset1 section_name key = preset section_name key) ∧
      ∀ var ∈ vars, (var.special != 0 || decide (var.effect_index ∉ effect_list)) = false →
        (∀ w ∈ vars, (w.special != 0 || decide (w.effect_index ∉ effect_list)) = false →
          uniform_key env s w = uniform_key env s var → w = var) →
        preset1 (uniform_key env s var).1 (uniform_key env s var).2 =
          some (lanes_value s var (component_lanes s var)) := by
  induction vars generalizing preset with
  | nil => exact ⟨preset, rfl, fun _ _ _ => rfl, fun var hvar => by simp at hvar⟩
  | cons v rest ih =>
    obtain ⟨hs, he⟩ := hvalid v (List.mem_cons_self _ _)
    obtain ⟨hk, hsize⟩ := hshape v (List.mem_cons_self _ _)
    have h1 := save_uniform_eq env s effect_list preset v hs he hk hsize
    obtain ⟨preset1, h2, hframe, hentries⟩ := ih
      (if (v.special != 0 || decide (v.effect_index ∉ effect_list)) = true then preset
        else preset.set (uniform_key env s v).1 (uniform_key env s v).2
          (lanes_value s v (component_lanes s v)))
      (fun w hw => hvalid w (List.mem_cons_of_mem _ hw))
      (fun w hw => hshape w (List.mem_cons_of_mem _ hw))
    refine ⟨preset1, by simp only [save_uniforms, h1, h2], ?_, ?_⟩
    · intro section_name key hkey
      rw [hframe section_name key (fun w hw => hkey w (List.mem_cons_of_mem _ hw))]
      by_cases hc : (v.special != 0 || decide (v.effect_index ∉ effect_list)) = true
      · rw [if_pos hc]
      · rw [if_neg hc, ini_file_set_get, if_neg]
        intro hsk
        have := hkey v (List.mem_cons_self _ _) (by simpa using hc)
        exact this (Prod.ext hsk.1.symm hsk.2.symm)
    · intro var hvar hsaved hinj
      by_cases hrest : var ∈ rest
      · exact hentries var hrest hsaved
          (fun w hw hws hwk => hinj w (List.mem_cons_of_mem _ hw) hws hwk)
      · have hv : var = v := by
          rcases List.mem_cons.mp hvar with h | h
          · exact h
          · exact absurd h hrest
        subst hv
        rw [hframe _ _ (fun w hw hws hwk => hrest (by
          have := hinj w (List.mem_cons_of_mem _ hw) hws hwk
          rw [← this]
          exact hw))]
        rw [if_neg (by rw [hsaved]; simp), ini_file_set_get, if_pos ⟨rfl, rfl⟩]

/-- The preset store after `save_current_preset`, for valid uniforms whose keys are distinct
and lie in sections with a name: it holds the names of the enabled techniques, the names of
all techniques in their order, the preprocessor definitions, and the value of every uniform
that is written. -/
theorem save_current_preset_entries (env : environment) (s : runtime) (preset : ini_file)
    (huniforms : uniforms_valid s)
    (hshape : ∀ var ∈ s._uniforms,
      var.type.components ≤ 16 ∧ 4 * var.type.components ≤ var.size)
    (hsection : ∀ var ∈ s._uniforms, uniform_saved s var = true →
      (uniform_key env s var).1 ≠ "")
    (hkeys : ∀ v ∈ s._uniforms, ∀ w ∈ s._uniforms, uniform_saved s v = true →
      uniform_saved s w = true → uniform_key env s w = uniform_key env s v → w = v) :
    ∃ preset1, save_current_preset env s preset = some preset1 ∧
      preset1.get_strings "" "Techniques" [] =
        (s._techniques.filter technique.enabled).map technique.name ∧
      preset1.get_strings "" "TechniqueSorting" [] = s._techniques.map technique.name ∧
      preset1.get_strings "" "PreprocessorDefinitions" [] =
        s._preset_preprocessor_definitions ∧
      ∀ var ∈ s._uniforms, uniform_saved s var = true →
        preset1 (uniform_key env s var).1 (uniform_key env s var).2 =
          some (lanes_value s var (component_lanes s var)) := by
  obtain ⟨hl1, hl2, hl3⟩ := save_technique_lists s._techniques
    { effect_list := [], technique_list := [], sorted_technique_list := [], preset := preset }
  unfold save_current_preset
  simp only
  generalize s._techniques.foldl save_technique
    { effect_list := [], technique_list := [], sorted_technique_list := [], preset := preset } =
    lists at hl1 hl2 hl3
  have hsaved : ∀ var : uniform,
      (var.special != 0 || decide (var.effect_index ∉ lists.effect_list)) = false ↔
        uniform_saved s var = true := by
    intro var
    have := hl3 var.effect_index
    simp only [List.not_mem_nil, false_or] at this
    unfold uniform_saved
    simp only [Bool.or_eq_false_iff, bne_eq_false_iff_eq, decide_eq_false_iff_not, not_not,
      Bool.and_eq_true, beq_iff_eq, decide_eq_true_eq, this]
  obtain ⟨preset1, h1, hframe, hentries⟩ := save_uniforms_entries env s lists.effect_list
    s._uniforms
    (((lists.preset.set "" "Techniques" (ini_value.strings lists.technique_list)).set
      "" "TechniqueSorting" (ini_value.strings lists.sorted_technique_list)).set
      "" "PreprocessorDefinitions" (ini_value.strings s._preset_preprocessor_definitions))
    huniforms hshape
  have hglobal : ∀ key, preset1 "" key =
      (((lists.preset.set "" "Techniques" (ini_value.strings lists.technique_list)).set
        "" "TechniqueSorting" (ini_value.strings lists.sorted_technique_list)).set
        "" "PreprocessorDefinitions" (ini_value.strings s._preset_preprocessor_definitions))
        "" key := by
    intro key
    apply hframe
    intro var hvar hs hkey
    exact hsection var hvar ((hsaved var).mp hs) (by rw [hkey])
  refine ⟨preset1, h1, ?_, ?_, ?_, ?_⟩
  · unfold ini_file.get_strings
    rw [hglobal, ini_file_set_get, if_neg (by decide), ini_file_set_get, if_neg (by decide),
      ini_file_set_get, if_pos (by decide)]
    simp only [hl1, List.nil_append]
  · unfold ini_file.get_strings
    rw [hglobal, ini_file_set_get, if_neg (by decide), ini_file_set_get, if_pos (by decide)]
    simp only [hl2, List.nil_append]
  · unfold ini_file.get_strings
    rw [hglobal, ini_file_set_get, if_pos (by decide)]
  · intro var hvar hs
    exact hentries var hvar ((hsaved var).mpr hs)
      (fun w hw hws hwk => hkeys var hvar w hw hs ((hsaved w).mp hws) hwk)

/-! ### Sorting by the saved order -/

/-- Two lists with the same image under a function that separates their elements are
equal. -/
theorem eq_of_map_eq {α β : Type} (f : α → β) (l1 l2 : List α)
    (hmap : l1.map f = l2.map f) (hinj : ∀ a ∈ l1, ∀ b ∈ l2, f a = f b → a = b) : l1 = l2 := by
  induction l1 generalizing l2 with
  | nil =>
    cases l2 with
    | nil => rfl
    | cons b l2 => simp at hmap
  | cons a l1 ih =>
    cases l2 with
    | nil => simp at hmap
    | cons b l2 =>
      simp only [List.map_cons, List.cons.injEq] at hmap
      have hab := hinj a (List.mem_cons_self _ _) b (List.mem_cons_self _ _) hmap.1
      rw [hab, ih l2 hmap.2
        (fun x hx y hy => hinj x (List.mem_cons_of_mem _ hx) y (List.mem_cons_of_mem _ hy))]

/-- Sorting techniques with distinct names by the list of their names, in their order, leaves
them as they are, whatever algorithm meets the contract of `std::sort`. -/
theorem sort_by_own_names
    (sort : (technique → technique → Bool) → List technique → List technique)
    (hsort : std_sort_contract sort) (l : List technique)
    (hnodup : (l.map technique.name).Nodup) :
    sort (technique_before (l.map technique.name)) l = l := by
  obtain ⟨hperm, hsorted⟩ := hsort (technique_before (l.map technique.name)) l
    (technique_before_strict_weak _)
  have h1 : ((sort (technique_before (l.map technique.name)) l).map
      (fun T => (l.map technique.name).indexOf T.name)).Sorted (· ≤ ·) := by
    unfold List.Sorted
    rw [List.pairwise_map]
    refine hsorted.imp ?_
    intro a b hab
    simp only [technique_before, decide_eq_false_iff_not] at hab
    omega
  have hidx : ∀ (i : Nat) (hi : i < l.length),
      (l.map technique.name).indexOf (l[i]).name = i := by
    intro i hi
    have := List.indexOf_getElem hnodup i (by simpa using hi)
    simpa using this
  have h2 : (l.map (fun T => (l.map technique.name).indexOf T.name)).Sorted (· ≤ ·) := by
    unfold List.Sorted
    rw [List.pairwise_map, List.pairwise_iff_getElem]
    intro i j hi hj hij
    rw [hidx i hi, hidx j hj]
    omega
  have h4 := List.eq_of_perm_of_sorted
    (hperm.map (fun T => (l.map technique.name).indexOf T.name)) h1 h2
  apply eq_of_map_eq _ _ _ h4
  intro a ha b hb hab
  have ha2 : a ∈ l := hperm.subset ha
  have hname : a.name = b.name :=
    (List.indexOf_inj (List.mem_map_of_mem _ ha2) (List.mem_map_of_mem _ hb)).mp hab
  exact List.inj_on_of_nodup_map hnodup ha2 hb hname

/-- A technique after `load_current_preset` on a technique list that names exactly the
enabled techniques: it keeps its name, and it is enabled when it was enabled or when it
carries a non-zero "enabled" annotation and its effect compiled. -/
theorem loaded_technique_saved (preset : ini_file) (effects : List effect_data)
    (l : List technique) (hnodup : (l.map technique.name).Nodup) (T : technique) (hT : T ∈ l) :
    (loaded_technique preset ((l.filter technique.enabled).map technique.name) effects T).name =
        T.name ∧
      (loaded_technique preset ((l.filter technique.enabled).map technique.name) effects
          T).enabled =
        (T.enabled || (decide (T.annotation_as_int "enabled" ≠ 0) &&
          effect_compiled effects T.effect_index)) := by
  have hmem : T.name ∈ (l.filter technique.enabled).map technique.name ↔ T.enabled = true := by
    constructor
    · intro h
      obtain ⟨T1, hT1, hname⟩ := List.mem_map.mp h
      obtain ⟨hT1l, hen⟩ := List.mem_filter.mp hT1
      have := List.inj_on_of_nodup_map hnodup hT1l hT hname
      rw [← this]
      exact hen
    · intro h
      exact List.mem_map_of_mem _ (List.mem_filter.mpr ⟨hT, h⟩)
  refine ⟨(loaded_technique_kept preset _ effects T).1, ?_⟩
  unfold loaded_technique preset_enables
  by_cases hen : T.enabled = true
  · have h1 := hmem.mpr hen
    by_cases hc : effect_compiled effects T.effect_index = true <;> simp [h1, hen, hc]
  · have h1 : T.name ∉ (l.filter technique.enabled).map technique.name := fun h => hen (hmem.mp h)
    simp only [Bool.not_eq_true] at hen
    by_cases ha : T.annotation_as_int "enabled" = 0
    · simp [h1, hen, ha]
    · by_cases hc : effect_compiled effects T.effect_index = true <;> simp [h1, hen, ha, hc]

/-- Lanes that are read as the same value are the same lanes, for a float variable and for
every variable on a backend other than the legacy one, where the getters copy the bytes. -/
theorem lanes_of_value_eq (s s1 : runtime) (var : uniform) (L L1 : List Nat)
    (hr : s1._renderer_id = s._renderer_id)
    (hraw : s._renderer_id ≠ 0x9000 ∨ var.type.base = datatype.t_float)
    (hL : ∀ x ∈ L, x < 4294967296) (hL1 : ∀ x ∈ L1, x < 4294967296)
    (h : lanes_value s1 var L1 = lanes_value s var L) : L1 = L := by
  have hd : int32_decode s1 var = int32_decode s var := by
    funext lane
    unfold int32_decode
    rw [integer_storage_congr s s1 var hr]
  have hu : uint32_decode s1 var = uint32_decode s var := by
    funext lane
    unfold uint32_decode
    rw [hd]
  have hint : var.type.base ≠ datatype.t_float → integer_storage s var = true := by
    intro hb
    have hr2 : s._renderer_id ≠ 0x9000 := by
      rcases hraw with h1 | h1
      · exact h1
      · exact absurd h1 hb
    unfold integer_storage type.is_floating_point
    cases hbase : var.type.base
    · simpa using hr2
    · simpa using hr2
    · simpa using hr2
    · exact absurd hbase hb
  have hinj : var.type.base ≠ datatype.t_float → ∀ a ∈ L1, ∀ b ∈ L,
      int32_decode s var a = int32_decode s var b → a = b := by
    intro hb a ha b hb2 hab
    have h1 := hL1 a ha
    have h2 := hL b hb2
    unfold int32_decode at hab
    simp only [if_pos (hint hb)] at hab
    unfold bits_int32 at hab
    split at hab <;> split at hab <;> omega
  have huint : var.type.base ≠ datatype.t_float → var.type.base ≠ datatype.t_int →
      lanes_value s1 var L1 = ini_value.numbers ((L1.map (uint32_decode s var)).map Int.ofNat) →
      lanes_value s var L = ini_value.numbers ((L.map (uint32_decode s var)).map Int.ofNat) →
      L1 = L := by
    intro hb1 hb2 h1 h2
    rw [h1, h2] at h
    have hmap := ini_value.numbers.inj h
    rw [List.map_map, List.map_map] at hmap
    apply eq_of_map_eq _ _ _ hmap
    intro a ha b hb3 hab
    simp only [Function.comp_apply, Int.ofNat_eq_coe, Int.natCast_inj] at hab
    unfold uint32_decode at hab
    apply hinj hb1 a ha b hb3
    have ha2 := int32_decode_range s var a
    have hb4 := int32_decode_range s var b
    unfold int32_bits at hab
    omega
  cases hb : var.type.base
  case t_float =>
    simp only [lanes_value, hb] at h
    exact ini_value.floats.inj h
  case t_int =>
    simp only [lanes_value, hb, hd] at h
    exact eq_of_map_eq _ _ _ (ini_value.numbers.inj h) (hinj (by rw [hb]; simp))
  case t_bool =>
    exact huint (by rw [hb]; simp) (by rw [hb]; simp) (by simp only [lanes_value, hb, hu])
      (by simp only [lanes_value, hb])
  case t_uint =>
    exact huint (by rw [hb]; simp) (by rw [hb]; simp) (by simp only [lanes_value, hb, hu])
      (by simp only [lanes_value, hb])

/-- The condition on a lane of a bool or unsigned variable on the legacy backend:
`static_cast<int32_t>` of the lane is not negative or is `0x80000000` exactly when the lane
does not hold a finite negative `float` whose integer part is between `1` and `2^31 - 1`,
that is, a `float` between `-2^31` (excluded) and `-1.0` (included). -/
theorem unsigned_lane_condition (f : Nat) :
    (0 ≤ float_to_int32 f ∨ float_to_int32 f = -2147483648) ↔
      ¬ (float_exponent f ≠ 255 ∧ float_sign f = true ∧ 1 ≤ float_abs_trunc f ∧
        float_abs_trunc f < 2147483648) := by
  unfold float_to_int32
  by_cases h255 : float_exponent f = 255
  · simp [h255]
  · rw [if_neg h255]
    by_cases hs : float_sign f = true
    · rw [if_pos hs]
      simp only [h255, hs, ne_eq, not_false_eq_true, true_and, eq_self_iff_true]
      split_ifs <;> omega
    · rw [if_neg hs]
      simp only [hs, Bool.false_eq_true, false_and, and_false, not_false_eq_true, iff_true]
      split_ifs <;> omega

/-! ### Saving and loading a preset -/

/-- Counterexample to C14 as stated: the technique names are unique, performance mode is off
and no transition is active; `Glow` is disabled although it carries the annotation
`enabled = 1`, and the store holds `2.0f` for the float uniform of its effect, which holds
`1.0f`.  After `save_current_preset` and `load_current_preset` on the store it wrote, `Glow`
is enabled and the float uniform reads `2.0f`. -/
theorem save_load_counterexample :
    (demo_roundtrip._techniques.map technique.name).Nodup ∧
      demo_roundtrip._performance_mode = false ∧
      demo_roundtrip._is_in_between_presets_transition = false ∧
      demo_roundtrip._techniques.map (fun T => (T.name, T.enabled)) =
        [("Tint", true), ("Glow", false)] ∧
      uniform_value demo_roundtrip demo_float_uniform = some (ini_value.floats [0x3F800000]) ∧
      ((save_current_preset (demo_env []) demo_roundtrip demo_stale).bind
          (fun preset1 => load_current_preset (demo_library stable_sort) (demo_env []) preset1
            demo_roundtrip)).map
        (fun s2 => (s2._techniques.map (fun T => (T.name, T.enabled)),
          uniform_value s2 demo_float_uniform)) =
        some ([("Tint", true), ("Glow", true)], some (ini_value.floats [0x40000000])) := by
  decide

/-- C14, amended: with unique technique names, not in performance mode, with no transition
active, with `std::sort` meeting its contract, and for valid uniforms (at most 16 components,
`size = 4 * components`, storage ranges that do not overlap, distinct keys in sections that
have a name), `save_current_preset` returns and `load_current_preset` on the store it wrote
returns, and in the state after both: the techniques have the same names in the same order;
a technique is enabled when it was enabled before, or when it carries a non-zero "enabled"
annotation and its effect compiled (so a technique that was disabled in spite of such an
annotation comes back enabled); and every uniform that `save_current_preset` writes (not
special, its effect referenced by a technique that is enabled or has a toggle key) has the
same value: what the getter that `save_current_preset` and `load_current_preset` use for its
base type (`int32_t` for int, `uint32_t` for bool and unsigned, `float` for float) reads of
the lanes of the variable.  For a float variable, and for every variable on a backend other
than the legacy one, the lanes themselves are the same.  On the legacy backend the value of
a bool or unsigned variable is reproduced when `static_cast<int32_t>` of each lane is not a
negative number other than `0x80000000`, that is, when no lane holds a `float` between
`-2^31` (excluded) and `-1.0` (included).  Uniforms that are not written are not covered. -/
theorem save_load_roundtrip (lib : cxx_library) (env : environment) (preset : ini_file)
    (s : runtime) (hsort : std_sort_contract lib.sort)
    (hnames : (s._techniques.map technique.name).Nodup)
    (hperformance : s._performance_mode = false)
    (htransition : s._is_in_between_presets_transition = false)
    (hvalid : effect_indices_valid s) (huniforms : uniforms_valid s)
    (hsizes : ∀ var ∈ s._uniforms,
      var.type.components ≤ 16 ∧ var.size = 4 * var.type.components)
    (hdisjoint : s._uniforms.Pairwise storage_disjoint)
    (hsection : ∀ var ∈ s._uniforms, uniform_saved s var = true →
      (uniform_key env s var).1 ≠ "")
    (hkeys : ∀ v ∈ s._uniforms, ∀ w ∈ s._uniforms, uniform_saved s v = true →
      uniform_saved s w = true → uniform_key env s w = uniform_key env s v → w = v)
    (hlegacy : s._renderer_id = 0x9000 → ∀ var ∈ s._uniforms, uniform_saved s var = true →
      var.type.base = datatype.t_bool ∨ var.type.base = datatype.t_uint →
      ∀ lane ∈ component_lanes s var,
        0 ≤ float_to_int32 lane ∨ float_to_int32 lane = -2147483648) :
    ∃ preset1 s2, save_current_preset env s preset = some preset1 ∧
      load_current_preset lib env preset1 s = some s2 ∧
      s2._techniques.map (fun T => (T.name, T.enabled)) =
        s._techniques.map (fun T => (T.name,
          T.enabled || (decide (T.annotation_as_int "enabled" ≠ 0) &&
            effect_compiled s._loaded_effects T.effect_index))) ∧
      ∀ var ∈ s._uniforms, uniform_saved s var = true →
        uniform_value s2 var = uniform_value s var ∧
        (s._renderer_id ≠ 0x9000 ∨ var.type.base = datatype.t_float →
          component_lanes s2 var = component_lanes s var) := by
  have hshape : ∀ var ∈ s._uniforms,
      var.type.components ≤ 16 ∧ 4 * var.type.components ≤ var.size := by
    intro var hvar
    obtain ⟨hk, hsize⟩ := hsizes var hvar
    exact ⟨hk, by omega⟩
  obtain ⟨preset1, hsave, hT, hS, hD, hU⟩ :=
    save_current_preset_entries env s preset huniforms hshape hsection hkeys
  have hnow : load_deferred preset1 s = false := by
    unfold load_deferred
    rw [hD, hperformance]
    simp
  have hord : ordering_list preset1 = s._techniques.map technique.name := by
    unfold ordering_list
    rw [hS, hT]
    cases s._techniques with
    | nil => rfl
    | cons T rest => rfl
  obtain ⟨s2, h2, htech, _, _, _, _, _⟩ :=
    apply_preset_eq lib env preset1 s hsort hvalid huniforms
  have hsorted := sort_by_own_names lib.sort hsort s._techniques hnames
  rw [hord, hsorted, hT] at htech
  refine ⟨preset1, s2, hsave,
    by simp only [load_current_preset, hnow, Bool.false_eq_true, if_false, h2], ?_, ?_⟩
  · rw [htech, List.map_map]
    apply List.map_congr_left
    intro T hTmem
    obtain ⟨hname, hen⟩ :=
      loaded_technique_saved preset1 s._loaded_effects s._techniques hnames T hTmem
    simp only [Function.comp_apply, hname, hen]
  · -- the state before the loop over the uniforms
    unfold apply_preset at h2
    simp only at h2
    generalize hsR : reorder_techniques lib preset1 s = sR at h2
    have hsRt : sR._techniques = s._techniques := by
      have : sR._techniques = lib.sort (technique_before (ordering_list preset1))
          s._techniques := by
        rw [← hsR, reorder_techniques]; split <;> rfl
      rw [this, hord, hsorted]
    have hsRe : sR._loaded_effects = s._loaded_effects := by
      rw [← hsR, reorder_techniques]; split <;> rfl
    have hsRu : sR._uniforms = s._uniforms := by
      rw [← hsR, reorder_techniques]; split <;> rfl
    have hsRs : sR._uniform_data_storage = s._uniform_data_storage := by
      rw [← hsR, reorder_techniques]; split <;> rfl
    have hsRr : sR._renderer_id = s._renderer_id := by
      rw [← hsR, reorder_techniques]; split <;> rfl
    have hsRi : sR._is_in_between_presets_transition = false := by
      rw [← hsR, reorder_techniques]
      split
      · rfl
      · exact htransition
    obtain ⟨s3, h3, hso3, _, hvalues⟩ := load_uniforms_value lib env preset1
      (transition_ms_left s) (transition_ms_left_from_last_frame s) s s._uniforms sR hdisjoint
      (by
        intro var hvar
        rw [hsRs, hsRe]
        exact huniforms var hvar)
      hshape hsRr hsRe (by rw [hsRs]) hsRi
    rw [hsRu, h3] at h2
    simp only at h2
    have hs3 : s3 = { sR with _uniform_data_storage := s3._uniform_data_storage } := hso3.1
    have hvalid3 : effect_indices_valid s3 := by
      intro T hTmem
      rw [hs3] at hTmem ⊢
      simp only at hTmem ⊢
      rw [hsRt] at hTmem
      rw [hsRe]
      exact hvalid T hTmem
    obtain ⟨s4, h4, hreg, _⟩ := load_techniques_all preset1
      (preset1.get_strings "" "Techniques" []) s3 hvalid3
    rw [h4] at h2
    have h42 : s4 = s2 := Option.some.inj h2
    rw [h42] at hreg
    have hstorage2 : s2._uniform_data_storage = s3._uniform_data_storage := by rw [hreg.1]
    have hrenderer2 : s2._renderer_id = s3._renderer_id := by rw [hreg.1]
    have hlen3 : s3._uniform_data_storage.length = s._uniform_data_storage.length := by
      rw [hso3.2, hsRs]
    intro var hvar hsaved
    obtain ⟨hk, hsize⟩ := hshape var hvar
    obtain ⟨hvs, hve⟩ := huniforms var hvar
    have hvalue3 := hvalues var hvar
      (by
        intro effect heffect
        have := hU var hvar hsaved
        unfold uniform_key at this
        rw [heffect] at this
        exact this)
      (by
        intro hb1 hb2 lane hlane
        by_cases hr : s._renderer_id = 0x9000
        · right
          refine hlegacy hr var hvar hsaved ?_ lane hlane
          cases hb : var.type.base
          · exact Or.inl rfl
          · exact absurd hb hb1
          · exact Or.inr rfl
          · exact absurd hb hb2
        · left
          unfold integer_storage type.is_floating_point
          cases hb : var.type.base
          · simpa using hr
          · exact absurd hb hb1
          · simpa using hr
          · exact absurd hb hb2)
    have hval : uniform_value s2 var = uniform_value s var := by
      rw [uniform_value_eq s var hvs hk hsize, ← hvalue3]
      exact uniform_value_congr s3 s2 var (by rw [hlen3]; exact hvs) (by rw [hstorage2]) hk
        hsize hrenderer2 (by unfold range_bytes; rw [hstorage2])
    refine ⟨hval, ?_⟩
    intro hraw
    have hvs2 : var.storage_offset + var.size ≤ s2._uniform_data_storage.length := by
      rw [hstorage2, hlen3]
      exact hvs
    have hr2 : s2._renderer_id = s._renderer_id := by
      rw [hrenderer2, hs3]
      exact hsRr
    rw [uniform_value_eq s var hvs hk hsize, uniform_value_eq s2 var hvs2 hk hsize] at hval
    exact lanes_of_value_eq s s2 var _ _ hr2 hraw
      (fun x hx => by
        unfold component_lanes at hx
        exact bytes_lanes_lt _ x (List.mem_of_mem_take hx))
      (fun x hx => by
        unfold component_lanes at hx
        exact bytes_lanes_lt _ x (List.mem_of_mem_take hx))
      (Option.some.inj hval)

/-- Witness of C14: the state `demo_roundtrip` meets the conditions; after saving and loading,
`Tint` is enabled as before, `Glow` is enabled through its annotation, and the int3 uniform
of the enabled technique's effect reads `(1, 2, 3)` as before. -/
theorem save_load_roundtrip_witness :
    uniform_value demo_roundtrip demo_uniform = some (ini_value.numbers [1, 2, 3]) ∧
      ∃ preset1 s2,
        save_current_preset (demo_env []) demo_roundtrip demo_stale = some preset1 ∧
        load_current_preset (demo_library stable_sort) (demo_env []) preset1 demo_roundtrip =
          some s2 ∧
        s2._techniques.map (fun T => (T.name, T.enabled)) = [("Tint", true), ("Glow", true)] ∧
        uniform_value s2 demo_uniform = some (ini_value.numbers [1, 2, 3]) := by
  obtain ⟨preset1, s2, h1, h2, h3, h4⟩ := save_load_roundtrip (demo_library stable_sort)
    (demo_env []) demo_stale demo_roundtrip stable_sort_contract (by decide) (by decide)
    (by decide) (by unfold effect_indices_valid; decide) (by unfold uniforms_valid; decide)
    (by decide) (by unfold storage_disjoint; decide) (by decide) (by decide)
    (fun h => absurd h (by decide))
  refine ⟨by decide, preset1, s2, h1, h2, ?_, ?_⟩
  · rw [h3]
    decide
  · rw [(h4 demo_uniform (by decide) (by decide)).1]
    decide

/-- On the legacy backend an unsigned uniform whose lane holds a negative `float` is not
reproduced: `-3.0f` reads as `4294967293`, which is stored as `4294967296.0f`, and that does
not fit an `int32_t` when it is read again. -/
theorem legacy_unsigned_not_reproduced :
    uniform_saved demo_legacy_unsigned demo_unsigned_uniform = true ∧
      uniform_value demo_legacy_unsigned demo_unsigned_uniform =
        some (ini_value.numbers [4294967293]) ∧
      ((save_current_preset (demo_env []) demo_legacy_unsigned ini_file.empty).bind
          (fun preset1 => load_current_preset (demo_library stable_sort) (demo_env []) preset1
            demo_legacy_unsigned)).map
        (fun s2 => (uniform_value s2 demo_unsigned_uniform,
          range_bytes s2 demo_unsigned_uniform)) =
        some (some (ini_value.numbers [2147483648]), [0, 0, 128, 79]) := by
  decide

/-- A lane of a variable beyond its declared components is not reproduced: the uniform has
one component and a size of two lanes holding `5` and `7`; one value is written to the
store, the load reads the missing elements of its array of 16 as zero and stores two lanes,
and the `int32_t` getter with a count of two reads `5, 0` afterwards. -/
theorem padded_uniform_not_reproduced :
    uniform_saved demo_padded demo_padded_uniform = true ∧
      get_uniform_value_int32 demo_padded demo_padded_uniform [0, 0] 2 = some [5, 7] ∧
      ((save_current_preset (demo_env []) demo_padded ini_file.empty).bind
          (fun preset1 => load_current_preset (demo_library stable_sort) (demo_env []) preset1
            demo_padded)).map
        (fun s2 => (get_uniform_value_int32 s2 demo_padded_uniform [0, 0] 2,
          uniform_value s2 demo_padded_uniform)) =
        some (some [5, 0], some (ini_value.numbers [5])) := by
  decide

/-- On the legacy backend the value of a bool variable is reproduced as the `uint32_t` getter
reads it, not as the bool getter does: a lane that holds `0.5f` is `true` for the bool getter
and `0` for the `uint32_t` getter; `0` is written to the store, the load stores `0.0f`, and
the bool getter reads `false` afterwards. -/
theorem legacy_bool_lane_not_reproduced :
    uniform_saved demo_legacy_bool demo_bool_uniform = true ∧
      get_uniform_value_bool demo_legacy_bool demo_bool_uniform [false] 1 = some [true] ∧
      uniform_value demo_legacy_bool demo_bool_uniform = some (ini_value.numbers [0]) ∧
      ((save_current_preset (demo_env []) demo_legacy_bool ini_file.empty).bind
          (fun preset1 => load_current_preset (demo_library stable_sort) (demo_env []) preset1
            demo_legacy_bool)).map
        (fun s2 => (get_uniform_value_bool s2 demo_bool_uniform [false] 1,
          uniform_value s2 demo_bool_uniform)) =
        some (some [false], some (ini_value.numbers [0])) := by
  decide

/-! ## Frame tick -/

/-- C21: a frame tick (`on_present`) taken while `is_loading()` is true or the compile queue
is not empty returns, whatever the keys, and leaves `_current_preset_path`,
`_is_in_between_presets_transition`, the techniques (so their enabled flags and their order),
the compile queue and the Uniform Storage as they were; it does not write to the effects, the
uniforms or the reload counters either. -/
theorem on_present_while_loading (lib : cxx_library) (env : environment)
    (load_cache : String → ini_file) (input : frame_input) (s : runtime)
    (hbusy : is_loading s = true ∨ s._reload_compile_queue ≠ []) :
    ∃ s1, on_present lib env load_cache input s = some s1 ∧
      s1._current_preset_path = s._current_preset_path ∧
      s1._is_in_between_presets_transition = s._is_in_between_presets_transition ∧
      s1._techniques = s._techniques ∧
      s1._reload_compile_queue = s._reload_compile_queue ∧
      s1._uniform_data_storage = s._uniform_data_storage ∧
      s1._loaded_effects = s._loaded_effects ∧ s1._uniforms = s._uniforms ∧
      s1._reload_remaining_effects = s._reload_remaining_effects ∧
      s1._reload_total_effects = s._reload_total_effects := by
  have hgate : (!is_loading s && s._reload_compile_queue.isEmpty) = false := by
    rcases hbusy with h | h
    · rw [h]; rfl
    · cases hq : s._reload_compile_queue with
      | nil => exact absurd hq h
      | cons a rest => simp
  unfold on_present
  simp only
  by_cases hi : s._ignore_shortcuts = true
  · simp only [hi, Bool.not_true, Bool.false_eq_true, if_false]
    exact ⟨_, rfl, rfl, rfl, rfl, rfl, rfl, rfl, rfl, rfl, rfl⟩
  · simp only [Bool.not_eq_true] at hi
    simp only [hi, Bool.not_false, if_true]
    have hgate1 := hgate
    simp only [is_loading] at hgate1
    cases input.effects_key_pressed <;> cases input.screenshot_key_pressed <;>
      simp only [if_true, if_false, Bool.false_eq_true, is_loading, hgate1] <;>
      exact ⟨_, rfl, rfl, rfl, rfl, rfl, rfl, rfl, rfl, rfl, rfl⟩

/-- Witness of C21: in `demo_enabled` the reload counter is `0`, not the idle sentinel; the
tick with the next-preset key pressed keeps the preset `B.ini` although `C.ini` follows it. -/
theorem on_present_while_loading_witness :
    is_loading demo_enabled = true ∧
      ∃ s1, on_present (demo_library stable_sort) (demo_env ["A.ini", "B.ini", "C.ini"])
          (fun _ => demo_ini [] [] []) demo_keys demo_enabled = some s1 ∧
        s1._current_preset_path = "B.ini" ∧ s1._is_in_between_presets_transition = false ∧
        s1._techniques = demo_enabled._techniques := by
  obtain ⟨s1, h1, h2, h3, h4, _⟩ := on_present_while_loading (demo_library stable_sort)
    (demo_env ["A.ini", "B.ini", "C.ini"]) (fun _ => demo_ini [] [] []) demo_keys demo_enabled
    (Or.inl (by decide))
  exact ⟨by decide, s1, h1, h2, h3, h4⟩

/-- The same tick when the reload counter is at its idle sentinel and the compile queue is
empty: the preset after `B.ini` becomes the current one and a transition starts. -/
theorem on_present_idle_switches :
    is_loading demo_idle = false ∧ demo_idle._reload_compile_queue = [] ∧
      (on_present (demo_library stable_sort) (demo_env ["A.ini", "B.ini", "C.ini"])
          (fun _ => demo_ini [] [] []) demo_keys demo_idle).map
        (fun s1 => (s1._current_preset_path, s1._is_in_between_presets_transition,
          s1._should_save_screenshot)) =
        some ("C.ini", true, true) := by
  decide

/-! ## Booleans written and read back -/

/-- The lane stored for a boolean is a 32-bit lane that is non-zero exactly for `true`,
whatever the backend and the base type of the variable. -/
theorem bool_lane_nonzero (s : runtime) (var : uniform) (value : Bool) :
    bool_lane s var value < 4294967296 ∧ (bool_lane s var value % 4294967296 != 0) = value := by
  unfold bool_lane
  generalize (if (s._renderer_id != 0x9000) = true then var.type.base else datatype.t_float) = base
  cases base <;> cases value <;> exact ⟨by decide, by decide⟩

/-- C23: for every backend and every base type of the variable, `set_uniform_value` with `n`
booleans (`n * 4 <= variable.size`, the variable within the Uniform Storage, the arrays
holding `n` elements) returns, and `get_uniform_value` with `n` booleans then returns exactly
the written booleans in the first `n` elements of its array and leaves the other elements;
the lane stored for `true` is non-zero and the lane stored for `false` is zero. -/
theorem bool_write_read (s : runtime) (var : uniform) (values buffer : List Bool) (n : Nat)
    (hstorage : var.storage_offset + var.size ≤ s._uniform_data_storage.length)
    (hn : n * 4 ≤ var.size) (hvalues : n ≤ values.length) (hbuffer : n ≤ buffer.length) :
    ∃ s1, set_uniform_value_bool s var values n = some s1 ∧
      get_uniform_value_bool s1 var buffer n = some (values.take n ++ buffer.drop n) ∧
      bool_lane s var true ≠ 0 ∧ bool_lane s var true < 4294967296 ∧
      bool_lane s var false = 0 := by
  obtain ⟨s1, h1, hframe, hl⟩ := set_uniform_value_raw_lanes s var
    ((values.take n).map (bool_lane s var)) n n hstorage (by simp [hvalues]) (Nat.le_refl n)
    (by omega)
  have hstorage1 : var.storage_offset + var.size ≤ s1._uniform_data_storage.length := by
    rw [hframe.2.1]; exact hstorage
  have hrange := range_bytes_length s1 var hstorage1
  refine ⟨s1, ?_, ?_, ?_, (bool_lane_nonzero s var true).1, ?_⟩
  · unfold set_uniform_value_bool
    rw [if_pos hvalues]
    exact h1
  · unfold get_uniform_value_bool
    simp only
    rw [get_uniform_value_raw_range s1 var _ _ hstorage1 (by simp)]
    simp only [Nat.min_self, List.drop_replicate, Nat.sub_self, List.replicate_zero,
      List.append_nil]
    have hcount : min n (var.size / 4) = n := Nat.min_eq_left (by omega)
    rw [List.take_of_length_le (Nat.le_of_eq hrange), hcount, if_pos hbuffer, hl,
      List.take_of_length_le (by simp), List.map_map, List.map_map]
    congr 2
    conv_rhs => rw [← List.map_id (values.take n)]
    apply List.map_congr_left
    intro value _
    simp only [Function.comp_apply, id]
    exact (bool_lane_nonzero s var value).2
  · have := (bool_lane_nonzero s var true).2
    intro h0
    rw [h0] at this
    exact absurd this (by decide)
  · have h := bool_lane_nonzero s var false
    have h2 := h.2
    simp only [bne_eq_false_iff_eq] at h2
    have h1 := h.1
    omega

/-- Witness of C23: three booleans written to the int3 uniform on the legacy backend, where
`true` is stored as `1.0f`, and read back into an array of four. -/
theorem bool_write_read_witness :
    ∃ s1, set_uniform_value_bool demo_legacy demo_uniform [true, false, true] 3 = some s1 ∧
      get_uniform_value_bool s1 demo_uniform [false, false, false, true] 3 =
        some [true, false, true, true] ∧
      range_bytes s1 demo_uniform = [0, 0, 128, 63, 0, 0, 0, 0, 0, 0, 128, 63] := by
  obtain ⟨s1, h1, h2, _⟩ := bool_write_read demo_legacy demo_uniform [true, false, true]
    [false, false, false, true] 3 (by decide) (by decide) (by decide) (by decide)
  refine ⟨s1, h1, h2, ?_⟩
  have : (some s1).map (fun s => range_bytes s demo_uniform) =
      some [0, 0, 128, 63, 0, 0, 0, 0, 0, 0, 128, 63] := by
    rw [← h1]; decide
  simpa using this

/-! ## What `save_current_preset` writes, against the specification -/

/-- One iteration of the loop over the uniforms in `save_current_preset`, for a uniform with
a valid effect index and at most 16 components: nothing is written for a uniform that is
special or whose effect is not in the list of effects, and the value of any other uniform is
set under its key. -/
theorem save_uniform_step (env : environment) (s : runtime) (effect_list : List Nat)
    (preset : ini_file) (var : uniform)
    (heffect : var.effect_index < s._loaded_effects.length)
    (hk : var.type.components ≤ 16) :
    save_uniform env s effect_list preset var =
      if (var.special != 0 || decide (var.effect_index ∉ effect_list)) = true then some preset
      else (uniform_value s var).map
        (fun value => preset.set (uniform_key env s var).1 var.name value) := by
  unfold save_uniform
  by_cases hc : (var.special != 0 || decide (var.effect_index ∉ effect_list)) = true
  · rw [if_pos hc, if_pos hc]
  · rw [if_neg hc, if_neg hc]
    unfold uniform_key uniform_value
    rw [List.getElem?_eq_getElem heffect]
    simp only
    rw [if_pos hk]
    cases hb : var.type.base <;> simp only
    · cases get_uniform_value_uint32 s var (List.replicate 16 0) 16 <;> rfl
    · cases get_uniform_value_int32 s var (List.replicate 16 0) 16 <;> rfl
    · cases get_uniform_value_uint32 s var (List.replicate 16 0) 16 <;> rfl
    · cases get_uniform_value_float s var (List.replicate 16 0) 16 <;> rfl

/-- The value of a valid uniform with at most 16 components can be read and has exactly as
many values as the uniform has components. -/
theorem uniform_value_length (s : runtime) (var : uniform)
    (hstorage : var.storage_offset + var.size ≤ s._uniform_data_storage.length)
    (hk : var.type.components ≤ 16) :
    ∃ value, uniform_value s var = some value ∧ value.length = var.type.components := by
  unfold uniform_value
  cases hb : var.type.base <;> simp only
  · obtain ⟨out, hout, hlen⟩ := get_uniform_value_uint32_length s var (List.replicate 16 0) 16
      hstorage (by simp)
    exact ⟨_, by rw [hout]; rfl, by simp [ini_value.length, hlen, hk]⟩
  · obtain ⟨out, hout, hlen⟩ := get_uniform_value_int32_length s var (List.replicate 16 0) 16
      hstorage (by simp)
    exact ⟨_, by rw [hout]; rfl, by simp [ini_value.length, hlen, hk]⟩
  · obtain ⟨out, hout, hlen⟩ := get_uniform_value_uint32_length s var (List.replicate 16 0) 16
      hstorage (by simp)
    exact ⟨_, by rw [hout]; rfl, by simp [ini_value.length, hlen, hk]⟩
  · obtain ⟨out, hout, hlen⟩ := get_uniform_value_float_length s var (List.replicate 16 0) 16
      hstorage (by simp)
    exact ⟨_, by rw [hout]; rfl, by simp [ini_value.length, hlen, hk]⟩

/-- The loop over the uniforms in `save_current_preset` sets the values of the uniforms that
are written, in their order, and nothing else. -/
theorem save_uniforms_eq (env : environment) (s : runtime) (effect_list : List Nat)
    (hlist : ∀ var : uniform,
      (var.special != 0 || decide (var.effect_index ∉ effect_list)) = false ↔
        uniform_saved s var = true)
    (vars : List uniform) (preset : ini_file)
    (hvalid : ∀ var ∈ vars, uniform_saved s var = true →
      var.effect_index < s._loaded_effects.length ∧ var.type.components ≤ 16) :
    save_uniforms env s effect_list preset vars =
      write_uniforms env s preset (vars.filter (uniform_saved s)) := by
  induction vars generalizing preset with
  | nil => rfl
  | cons v rest ih =>
    have hrest : ∀ var ∈ rest, uniform_saved s var = true →
        var.effect_index < s._loaded_effects.length ∧ var.type.components ≤ 16 :=
      fun var hvar => hvalid var (List.mem_cons_of_mem _ hvar)
    by_cases hs : uniform_saved s v = true
    · obtain ⟨he, hk⟩ := hvalid v (List.mem_cons_self _ _) hs
      have hc := (hlist v).mpr hs
      rw [List.filter_cons_of_pos hs]
      simp only [save_uniforms, write_uniforms, save_uniform_step env s effect_list preset v he hk,
        hc, Bool.false_eq_true, if_false]
      cases uniform_value s v with
      | none => rfl
      | some value => exact ih _ hrest
    · have hc : (v.special != 0 || decide (v.effect_index ∉ effect_list)) = true := by
        rw [← Bool.not_eq_false]
        exact fun h => hs ((hlist v).mp h)
      have hstep : save_uniform env s effect_list preset v = some preset := by
        unfold save_uniform
        rw [if_pos hc]
      rw [List.filter_cons_of_neg hs]
      simp only [save_uniforms, hstep]
      exact ih _ hrest

/-- The values of uniforms that can be read are all set. -/
theorem write_uniforms_total (env : environment) (s : runtime) (vars : List uniform)
    (preset : ini_file) (hvalues : ∀ var ∈ vars, ∃ value, uniform_value s var = some value) :
    ∃ preset1, write_uniforms env s preset vars = some preset1 := by
  induction vars generalizing preset with
  | nil => exact ⟨preset, rfl⟩
  | cons v rest ih =>
    obtain ⟨value, hv⟩ := hvalues v (List.mem_cons_self _ _)
    simp only [write_uniforms, hv]
    exact ih _ (fun var hvar => hvalues var (List.mem_cons_of_mem _ hvar))

/-- C22: `save_current_preset` returns when every uniform it writes is valid (its storage
range within the Uniform Storage, its effect index within the loaded effects, at most 16
components), and the store it leaves is the one the specification describes: `Techniques`
set to the names of exactly the enabled techniques in live order, `TechniqueSorting` to the
names of all techniques in live order, and then the value of a uniform set (section: the file
name of its effect, key: its name) for exactly the uniforms that are not special and whose
effect index belongs to a technique that is enabled or has a non-zero toggle key, each value
with exactly `components()` elements. -/
theorem save_current_preset_refines (env : environment) (s : runtime) (preset : ini_file)
    (hvalid : ∀ var ∈ s._uniforms, uniform_saved s var = true →
      var.storage_offset + var.size ≤ s._uniform_data_storage.length ∧
        var.effect_index < s._loaded_effects.length ∧ var.type.components ≤ 16) :
    ∃ preset1, save_current_preset env s preset = some preset1 ∧
      save_current_preset_spec env s preset = some preset1 ∧
      ∀ var ∈ s._uniforms, uniform_saved s var = true →
        ∃ value, uniform_value s var = some value ∧ value.length = var.type.components := by
  have hvalues : ∀ var ∈ s._uniforms, uniform_saved s var = true →
      ∃ value, uniform_value s var = some value ∧ value.length = var.type.components := by
    intro var hvar hs
    obtain ⟨h1, _, h3⟩ := hvalid var hvar hs
    exact uniform_value_length s var h1 h3
  obtain ⟨hl1, hl2, hl3⟩ := save_technique_lists s._techniques
    { effect_list := [], technique_list := [], sorted_technique_list := [], preset := preset }
  have hsaved : ∀ var : uniform,
      (var.special != 0 || decide (var.effect_index ∉
          (s._techniques.foldl save_technique
            { effect_list := [], technique_list := [], sorted_technique_list := [],
              preset := preset }).effect_list)) = false ↔
        uniform_saved s var = true := by
    intro var
    have := hl3 var.effect_index
    simp only [List.not_mem_nil, false_or] at this
    unfold uniform_saved
    simp only [Bool.or_eq_false_iff, bne_eq_false_iff_eq, decide_eq_false_iff_not, not_not,
      Bool.and_eq_true, beq_iff_eq, decide_eq_true_eq, this]
  have heq : save_current_preset env s preset = save_current_preset_spec env s preset := by
    unfold save_current_preset save_current_preset_spec
    simp only
    rw [save_uniforms_eq env s _ hsaved s._uniforms _
      (fun var hvar hs => (hvalid var hvar hs).2), hl1, hl2]
    simp only [List.nil_append]
  obtain ⟨preset1, h1⟩ := write_uniforms_total env s (s._uniforms.filter (uniform_saved s))
    ((((s._techniques.foldl save_technique
        { effect_list := [], technique_list := [], sorted_technique_list := [],
          preset := preset }).preset.set
      "" "Techniques"
        (ini_value.strings ((s._techniques.filter technique.enabled).map technique.name))).set
      "" "TechniqueSorting" (ini_value.strings (s._techniques.map technique.name))).set
      "" "PreprocessorDefinitions" (ini_value.strings s._preset_preprocessor_definitions))
    (by
      intro var hvar
      obtain ⟨hmem, hs⟩ := List.mem_filter.mp hvar
      obtain ⟨value, hv, _⟩ := hvalues var hmem hs
      exact ⟨value, hv⟩)
  have hspec : save_current_preset_spec env s preset = some preset1 := h1
  exact ⟨preset1, by rw [heq, hspec], hspec, hvalues⟩

/-- Witness of C22: in `demo_roundtrip` only `Tint` is enabled and no technique has a toggle
key; the int3 uniform of its effect is written with three values, and the entry of the float
uniform of the other effect stays what the store held. -/
theorem save_current_preset_refines_witness :
    ∃ preset1, save_current_preset (demo_env []) demo_roundtrip demo_stale = some preset1 ∧
      save_current_preset_spec (demo_env []) demo_roundtrip demo_stale = some preset1 ∧
      preset1.get_strings "" "Techniques" [] = ["Tint"] ∧
      preset1.get_strings "" "TechniqueSorting" [] = ["Tint", "Glow"] ∧
      preset1 "Tint.fx" "iParams" = some (ini_value.numbers [1, 2, 3]) ∧
      preset1 "Glow.fx" "fGlow" = demo_stale "Glow.fx" "fGlow" := by
  obtain ⟨preset1, h1, h2, _⟩ := save_current_preset_refines (demo_env []) demo_roundtrip
    demo_stale (by decide)
  have : (some preset1).map (fun p => (p.get_strings "" "Techniques" [],
      p.get_strings "" "TechniqueSorting" [], p "Tint.fx" "iParams", p "Glow.fx" "fGlow")) =
      some (["Tint"], ["Tint", "Glow"], some (ini_value.numbers [1, 2, 3]),
        demo_stale "Glow.fx" "fGlow") := by
    rw [← h1]; decide
  simp only [Option.map_some', Option.some.injEq, Prod.mk.injEq] at this
  exact ⟨preset1, h1, h2, this.1, this.2.1, this.2.2.1, this.2.2.2⟩

/-! ## The preset-validity check and the technique list -/

/-- Counterexample to C20 as stated: `save_current_preset` on a runtime without enabled
technique writes an empty `Techniques` list; the file with that store exists, its technique
list is empty, and `check_preset_path` returns true. -/
theorem check_preset_path_counterexample :
    demo_registry._techniques.map technique.enabled = [false, false, false] ∧
      (save_current_preset (demo_env []) demo_registry ini_file.empty).map
        (fun preset =>
          (preset "" "Techniques",
            ((demo_cache_env (fun _ => preset)).status
              (absolute_path (demo_cache_env (fun _ => preset)) "A.ini")).1,
            check_preset_path (demo_cache_env (fun _ => preset)) "A.ini")) =
        some (some (ini_value.strings []), file_type.regular, true) := by
  decide

/-- C20, amended: when `ini_file::has` reads the stores of `load_cache`, `check_preset_path(p)`
returns true if and only if the extension of `p` is `.ini` or `.txt`, the status of the
absolute path is neither that of a directory nor the error `ERROR_INVALID_NAME`, and the
path either does not exist or the store of its file has an entry under the key `Techniques`
of the unnamed section, whatever the entry holds; in particular a file whose technique list
is empty is accepted.  In every other case the function returns false. -/
theorem check_preset_path_key_present (env : environment) (load_cache : String → ini_file)
    (hcache : reads_cache env load_cache) (p : String) :
    (check_preset_path env p = true ↔
      (env.extension p = ".ini" ∨ env.extension p = ".txt") ∧
      (env.status (absolute_path env p)).1 ≠ file_type.directory ∧
      (env.status (absolute_path env p)).2 ≠ 0x7b ∧
      ((env.status (absolute_path env p)).1 = file_type.not_found ∨
        ∃ value, load_cache (absolute_path env p) "" "Techniques" = some value)) ∧
    ((env.extension p = ".ini" ∨ env.extension p = ".txt") →
      (env.status (absolute_path env p)).1 ≠ file_type.directory →
      (env.status (absolute_path env p)).2 ≠ 0x7b →
      load_cache (absolute_path env p) "" "Techniques" = some (ini_value.strings []) →
      check_preset_path env p = true) := by
  have hhas : env.ini_has (absolute_path env p) "" "Techniques" = true ↔
      ∃ value, load_cache (absolute_path env p) "" "Techniques" = some value := by
    rw [hcache, ini_file.has, Option.isSome_iff_exists]
  have hiff := check_preset_path_iff env p
  rw [hhas] at hiff
  exact ⟨hiff, fun hext hdir hec hlist => hiff.mpr ⟨hext, hdir, hec, Or.inr ⟨_, hlist⟩⟩⟩

/-- Witness of C20: a file that holds only an empty technique list is accepted, a file with
an empty store is not. -/
theorem check_preset_path_key_present_witness :
    check_preset_path
        (demo_cache_env (fun _ => ini_file.empty.set "" "Techniques" (ini_value.strings [])))
        "A.ini" = true ∧
      check_preset_path (demo_cache_env (fun _ => ini_file.empty)) "A.ini" = false := by
  refine ⟨(check_preset_path_key_present
    (demo_cache_env (fun _ => ini_file.empty.set "" "Techniques" (ini_value.strings [])))
    (fun _ => ini_file.empty.set "" "Techniques" (ini_value.strings []))
    (fun _ _ _ => rfl) "A.ini").2 (Or.inl (by decide)) (by decide) (by decide) (by decide), ?_⟩
  decide

/-! ## The smooth transition of float uniforms -/

/-- Counterexample to C15 as stated: a transition of 1000 ms of which no time has passed
(`left = 1000`, `frame = 0`), a lane that holds `old = 1e-10f` and the target `new = 1.0f`.
In the arithmetic of `float`, `new - old` is `1.0f`, divided by `1000.0f` and multiplied by
`1000.0f` it is `1.0f` again, and the applied value is `1.0f - 1.0f = 0.0f`, which is below
`old`. -/
theorem transition_counterexample :
    demo_transition._is_in_between_presets_transition = true ∧
      transition_ms_left demo_transition = 1000 ∧
      transition_ms_left_from_last_frame demo_transition = 1000 ∧
      uniform_value demo_transition demo_lane_uniform = some (ini_value.floats [0x2EDBE6FF]) ∧
      demo_target "Glow.fx" "fStrength" = some (ini_value.floats [0x3F800000]) ∧
      (load_current_preset (ieee_library stable_sort) (demo_env []) demo_target
          demo_transition).map
        (fun s => (s._is_in_between_presets_transition, uniform_value s demo_lane_uniform)) =
        some (true, some (ini_value.floats [0])) ∧
      float_value 0 < float_value 0x2EDBE6FF ∧ float_value 0x2EDBE6FF < float_value 0x3F800000 := by
  refine ⟨by decide, by decide, by decide, by decide, by decide, by decide, ?_, ?_⟩
  · norm_num [float_value, float_abs, float_sign, float_exponent, float_fraction]
  · norm_num [float_value, float_abs, float_sign, float_exponent, float_fraction]

/-- The first elements of the array `ini_file::get` fills only depend on the first elements
of the array. -/
theorem get_float_take (preset : ini_file) (section_name key : String) (values : List Nat)
    (k : Nat) :
    (preset.get_float section_name key values).take k =
      preset.get_float section_name key (values.take k) := by
  unfold ini_file.get_float
  split
  · rw [← List.map_take, List.take_range, List.length_take]
  · rfl

/-- The values `ini_file::get` leaves in an array of 32-bit lanes are 32-bit lanes. -/
theorem get_float_lt (preset : ini_file) (section_name key : String) (values : List Nat)
    (h : ∀ x ∈ values, x < 4294967296) :
    ∀ x ∈ preset.get_float section_name key values, x < 4294967296 := by
  unfold ini_file.get_float
  split
  · intro x hx
    obtain ⟨i, _, rfl⟩ := List.mem_map.mp hx
    exact Nat.mod_lt _ (by norm_num)
  · exact h

/-- One iteration of the loop over the uniforms in `load_current_preset`, for a valid float
variable: it returns, writes only inside the variable's range, and the first `k` lanes of
the variable (`k <= 16` lanes within its size) are the applied lanes. -/
theorem load_uniform_lanes (lib : cxx_library) (env : environment) (preset : ini_file)
    (left total : Int) (s : runtime) (var : uniform) (k : Nat)
    (hb : var.type.base = datatype.t_float)
    (hstorage : var.storage_offset + var.size ≤ s._uniform_data_storage.length)
    (heffect : var.effect_index < s._loaded_effects.length)
    (hk : k ≤ 16) (hsize : 4 * k ≤ var.size) :
    ∃ s1, load_uniform lib env preset left total s var = some s1 ∧
      outside_unchanged s s1 var ∧
      leading_lanes s1 var k = applied_lanes lib env preset left total s var k := by
  have hfloat : var.type.is_floating_point = true := by
    unfold type.is_floating_point; rw [hb]
  obtain ⟨out, hout, htake⟩ := get_uniform_value_float_lanes s var (List.replicate 16 0) 16
    k hstorage hfloat (by simp) hk hsize
  obtain ⟨out1, hout1, holen⟩ := get_uniform_value_float_length s var (List.replicate 16 0) 16
    hstorage (by simp)
  rw [hout] at hout1
  have hout2 : out1 = out := (Option.some.inj hout1).symm
  rw [hout2] at holen
  have holen16 : out.length = 16 := by rw [holen]; simp
  obtain ⟨_, _, gfloat⟩ := ini_get_length preset
    (env.filename (s._loaded_effects[var.effect_index]).source_file) var.name
  have hold : out.take k = leading_lanes s var k := htake
  have hnew : (preset.get_float (env.filename (s._loaded_effects[var.effect_index]).source_file)
      var.name out).take k = preset_lanes env preset s var k := by
    rw [get_float_take, hold]
    unfold preset_lanes uniform_key
    rw [List.getElem?_eq_getElem heffect]
  unfold load_uniform
  rw [List.getElem?_eq_getElem heffect]
  simp only [hb, hout]
  unfold applied_lanes
  by_cases htr : s._is_in_between_presets_transition = true
  · rw [if_pos htr, if_pos htr]
    obtain ⟨s1, h1, hframe, hl⟩ := set_uniform_value_float_lanes s var
      (List.zipWith (transition_lane lib left total)
        (preset.get_float (env.filename (s._loaded_effects[var.effect_index]).source_file)
          var.name out) out) 16
      k hstorage hfloat
      (by rw [List.length_zipWith, gfloat, holen16]; simp) hk hsize
    refine ⟨s1, h1, hframe, ?_⟩
    unfold leading_lanes
    rw [hl, List.take_zipWith, hnew, hold]
    rfl
  · rw [if_neg htr, if_neg htr]
    obtain ⟨s1, h1, hframe, hl⟩ := set_uniform_value_float_lanes s var
      (preset.get_float (env.filename (s._loaded_effects[var.effect_index]).source_file)
        var.name out) 16
      k hstorage hfloat (by rw [gfloat, holen16]) hk hsize
    refine ⟨s1, h1, hframe, ?_⟩
    unfold leading_lanes
    rw [hl, hnew]
    conv_rhs => rw [← List.map_id (preset_lanes env preset s var k)]
    apply List.map_congr_left
    intro x hx
    have hlt : x < 4294967296 := by
      unfold preset_lanes leading_lanes at hx
      exact get_float_lt preset _ _ _
        (fun y hy => bytes_lanes_lt _ y (List.mem_of_mem_take hy)) x hx
    simp only [id]
    exact Nat.mod_eq_of_lt hlt

/-- The applied lanes of a variable only depend on the state through the bytes of the
variable's range, the effects and the transition flag. -/
theorem applied_lanes_congr (lib : cxx_library) (env : environment) (preset : ini_file)
    (left total : Int) (s s1 : runtime) (var : uniform) (k : Nat)
    (hs1 : s1 = { s with _uniform_data_storage := s1._uniform_data_storage })
    (hrange : range_bytes s1 var = range_bytes s var) :
    applied_lanes lib env preset left total s1 var k =
      applied_lanes lib env preset left total s var k := by
  have hflag : s1._is_in_between_presets_transition = s._is_in_between_presets_transition := by
    rw [hs1]
  have heffects : s1._loaded_effects = s._loaded_effects := by rw [hs1]
  unfold applied_lanes preset_lanes leading_lanes uniform_key
  rw [hrange, hflag, heffects]

/-- The loop over the uniforms in `load_current_preset`, over valid uniforms with storage
ranges that do not overlap: afterwards the first `k` lanes of every float variable (`k <= 16`
lanes within its size) are the applied lanes, taken in the state before the loop. -/
theorem load_uniforms_lanes (lib : cxx_library) (env : environment) (preset : ini_file)
    (left total : Int) (vars : List uniform) (s : runtime)
    (hdisjoint : vars.Pairwise storage_disjoint)
    (hvalid : ∀ var ∈ vars,
      var.storage_offset + var.size ≤ s._uniform_data_storage.length ∧
        var.effect_index < s._loaded_effects.length) :
    ∃ s1, load_uniforms lib env preset left total s vars = some s1 ∧ storage_only s s1 ∧
      (∀ var, (∀ w ∈ vars, storage_disjoint w var) → range_bytes s1 var = range_bytes s var) ∧
      ∀ var ∈ vars, var.type.base = datatype.t_float → ∀ k, k ≤ 16 → 4 * k ≤ var.size →
        leading_lanes s1 var k = applied_lanes lib env preset left total s var k := by
  induction vars generalizing s with
  | nil => exact ⟨s, rfl, ⟨rfl, rfl⟩, fun _ _ => rfl, fun var hvar => by simp at hvar⟩
  | cons v rest ih =>
    obtain ⟨hdv, hdrest⟩ := List.pairwise_cons.mp hdisjoint
    obtain ⟨hs, he⟩ := hvalid v (List.mem_cons_self _ _)
    obtain ⟨s1, h1, hframe⟩ := load_uniform_frame lib env preset left total s v hs he
    have hs1 : s1 = { s with _uniform_data_storage := s1._uniform_data_storage } := hframe.1
    have hlen1 : s1._uniform_data_storage.length = s._uniform_data_storage.length := hframe.2.1
    obtain ⟨s2, h2, hso2, hrange2, hlanes2⟩ := ih s1 hdrest
      (by
        intro w hw
        obtain ⟨hws, hwe⟩ := hvalid w (List.mem_cons_of_mem _ hw)
        rw [hlen1, hs1]
        exact ⟨hws, hwe⟩)
    have hs2 : s2 = { s1 with _uniform_data_storage := s2._uniform_data_storage } := hso2.1
    refine ⟨s2, by simp only [load_uniforms, h1, h2], ⟨?_, hso2.2.trans hlen1⟩, ?_, ?_⟩
    · rw [hs2, hs1]
    · intro var hvar
      rw [hrange2 var (fun w hw => hvar w (List.mem_cons_of_mem _ hw))]
      exact range_bytes_outside s s1 v var hframe (hvar v (List.mem_cons_self _ _))
    · intro var hvar hb k hk hsize
      by_cases hrest : var ∈ rest
      · rw [hlanes2 var hrest hb k hk hsize]
        exact applied_lanes_congr lib env preset left total s s1 var k hs1
          (range_bytes_outside s s1 v var hframe (hdv var hrest))
      · have hv : var = v := by
          rcases List.mem_cons.mp hvar with h | h
          · exact h
          · exact absurd h hrest
        subst hv
        obtain ⟨s1', h1', _, hl⟩ := load_uniform_lanes lib env preset left total s var k hb hs
          he hk hsize
        rw [h1] at h1'
        have heq : s1 = s1' := Option.some.inj h1'
        rw [← heq] at hl
        rw [← hl]
        unfold leading_lanes
        rw [hrange2 var (fun w hw => (hdv w hw).symm)]

/-- In exact arithmetic the transition formula gives a value between the current value and
the target value, for a remaining time and a frame time that are not negative and not both
zero. -/
theorem transition_formula_between (value_old value : ℚ) (left frame : Int)
    (hleft : 0 ≤ left) (hframe : 0 ≤ frame) (htotal : 0 < left + frame) :
    min value_old value ≤
        transition_formula (fun a b : ℚ => a - b) (fun a b => a * b) (fun a b => a / b)
          (fun x => (x : ℚ)) left (left + frame) value value_old ∧
      transition_formula (fun a b : ℚ => a - b) (fun a b => a * b) (fun a b => a / b)
          (fun x => (x : ℚ)) left (left + frame) value value_old ≤ max value_old value := by
  have hL : (0 : ℚ) ≤ (left : ℚ) := by exact_mod_cast hleft
  have hF : (0 : ℚ) ≤ (frame : ℚ) := by exact_mod_cast hframe
  have hT : (0 : ℚ) < ((left + frame : Int) : ℚ) := by exact_mod_cast htotal
  have hr0 : 0 ≤ (left : ℚ) / ((left + frame : Int) : ℚ) := div_nonneg hL (le_of_lt hT)
  have hr1 : (left : ℚ) / ((left + frame : Int) : ℚ) ≤ 1 := by
    rw [div_le_one hT]
    push_cast
    linarith
  have hform : transition_formula (fun a b : ℚ => a - b) (fun a b => a * b) (fun a b => a / b)
      (fun x => (x : ℚ)) left (left + frame) value value_old =
      value - (value - value_old) * ((left : ℚ) / ((left + frame : Int) : ℚ)) := by
    unfold transition_formula
    simp only
    ring
  rw [hform]
  generalize (left : ℚ) / ((left + frame : Int) : ℚ) = r at hr0 hr1
  rcases le_total value_old value with h | h
  · rw [min_eq_left h, max_eq_right h]
    constructor <;> nlinarith
  · rw [min_eq_right h, max_eq_left h]
    constructor <;> nlinarith

/-- C15, amended: a non-deferred `load_current_preset` returns (when `std::sort` meets its
contract, the effect indices and the uniforms are valid and the storage ranges of the
uniforms do not overlap), and afterwards the transition flag is set exactly when a
transition was active with a remaining time `left > 0`.  Every lane of a float variable that
the call writes (the first `k` lanes, for every `k <= 16` with `4 * k <= size`) then holds:
while the transition goes on, the result of `new - ((new - old) / (left + frame)) * left` in
the arithmetic of `float`, each of the four operations rounded (`old` is the lane before,
`new` the value of the preset store); and exactly `new` when the remaining time is `<= 0`
or no transition is active.  In exact arithmetic the formula lies between `old` and `new`,
for `left >= 0`, `frame >= 0` and `left + frame > 0`; the rounded result need not. -/
theorem load_current_preset_transition (lib : cxx_library) (env : environment)
    (preset : ini_file) (s : runtime) (hsort : std_sort_contract lib.sort)
    (hvalid : effect_indices_valid s) (huniforms : uniforms_valid s)
    (hnow : load_deferred preset s = false)
    (hdisjoint : s._uniforms.Pairwise storage_disjoint) :
    (∃ s2, load_current_preset lib env preset s = some s2 ∧
      s2._is_in_between_presets_transition =
        (s._is_in_between_presets_transition && decide (0 < transition_ms_left s)) ∧
      ∀ var ∈ s._uniforms, var.type.base = datatype.t_float →
        ∀ k, k ≤ 16 → 4 * k ≤ var.size →
        leading_lanes s2 var k =
          if (s._is_in_between_presets_transition && decide (0 < transition_ms_left s)) = true
          then
            (List.zipWith
              (transition_formula lib.float_sub lib.float_mul lib.float_div lib.float_of_int64
                (transition_ms_left s) (transition_ms_left_from_last_frame s))
              (preset_lanes env preset s var k) (leading_lanes s var k)).map
              (fun x => x % 4294967296)
          else preset_lanes env preset s var k) ∧
    ∀ (value_old value : ℚ) (left frame : Int), 0 ≤ left → 0 ≤ frame → 0 < left + frame →
      min value_old value ≤
          transition_formula (fun a b : ℚ => a - b) (fun a b => a * b) (fun a b => a / b)
            (fun x => (x : ℚ)) left (left + frame) value value_old ∧
        transition_formula (fun a b : ℚ => a - b) (fun a b => a * b) (fun a b => a / b)
            (fun x => (x : ℚ)) left (left + frame) value value_old ≤ max value_old value := by
  refine ⟨?_, transition_formula_between⟩
  obtain ⟨s2, h2, _⟩ := apply_preset_eq lib env preset s hsort hvalid huniforms
  obtain ⟨hperm, _⟩ := hsort (technique_before (ordering_list preset)) s._techniques
    (technique_before_strict_weak _)
  refine ⟨s2, by simp only [load_current_preset, hnow, Bool.false_eq_true, if_false, h2], ?_⟩
  unfold apply_preset at h2
  simp only at h2
  generalize hsR : reorder_techniques lib preset s = sR at h2
  have hsRt : sR._techniques =
      lib.sort (technique_before (ordering_list preset)) s._techniques := by
    rw [← hsR, reorder_techniques]; split <;> rfl
  have hsRe : sR._loaded_effects = s._loaded_effects := by
    rw [← hsR, reorder_techniques]; split <;> rfl
  have hsRu : sR._uniforms = s._uniforms := by
    rw [← hsR, reorder_techniques]; split <;> rfl
  have hsRs : sR._uniform_data_storage = s._uniform_data_storage := by
    rw [← hsR, reorder_techniques]; split <;> rfl
  have hsRi : sR._is_in_between_presets_transition =
      (s._is_in_between_presets_transition && decide (0 < transition_ms_left s)) := by
    have hleft : ∀ techniques : List technique,
        transition_ms_left { s with _techniques := techniques } = transition_ms_left s :=
      fun _ => rfl
    rw [← hsR, reorder_techniques]
    simp only [hleft]
    by_cases hpos : 0 < transition_ms_left s
    · have hn : ¬ transition_ms_left s ≤ 0 := by omega
      simp [hpos, hn]
    · have hn : transition_ms_left s ≤ 0 := by omega
      cases hfl : s._is_in_between_presets_transition <;> simp [hpos, hn, hfl]
  obtain ⟨s3, h3, hso3, _, hlanes⟩ := load_uniforms_lanes lib env preset
    (transition_ms_left s) (transition_ms_left_from_last_frame s) s._uniforms sR hdisjoint
    (by
      intro var hvar
      rw [hsRs, hsRe]
      exact huniforms var hvar)
  rw [hsRu, h3] at h2
  simp only at h2
  have hs3 : s3 = { sR with _uniform_data_storage := s3._uniform_data_storage } := hso3.1
  have hvalid3 : effect_indices_valid s3 := by
    intro T hTmem
    rw [hs3] at hTmem ⊢
    simp only at hTmem ⊢
    rw [hsRt] at hTmem
    rw [hsRe]
    exact hvalid T (hperm.subset hTmem)
  obtain ⟨s4, h4, hreg, _⟩ := load_techniques_all preset
    (preset.get_strings "" "Techniques" []) s3 hvalid3
  rw [h4] at h2
  have h42 : s4 = s2 := Option.some.inj h2
  rw [h42] at hreg
  have hstorage2 : s2._uniform_data_storage = s3._uniform_data_storage := by rw [hreg.1]
  have hflag2 : s2._is_in_between_presets_transition =
      sR._is_in_between_presets_transition := by
    rw [hreg.1, hs3]
  refine ⟨by rw [hflag2, hsRi], ?_⟩
  intro var hvar hb k hk hsize
  have hl := hlanes var hvar hb k hk hsize
  have hc2 : leading_lanes s2 var k = leading_lanes s3 var k := by
    unfold leading_lanes range_bytes
    rw [hstorage2]
  rw [hc2, hl]
  unfold applied_lanes preset_lanes leading_lanes uniform_key range_bytes
  rw [hsRi, hsRe, hsRs]

/-- Witness of C15: two seconds after the switch the remaining time of the transition of
1000 ms is `-1000`; `load_current_preset` clears the transition flag and the lane holds
exactly the target `1.0f`. -/
theorem load_current_preset_transition_witness :
    demo_finished._is_in_between_presets_transition = true ∧
      transition_ms_left demo_finished = -1000 ∧
      ∃ s2, load_current_preset (ieee_library stable_sort) (demo_env []) demo_target
          demo_finished = some s2 ∧
        s2._is_in_between_presets_transition = false ∧
        leading_lanes s2 demo_lane_uniform 1 = [0x3F800000] := by
  obtain ⟨s2, h2, hflag, hl⟩ := (load_current_preset_transition (ieee_library stable_sort)
    (demo_env []) demo_target demo_finished stable_sort_contract
    (by unfold effect_indices_valid; decide) (by unfold uniforms_valid; decide) (by decide)
    (by unfold storage_disjoint; decide)).1
  refine ⟨by decide, by decide, s2, h2, ?_, ?_⟩
  · rw [hflag]
    decide
  · rw [hl demo_lane_uniform (by decide) (by decide) 1 (by decide) (by decide)]
    decide

end reshade
